import Mathlib

/-!
PLAGUE-V: target-map codec, discovery inventory, multi-target dispatcher and
single-shot tool.

A shallow embedding of `ioa_parser.c`, `plague_v_recon.c`, `plague_v_multi.c` and
`plague_v_poc.c`.

Conventions of the embedding
* A C string and the contents of a text file are lists of characters, one
  character per byte; the terminating NUL of a C string is not part of the list.
* `unsigned int` is 32 bits and `unsigned long` is 64 bits (LP64, the glibc
  target of the build); the conversion `%u` follows the C library: the digits
  are converted as by `strtoul` and the result is stored through a cast to
  `unsigned int`.
* `malloc` in `load_ioa_map` is taken to succeed; the outcome of `realloc` in
  `inventory_add` is an explicit argument.
* Diagnostics written to `stderr`/`stdout` are not modelled.
* Counters and sizes that the source keeps in `int` are natural numbers; they
  only count upwards from zero.
* The ASDU handlers run on the connection's thread; each is the only writer of
  its globals, so its calls are modelled as a sequence.
* Type identifiers and causes of transmission are the numbers the protocol
  library gives them; an ASDU is what the handler reads from it.

Layout: the embedding and the inputs used in examples come first, then the
lemmas about the read loop, the conversions and the writer, then one section per
claim.
-/

namespace PlagueV

/-! ## C library -/

/-- The `isspace` of the C locale: space, `\t`, `\n`, `\v`, `\f`, `\r`. -/
def isspace (c : Char) : Bool :=
  c.toNat == 32 || (9 ≤ c.toNat && c.toNat ≤ 13)

/-- The `isdigit` of the C locale. -/
def isdigit (c : Char) : Bool :=
  48 ≤ c.toNat && c.toNat ≤ 57

/-- The `tolower` of the C locale, as a character code. -/
def tolower (c : Char) : Nat :=
  if 65 ≤ c.toNat ∧ c.toNat ≤ 90 then c.toNat + 32 else c.toNat

/-- The NUL character. -/
def NUL : Char := Char.ofNat 0

/-- The C string held in a buffer: the characters before the first NUL. -/
def cstr (buf : List Char) : List Char :=
  buf.takeWhile (fun c => c != NUL)

/-- `strcasecmp(a, b)`: difference of the first pair of characters that differ
after lowering, `0` when there is none. -/
def strcasecmp : List Char → List Char → Int
  | [], [] => 0
  | [], b :: _ => 0 - (tolower b : Int)
  | a :: _, [] => (tolower a : Int)
  | a :: as, b :: bs =>
      if tolower a = tolower b then strcasecmp as bs
      else (tolower a : Int) - (tolower b : Int)

/-- `strncpy(dst, src, n)` followed by `dst[n] = 0`, read back as a C string. -/
def strncpy (src : List Char) (n : Nat) : List Char :=
  src.take n

/-- `fgets(buf, n + 1, fp)`: reads at most `n` characters and stops after a
newline.  Returns the characters read and the rest of the stream; nothing read
(end of file) is the `NULL` result. -/
def fgets : Nat → List Char → List Char × List Char
  | 0, fp => ([], fp)
  | _ + 1, [] => ([], [])
  | n + 1, c :: fp =>
      if c = '\n' then ([c], fp)
      else (c :: (fgets n fp).1, (fgets n fp).2)

/-- White space skipped by a conversion or by a blank in a `scanf` format. -/
def skip_ws : List Char → List Char
  | [] => []
  | c :: s => if isspace c then skip_ws s else c :: s

/-- Value of a run of decimal digits, most significant first. -/
def digits_val (acc : Nat) : List Char → Nat
  | [] => acc
  | c :: s => digits_val (acc * 10 + (c.toNat - 48)) s

/-- Largest `unsigned long`. -/
def ULONG_MAX : Nat := 2 ^ 64 - 1

/-- `strtoul` on an optional sign and a non-empty run of digits: saturates at
`ULONG_MAX` on overflow, negates modulo `2 ^ 64` after a minus sign. -/
def strtoul (neg : Bool) (ds : List Char) : Nat :=
  if digits_val 0 ds > ULONG_MAX then ULONG_MAX
  else if neg then (2 ^ 64 - digits_val 0 ds) % 2 ^ 64
  else digits_val 0 ds

/-- The conversion `%u`: skips white space, reads an optional sign and the
longest run of digits, stores the value as `unsigned int`.  `Except.error` is
the value `sscanf` returns when the conversion fails first: `-1` (`EOF`) at the
end of the input, `0` when no digit is found. -/
def conv_u (s : List Char) : Except Int (Nat × List Char) :=
  match skip_ws s with
  | [] => Except.error (-1)
  | c :: rest =>
      let neg := c = '-'
      let s1 := if c = '-' ∨ c = '+' then rest else c :: rest
      let ds := s1.takeWhile isdigit
      if ds = [] then Except.error 0
      else Except.ok (strtoul neg ds % 2 ^ 32, s1.dropWhile isdigit)

/-- Reads at most `width` characters up to the next white space. -/
def scan_tok : Nat → List Char → List Char × List Char
  | 0, s => ([], s)
  | _ + 1, [] => ([], [])
  | n + 1, c :: s =>
      if isspace c then ([], c :: s)
      else (c :: (scan_tok n s).1, (scan_tok n s).2)

/-- The conversion `%<width>s`: skips white space, then reads at most `width`
characters that are not white space; fails at the end of the input. -/
def conv_s (width : Nat) (s : List Char) : Option (List Char × List Char) :=
  match skip_ws s with
  | [] => none
  | c :: rest => some (scan_tok width (c :: rest))

/-- Outcome of `sscanf(line, "%u %63s %15s", &ioa_val, name_buf, state_buf)`. -/
structure ScanResult where
  matched : Int
  ioa_val : Nat
  name_buf : List Char
  state_buf : List Char
deriving DecidableEq, Repr

/-- The call `sscanf(line, "%u %63s %15s", ...)` of `load_ioa_map`.  `ioa_val`
starts as `0`; buffers that were not assigned are shown empty. -/
def sscanf_u_63s_15s (line : List Char) : ScanResult :=
  match conv_u line with
  | Except.error r => ⟨r, 0, [], []⟩
  | Except.ok (ioa_val, s1) =>
      match conv_s 63 (skip_ws s1) with
      | none => ⟨1, ioa_val, [], []⟩
      | some (name_buf, s2) =>
          match conv_s 15 (skip_ws s2) with
          | none => ⟨2, ioa_val, name_buf, []⟩
          | some (state_buf, _) => ⟨3, ioa_val, name_buf, state_buf⟩

/-! ## ioa_parser.c -/

/-- Size of the line buffer. -/
def LINE_BUF_SIZE : Nat := 256

/-- The 24-bit maximum of an information object address. -/
def IOA_MAX : Nat := 16777215

/-- Size of the name field of a target. -/
def IOA_NAME_MAX : Nat := 64

/-- A node of the target list (`next` is the tail of the Lean list). -/
structure IOATarget where
  ioa : Nat
  name : List Char
  target_state : Nat
deriving DecidableEq, Repr

/-- Helper of the parser: is the line blank or a comment? -/
def is_skip_line : List Char → Bool
  | [] => true
  | c :: line =>
      if c = '#' then true
      else if !isspace c then false
      else is_skip_line line

/-- The text `OFF`. -/
def str_OFF : List Char := ['O', 'F', 'F']

/-- The text `ON`. -/
def str_ON : List Char := ['O', 'N']

/-- The state parsed from the third field: `0` for `OFF`, `1` for `ON`, and `0`
(with a warning) for anything else. -/
def parse_state (state_buf : List Char) : Nat :=
  if strcasecmp state_buf str_OFF = 0 then 0
  else if strcasecmp state_buf str_ON = 0 then 1
  else 0

/-- Body of the read loop of `load_ioa_map` on one line buffer: `none` where the
source says `continue`, otherwise the node that is appended. -/
def parse_line (line : List Char) : Option IOATarget :=
  if is_skip_line line then none
  else
    let r := sscanf_u_63s_15s line
    if r.matched < 3 then none
    else if r.ioa_val > IOA_MAX then none
    else some
      { ioa := r.ioa_val % 2 ^ 32
        name := strncpy r.name_buf (IOA_NAME_MAX - 1)
        target_state := parse_state r.state_buf }

/-- The read loop of `load_ioa_map`: `head` is the list built so far (nodes are
appended at the tail), `count` the number of nodes.  One unit of fuel per call
of `fgets`. -/
def load_loop : Nat → List Char → List IOATarget → Nat → List IOATarget × Nat
  | 0, _, head, count => (head, count)
  | fuel + 1, fp, head, count =>
      match fgets (LINE_BUF_SIZE - 1) fp with
      | ([], _) => (head, count)
      | (c :: line, rest) =>
          match parse_line (cstr (c :: line)) with
          | none => load_loop fuel rest head count
          | some node => load_loop fuel rest (head ++ [node]) (count + 1)

/-- Load the target map from a config file.  The argument is the contents of
the file, `none` when it cannot be opened.  `none` is the `NULL` result. -/
def load_ioa_map (config : Option (List Char)) : Option (List IOATarget) :=
  match config with
  | none => none
  | some fp =>
      let r := load_loop (fp.length + 1) fp [] 0
      if r.2 = 0 then none else some r.1

/-- Count the nodes of a list returned by `load_ioa_map` (`NULL` has none). -/
def get_ioa_count (head : Option (List IOATarget)) : Nat :=
  match head with
  | none => 0
  | some l => l.length

/-! ## plague_v_recon.c: inventory and config writer -/

/-- Category of a discovered point. -/
inductive IOACategory where
  | IOA_CAT_SINGLE_POINT
  | IOA_CAT_DOUBLE_POINT
  | IOA_CAT_BITSTRING
  | IOA_CAT_MEASURED_NORM
  | IOA_CAT_MEASURED_SCALED
  | IOA_CAT_MEASURED_SHORT
  | IOA_CAT_OTHER
deriving DecidableEq, Repr

/-- A discovered point.  `analog_value` stands for the bit pattern of the
`float`; the inventory only stores it. -/
structure DiscoveredIOA where
  ioa : Nat
  type_id : Nat
  category : IOACategory
  is_digital : Bool
  digital_state : Bool
  analog_value : Nat
  bitstring : Nat
deriving DecidableEq, Repr

/-- The dynamic array of discovered points: `entries` lists the slots
`0 .. count - 1` of the buffer, `capacity` is the number of allocated slots. -/
structure IOAInventory where
  entries : List DiscoveredIOA
  capacity : Nat
deriving DecidableEq, Repr

/-- The field `count`: the number of slots in use. -/
def IOAInventory.count (inv : IOAInventory) : Nat :=
  inv.entries.length

/-- Initial number of slots. -/
def INITIAL_CAPACITY : Nat := 32

/-- Initialise an empty inventory; `malloc_ok` tells whether the buffer could
be allocated. -/
def inventory_init (malloc_ok : Bool) : IOAInventory :=
  { entries := [], capacity := if malloc_ok then INITIAL_CAPACITY else 0 }

/-- The duplicate scan of `inventory_add`: is there a slot with this address? -/
def has_ioa : List DiscoveredIOA → Nat → Bool
  | [], _ => false
  | e :: es, ioa => if e.ioa = ioa then true else has_ioa es ioa

/-- Add a discovered point.  `realloc_ok n` tells whether growing the buffer to
`n` slots succeeds.  Returns `0` for a duplicate, `-1` when growing fails, `1`
when the point was stored. -/
def inventory_add (realloc_ok : Nat → Bool) (inv : IOAInventory)
    (entry : DiscoveredIOA) : Int × IOAInventory :=
  if has_ioa inv.entries entry.ioa then (0, inv)
  else if inv.count ≥ inv.capacity then
    let new_cap := inv.capacity * 2
    if realloc_ok new_cap then
      (1, { entries := inv.entries ++ [entry], capacity := new_cap })
    else (-1, inv)
  else (1, { entries := inv.entries ++ [entry], capacity := inv.capacity })

/-- The character of a decimal digit. -/
def digit_char (d : Nat) : Char :=
  match d with
  | 0 => '0' | 1 => '1' | 2 => '2' | 3 => '3' | 4 => '4'
  | 5 => '5' | 6 => '6' | 7 => '7' | 8 => '8' | _ => '9'

/-- Decimal digits of `n` in front of `acc`; `fuel` bounds the number of digits. -/
def fmt_u_core : Nat → Nat → List Char → List Char
  | 0, _, acc => acc
  | fuel + 1, n, acc =>
      if n / 10 = 0 then digit_char (n % 10) :: acc
      else fmt_u_core fuel (n / 10) (digit_char (n % 10) :: acc)

/-- The conversion `%u` of `printf`. -/
def fmt_u (n : Nat) : List Char :=
  fmt_u_core (n + 1) n []

/-- The conversion `%-6u` of `printf`: left-justified in a field of width 6. -/
def fmt_u_left6 (n : Nat) : List Char :=
  fmt_u n ++ List.replicate (6 - (fmt_u n).length) ' '

/-- The conversion `%d` of `printf`. -/
def fmt_d (i : Int) : List Char :=
  if i < 0 then '-' :: fmt_u i.natAbs else fmt_u i.natAbs

/-- The name prefix chosen by the `switch` of `inventory_write_config`. -/
def name_pfx (cat : IOACategory) : List Char :=
  match cat with
  | IOACategory.IOA_CAT_SINGLE_POINT => ['S', 'P']
  | IOACategory.IOA_CAT_DOUBLE_POINT => ['D', 'P']
  | IOACategory.IOA_CAT_BITSTRING => ['B', 'S']
  | IOACategory.IOA_CAT_MEASURED_NORM => ['M', 'N']
  | IOACategory.IOA_CAT_MEASURED_SCALED => ['M', 'S']
  | IOACategory.IOA_CAT_MEASURED_SHORT => ['M', 'F']
  | IOACategory.IOA_CAT_OTHER => ['U', 'K']

/-- The state text of a config line: digital points get `ON`/`OFF`, the others
`OFF`. -/
def state_str (e : DiscoveredIOA) : List Char :=
  if e.is_digital then (if e.digital_state then str_ON else str_OFF)
  else str_OFF

/-- The name written for an entry: `<prefix>_IOA_<ioa>`. -/
def config_name (e : DiscoveredIOA) : List Char :=
  name_pfx e.category ++ ['_', 'I', 'O', 'A', '_'] ++ fmt_u e.ioa

/-- One data line: `fprintf(fp, "%-6u %s_IOA_%u  %s\n", ...)`. -/
def config_line (e : DiscoveredIOA) : List Char :=
  fmt_u_left6 e.ioa ++ [' '] ++ config_name e ++ [' ', ' '] ++ state_str e ++ ['\n']

/-- First header line, without its newline: `# Auto-discovered IOAs from
<ip>:<port> on <time>`.  `timebuf` is the text `strftime` produced. -/
def header_line1 (target_ip : List Char) (target_port : Int) (timebuf : List Char) :
    List Char :=
  '#' :: (" Auto-discovered IOAs from ".toList ++ target_ip ++ [':'] ++ fmt_d target_port
    ++ " on ".toList ++ timebuf)

/-- Second header line, without its newline. -/
def header_line2 : List Char :=
  '#' :: " Format: IOA  Name  TargetState".toList

/-- Third header line, without its newlines: `# Total: <count> IOAs discovered`. -/
def header_line3 (count : Nat) : List Char :=
  '#' :: (" Total: ".toList ++ fmt_d (count : Int) ++ " IOAs discovered".toList)

/-- The three header lines and the blank line after them. -/
def config_header (count : Nat) (target_ip : List Char) (target_port : Int)
    (timebuf : List Char) : List Char :=
  header_line1 target_ip target_port timebuf ++ '\n' ::
    (header_line2 ++ '\n' :: (header_line3 count ++ '\n' :: ['\n']))

/-- The loop of `inventory_write_config` over the entries. -/
def config_lines : List DiscoveredIOA → List Char
  | [] => []
  | e :: es => config_line e ++ config_lines es

/-- Write the inventory as a config file.  `fopen_ok` tells whether the file
could be opened; the result is the return value and the contents written. -/
def inventory_write_config (fopen_ok : Bool) (inv : IOAInventory)
    (target_ip : List Char) (target_port : Int) (timebuf : List Char) :
    Int × Option (List Char) :=
  if fopen_ok then
    (0, some (config_header inv.count target_ip target_port timebuf
      ++ config_lines inv.entries))
  else (-1, none)

/-- The projection of an inventory entry to a target entry, following the
specification of `toTargetEntries`: the synthesized name, and the current
digital state for digital points, `OFF` otherwise. -/
def toTargetEntry (e : DiscoveredIOA) : IOATarget :=
  { ioa := e.ioa
    name := config_name e
    target_state := if e.is_digital && e.digital_state then 1 else 0 }

/-- The projection `toTargetEntries` of the specification. -/
def toTargetEntries (inv : IOAInventory) : List IOATarget :=
  inv.entries.map toTargetEntry

/-! ## plague_v_multi.c: response tracking, dispatch and run outcome -/

namespace Multi

/-- Type identifier of the single command, `C_SC_NA_1`. -/
def C_SC_NA_1 : Nat := 45

/-- Cause of transmission: activation confirmation. -/
def CS101_COT_ACTIVATION_CON : Nat := 7

/-- Cause of transmission: activation termination. -/
def CS101_COT_ACTIVATION_TERMINATION : Nat := 10

/-- Cause of transmission: unknown cause of transmission. -/
def CS101_COT_UNKNOWN_COT : Nat := 45

/-- Cause of transmission: unknown information object address. -/
def CS101_COT_UNKNOWN_IOA : Nat := 47

/-- What the handler reads from a received ASDU. -/
structure ASDU where
  tid : Nat
  cot : Nat
  negative : Bool
deriving DecidableEq, Repr

/-- The global response counters. -/
structure Counters where
  g_confirm_count : Nat
  g_reject_count : Nat
deriving DecidableEq, Repr

/-- The ASDU handler of the multi-target tool: tracks confirmations. -/
def asduReceivedHandler (g : Counters) (asdu : ASDU) : Counters :=
  if asdu.tid = C_SC_NA_1 then
    if asdu.cot = CS101_COT_ACTIVATION_CON then
      if asdu.negative then { g with g_reject_count := g.g_reject_count + 1 }
      else { g with g_confirm_count := g.g_confirm_count + 1 }
    else if asdu.cot = CS101_COT_ACTIVATION_TERMINATION then g
    else if asdu.cot = CS101_COT_UNKNOWN_IOA then
      { g with g_reject_count := g.g_reject_count + 1 }
    else if asdu.cot = CS101_COT_UNKNOWN_COT then
      { g with g_reject_count := g.g_reject_count + 1 }
    else g
  else g

/-- The command built for a target: `SingleCommand_create(NULL, ioa, state,
false, 0)`. -/
structure SingleCommand where
  ioa : Nat
  state : Bool
  selectCommand : Bool
  qu : Nat
deriving DecidableEq, Repr

/-- State of the attack loop: the two counters and the commands attempted so
far, in order. -/
structure Dispatch where
  send_count : Nat
  send_fail : Nat
  attempted : List SingleCommand
deriving DecidableEq, Repr

/-- The attack loop of `main`.  `create_ok i` tells whether the command of the
`i`-th target could be created, `send_ok i` whether the session accepted it. -/
def attack_loop (create_ok send_ok : Nat → Bool) :
    List IOATarget → Nat → Dispatch → Dispatch
  | [], _, d => d
  | current :: next, i, d =>
      let sc : SingleCommand := ⟨current.ioa, current.target_state != 0, false, 0⟩
      if !create_ok i then
        attack_loop create_ok send_ok next (i + 1)
          { d with send_fail := d.send_fail + 1, attempted := d.attempted ++ [sc] }
      else if send_ok i then
        attack_loop create_ok send_ok next (i + 1)
          { d with send_count := d.send_count + 1, attempted := d.attempted ++ [sc] }
      else
        attack_loop create_ok send_ok next (i + 1)
          { d with send_fail := d.send_fail + 1, attempted := d.attempted ++ [sc] }

/-- The exit code computed at the end of `main`: `0` success, `2` partial,
`1` failure. -/
def exit_code (send_count send_fail g_reject_count : Nat) : Nat :=
  if send_count > 0 ∧ send_fail = 0 ∧ g_reject_count = 0 then 0
  else if send_count > 0 then 2
  else 1

/-- The final summary of a run. -/
structure Summary where
  send_count : Nat
  send_fail : Nat
  g_confirm_count : Nat
  g_reject_count : Nat
  exit_code : Nat
deriving DecidableEq, Repr

/-- Steps 7 to 9 of `main` after a successful connect: the attack loop over the
loaded targets, the ASDUs the handler received until the response wait ended,
and the exit code. -/
def run (targets : List IOATarget) (create_ok send_ok : Nat → Bool)
    (received : List ASDU) : Summary :=
  let d := attack_loop create_ok send_ok targets 0 ⟨0, 0, []⟩
  let g := received.foldl asduReceivedHandler ⟨0, 0⟩
  ⟨d.send_count, d.send_fail, g.g_confirm_count, g.g_reject_count,
    exit_code d.send_count d.send_fail g.g_reject_count⟩

end Multi

/-! ## Entries of a full scan -/

/-- The entries a full scan of a file yields, in file order. -/
def scan_file (fp : List Char) : List IOATarget :=
  (load_loop (fp.length + 1) fp [] 0).1

namespace Multi

/-- A positive activation confirmation of a single command. -/
def is_positive_con (a : ASDU) : Bool :=
  a.tid == C_SC_NA_1 && a.cot == CS101_COT_ACTIVATION_CON && !a.negative

/-- A negative activation confirmation of a single command. -/
def is_negative_con (a : ASDU) : Bool :=
  a.tid == C_SC_NA_1 && a.cot == CS101_COT_ACTIVATION_CON && a.negative

/-- A single-command response with cause unknown-address or unknown-cause. -/
def is_unknown_response (a : ASDU) : Bool :=
  a.tid == C_SC_NA_1 && (a.cot == CS101_COT_UNKNOWN_IOA || a.cot == CS101_COT_UNKNOWN_COT)

end Multi

/-! ## plague_v_recon.c: the ASDU handler -/

namespace Recon

/-- Type identifier of the interrogation command, `C_IC_NA_1`. -/
def C_IC_NA_1 : Nat := 100

/-- Cause of transmission: periodic, cyclic. -/
def CS101_COT_PERIODIC : Nat := 1

/-- Cause of transmission: spontaneous. -/
def CS101_COT_SPONTANEOUS : Nat := 3

/-- Cause of transmission: activation confirmation. -/
def CS101_COT_ACTIVATION_CON : Nat := 7

/-- Cause of transmission: activation termination. -/
def CS101_COT_ACTIVATION_TERMINATION : Nat := 10

/-- Cause of transmission: interrogated by station interrogation. -/
def CS101_COT_INTERROGATED_BY_STATION : Nat := 20

/-- The decoded value of a double point. -/
inductive DoublePointValue where
  | IEC60870_DOUBLE_POINT_INTERMEDIATE
  | IEC60870_DOUBLE_POINT_OFF
  | IEC60870_DOUBLE_POINT_ON
  | IEC60870_DOUBLE_POINT_INDETERMINATE
deriving DecidableEq, Repr

/-- An information object as the handler reads it: its address and what each
value getter of the library returns for it.  The three measured values stand
for the bit pattern of the `float` that is stored (for a scaled value, of its
conversion to `float`). -/
structure InformationObject where
  objectAddress : Int
  sp_value : Bool
  dp_value : DoublePointValue
  bs_value : Nat
  mv_normalized : Nat
  mv_scaled : Nat
  mv_short : Nat
deriving DecidableEq, Repr

/-- What the handler reads from a received ASDU.  `elements` lists the results
of `CS101_ASDU_getElement` for the indices below the number of elements; `none`
is the `NULL` result. -/
structure ASDU where
  tid : Nat
  cot : Nat
  negative : Bool
  elements : List (Option InformationObject)
deriving DecidableEq, Repr

/-- The globals of the recon tool. -/
structure Globals where
  g_inventory : IOAInventory
  g_gi_confirmed : Bool
  g_gi_terminated : Bool
deriving DecidableEq, Repr

/-- The address stored for an element: the cast to `uint32_t`. -/
def entry_ioa (io : InformationObject) : Nat :=
  (io.objectAddress % 4294967296).toNat

/-- The type identifier stored for an element: the cast to `uint8_t`. -/
def entry_type_id (tid : Nat) : Nat :=
  tid % 256

/-- The entry built by `process_single_point`. -/
def single_point_entry (tid : Nat) (io : InformationObject) : DiscoveredIOA :=
  { ioa := entry_ioa io, type_id := entry_type_id tid,
    category := IOACategory.IOA_CAT_SINGLE_POINT, is_digital := true,
    digital_state := io.sp_value, analog_value := 0, bitstring := 0 }

/-- The entry built by `process_double_point`. -/
def double_point_entry (tid : Nat) (io : InformationObject) : DiscoveredIOA :=
  { ioa := entry_ioa io, type_id := entry_type_id tid,
    category := IOACategory.IOA_CAT_DOUBLE_POINT, is_digital := true,
    digital_state :=
      decide (io.dp_value = DoublePointValue.IEC60870_DOUBLE_POINT_ON),
    analog_value := 0, bitstring := 0 }

/-- The entry built by `process_bitstring`. -/
def bitstring_entry (tid : Nat) (io : InformationObject) : DiscoveredIOA :=
  { ioa := entry_ioa io, type_id := entry_type_id tid,
    category := IOACategory.IOA_CAT_BITSTRING, is_digital := false,
    digital_state := false, analog_value := 0, bitstring := io.bs_value % 4294967296 }

/-- The entry built by `process_measured_normalized`. -/
def measured_normalized_entry (tid : Nat) (io : InformationObject) : DiscoveredIOA :=
  { ioa := entry_ioa io, type_id := entry_type_id tid,
    category := IOACategory.IOA_CAT_MEASURED_NORM, is_digital := false,
    digital_state := false, analog_value := io.mv_normalized, bitstring := 0 }

/-- The entry built by `process_measured_scaled`. -/
def measured_scaled_entry (tid : Nat) (io : InformationObject) : DiscoveredIOA :=
  { ioa := entry_ioa io, type_id := entry_type_id tid,
    category := IOACategory.IOA_CAT_MEASURED_SCALED, is_digital := false,
    digital_state := false, analog_value := io.mv_scaled, bitstring := 0 }

/-- The entry built by `process_measured_short`. -/
def measured_short_entry (tid : Nat) (io : InformationObject) : DiscoveredIOA :=
  { ioa := entry_ioa io, type_id := entry_type_id tid,
    category := IOACategory.IOA_CAT_MEASURED_SHORT, is_digital := false,
    digital_state := false, analog_value := io.mv_short, bitstring := 0 }

/-- The entry built by `process_generic`. -/
def generic_entry (tid : Nat) (io : InformationObject) : DiscoveredIOA :=
  { ioa := entry_ioa io, type_id := entry_type_id tid,
    category := IOACategory.IOA_CAT_OTHER, is_digital := false,
    digital_state := false, analog_value := 0, bitstring := 0 }

/-- The loop shared by the seven `process_...` functions: elements that are
`NULL` are passed over, for every other element the entry is built and handed
to `inventory_add`, whose result is not looked at. -/
def process_elements (build : InformationObject → DiscoveredIOA)
    (realloc_ok : Nat → Bool) :
    List (Option InformationObject) → IOAInventory → IOAInventory
  | [], inv => inv
  | none :: rest, inv => process_elements build realloc_ok rest inv
  | some io :: rest, inv =>
      process_elements build realloc_ok rest (inventory_add realloc_ok inv (build io)).2

/-- Process the single points of an ASDU. -/
def process_single_point (realloc_ok : Nat → Bool) (asdu : ASDU)
    (inv : IOAInventory) : IOAInventory :=
  process_elements (single_point_entry asdu.tid) realloc_ok asdu.elements inv

/-- Process the double points of an ASDU. -/
def process_double_point (realloc_ok : Nat → Bool) (asdu : ASDU)
    (inv : IOAInventory) : IOAInventory :=
  process_elements (double_point_entry asdu.tid) realloc_ok asdu.elements inv

/-- Process the bitstrings of an ASDU. -/
def process_bitstring (realloc_ok : Nat → Bool) (asdu : ASDU)
    (inv : IOAInventory) : IOAInventory :=
  process_elements (bitstring_entry asdu.tid) realloc_ok asdu.elements inv

/-- Process the normalized measured values of an ASDU. -/
def process_measured_normalized (realloc_ok : Nat → Bool) (asdu : ASDU)
    (inv : IOAInventory) : IOAInventory :=
  process_elements (measured_normalized_entry asdu.tid) realloc_ok asdu.elements inv

/-- Process the scaled measured values of an ASDU. -/
def process_measured_scaled (realloc_ok : Nat → Bool) (asdu : ASDU)
    (inv : IOAInventory) : IOAInventory :=
  process_elements (measured_scaled_entry asdu.tid) realloc_ok asdu.elements inv

/-- Process the short floating point values of an ASDU. -/
def process_measured_short (realloc_ok : Nat → Bool) (asdu : ASDU)
    (inv : IOAInventory) : IOAInventory :=
  process_elements (measured_short_entry asdu.tid) realloc_ok asdu.elements inv

/-- Process the elements of an ASDU of any other type. -/
def process_generic (realloc_ok : Nat → Bool) (asdu : ASDU)
    (inv : IOAInventory) : IOAInventory :=
  process_elements (generic_entry asdu.tid) realloc_ok asdu.elements inv

/-- The `switch` over the type identifier at the end of the handler. -/
def dispatch_by_type (realloc_ok : Nat → Bool) (asdu : ASDU)
    (inv : IOAInventory) : IOAInventory :=
  match asdu.tid with
  | 1 => process_single_point realloc_ok asdu inv
  | 30 => process_single_point realloc_ok asdu inv
  | 3 => process_double_point realloc_ok asdu inv
  | 31 => process_double_point realloc_ok asdu inv
  | 7 => process_bitstring realloc_ok asdu inv
  | 33 => process_bitstring realloc_ok asdu inv
  | 9 => process_measured_normalized realloc_ok asdu inv
  | 34 => process_measured_normalized realloc_ok asdu inv
  | 11 => process_measured_scaled realloc_ok asdu inv
  | 35 => process_measured_scaled realloc_ok asdu inv
  | 13 => process_measured_short realloc_ok asdu inv
  | 36 => process_measured_short realloc_ok asdu inv
  | _ => process_generic realloc_ok asdu inv

/-- The ASDU handler of the recon tool. -/
def asduReceivedHandler (realloc_ok : Nat → Bool) (g : Globals) (asdu : ASDU) : Globals :=
  if asdu.tid = C_IC_NA_1 then
    if asdu.cot = CS101_COT_ACTIVATION_CON then
      if asdu.negative then g else { g with g_gi_confirmed := true }
    else if asdu.cot = CS101_COT_ACTIVATION_TERMINATION then
      { g with g_gi_terminated := true }
    else g
  else if asdu.cot ≠ CS101_COT_INTERROGATED_BY_STATION
      ∧ asdu.cot ≠ CS101_COT_SPONTANEOUS ∧ asdu.cot ≠ CS101_COT_PERIODIC then g
  else { g with g_inventory := dispatch_by_type realloc_ok asdu g.g_inventory }

end Recon

/-! ## plague_v_poc.c: response flag and exit code -/

namespace Poc

/-- The ASDU handler of the single-shot tool, on the flag `g_act_con_received`. -/
def asduReceivedHandler (g_act_con_received : Int) (asdu : Multi.ASDU) : Int :=
  if asdu.tid = Multi.C_SC_NA_1 then
    if asdu.cot = Multi.CS101_COT_ACTIVATION_CON then
      if asdu.negative then g_act_con_received else 1
    else if asdu.cot = Multi.CS101_COT_ACTIVATION_TERMINATION then g_act_con_received
    else if asdu.cot = Multi.CS101_COT_UNKNOWN_IOA then -1
    else if asdu.cot = Multi.CS101_COT_UNKNOWN_COT then -1
    else g_act_con_received
  else g_act_con_received

/-- The exit code computed in step 8 of `main`. -/
def exit_code (g_act_con_received : Int) : Nat :=
  if g_act_con_received = 1 then 0
  else if g_act_con_received = -1 then 2
  else 3

/-- Steps 7 and 8 of `main` after a successful send: the ASDUs the handler
received until the wait ended, and the exit code. -/
def run (received : List Multi.ASDU) : Nat :=
  exit_code (received.foldl asduReceivedHandler 0)

end Poc

/-! ## Lines of a config file -/

/-- White space inside a line: white space characters other than the newline. -/
def is_blank (s : List Char) : Bool :=
  s.all (fun c => isspace c && c != '\n')

/-- A whitespace-separated field: a non-empty run of characters that are not
white space. -/
def is_field (t : List Char) : Bool :=
  !t.isEmpty && t.all (fun c => !isspace c && c != NUL)

/-- An unsigned decimal numeral: a non-empty run of digits. -/
def is_numeral (t : List Char) : Bool :=
  !t.isEmpty && t.all isdigit

/-- The text before a line ends a line: it is empty or ends with a newline. -/
def at_line_start (before : List Char) : Bool :=
  match before.getLast? with
  | none => true
  | some c => c == '\n'

/-- A line laid out as three fields: white space, the IOA field, white space,
the name, white space, the state, white space, and the end of the line (a
newline, or nothing at the end of the file). -/
structure DataLine where
  lead : List Char
  ioa_field : List Char
  sep1 : List Char
  name_field : List Char
  sep2 : List Char
  state_field : List Char
  trail : List Char
  eol : List Char
deriving DecidableEq, Repr

/-- The characters of the line. -/
def DataLine.text (l : DataLine) : List Char :=
  l.lead ++ (l.ioa_field ++ (l.sep1 ++ (l.name_field ++ (l.sep2 ++
    (l.state_field ++ (l.trail ++ l.eol))))))

/-- The line consists of exactly three whitespace-separated fields. -/
def DataLine.three_fields (l : DataLine) : Bool :=
  is_blank l.lead && is_field l.ioa_field
    && !l.sep1.isEmpty && is_blank l.sep1 && is_field l.name_field
    && !l.sep2.isEmpty && is_blank l.sep2 && is_field l.state_field
    && is_blank l.trail && (l.eol == ['\n'] || l.eol == [])

/-- A well-formed data line: three fields, the first an unsigned decimal
numeral, and a name of at most 63 characters. -/
def DataLine.well_formed (l : DataLine) : Bool :=
  l.three_fields && is_numeral l.ioa_field && decide (l.name_field.length ≤ 63)

/-- The line, its newline included, is no longer than the 255 characters that
one read of the loader takes. -/
def DataLine.fits_read (l : DataLine) : Bool :=
  decide (l.text.length < LINE_BUF_SIZE)

/-! ## Example inputs -/

/-- An inventory of two digital points. -/
def inv_two : IOAInventory :=
  { entries :=
      [ ⟨5, 1, IOACategory.IOA_CAT_SINGLE_POINT, true, true, 0, 0⟩,
        ⟨1234567, 31, IOACategory.IOA_CAT_DOUBLE_POINT, true, false, 0, 0⟩ ]
    capacity := 32 }

/-- An inventory whose only point has the address 16777216. -/
def inv_wide : IOAInventory :=
  { entries := [⟨16777216, 1, IOACategory.IOA_CAT_SINGLE_POINT, true, true, 0, 0⟩]
    capacity := 32 }

/-- An inventory with one digital point. -/
def inv_one : IOAInventory :=
  { entries := [⟨5, 1, IOACategory.IOA_CAT_SINGLE_POINT, true, true, 0, 0⟩]
    capacity := 32 }

/-- A target address as given on the command line. -/
def ip_plain : List Char := "10.10.10.10".toList

/-- A time stamp as `strftime` writes it. -/
def time_plain : List Char := "2026-01-01 00:00:00".toList

/-- A point first seen as a single point. -/
def point_sp : DiscoveredIOA :=
  ⟨100, 1, IOACategory.IOA_CAT_SINGLE_POINT, true, true, 0, 0⟩

/-- The same address seen again as a measured value. -/
def point_mv : DiscoveredIOA :=
  ⟨100, 13, IOACategory.IOA_CAT_MEASURED_SHORT, false, false, 1078530011, 0⟩

/-- An allocator that always succeeds. -/
def realloc_always : Nat → Bool := fun _ => true

/-- A data line with the largest address. -/
def line_max : DataLine :=
  ⟨[], "16777215".toList, [' '], "BRK_MAX".toList, ['\t'], "ON".toList, [], ['\n']⟩

/-- A data line with the first address out of range. -/
def line_over : DataLine :=
  ⟨[' '], "16777216".toList, [' '], "BRK_OVER".toList, [' '], "ON".toList, [' '], ['\n']⟩

/-- A data line with the largest address in which 250 spaces precede the state
(269 characters). -/
def line_max_long : DataLine :=
  ⟨[], "16777215".toList, [' '], "BRK_MAX".toList, List.replicate 250 ' ', "ON".toList,
    [], ['\n']⟩

/-- A data line with the first address out of range, indented by 248 spaces
(269 characters). -/
def line_over_long : DataLine :=
  ⟨List.replicate 248 ' ', "16777216".toList, [' '], "BRK_OVER".toList, [' '],
    "ON".toList, [], ['\n']⟩

/-- Lines before the line under test. -/
def lines_before : List Char := "# targets\n1 A ON\n".toList

/-- Lines after the line under test. -/
def lines_after : List Char := "2 B off\n".toList

/-- Three targets. -/
def targets_abc : List IOATarget :=
  [⟨1, ['A'], 1⟩, ⟨2, ['B'], 1⟩, ⟨3, ['C'], 0⟩]

/-- A session that creates and accepts every command. -/
def all_ok : Nat → Bool := fun _ => true

/-- Positive confirmation for the first target, negative one for the second. -/
def received_ab : List Multi.ASDU :=
  [⟨Multi.C_SC_NA_1, Multi.CS101_COT_ACTIVATION_CON, false⟩,
   ⟨Multi.C_SC_NA_1, Multi.CS101_COT_ACTIVATION_CON, true⟩]

/-- Five data lines; the third has the two tokens `12abc` and `ON`. -/
def file_glued : List Char :=
  "1 A ON\n2 B ON\n12abc ON\n4 D ON\n5 E ON\n".toList

/-- Five data lines; the third has the two tokens `3` and `C`. -/
def file_short : List Char :=
  "1 A ON\n2 B ON\n3 C\n4 D ON\n5 E ON\n".toList

/-- A short comment line, then a comment line of 262 characters: `#`, 254
spaces, and the text `9 Z ON`. -/
def file_comments : List Char :=
  "# header\n".toList ++ ('#' :: List.replicate 254 ' ') ++ "9 Z ON\n".toList

/-- A line of three fields, 257 characters long: `5`, `N` and, after 250
spaces, `ONX`. -/
def line_padded : DataLine :=
  ⟨[], ['5'], [' '], ['N'], List.replicate 250 ' ', "ONX".toList, [], ['\n']⟩

/-- A line whose name has 70 characters, followed by `ON`. -/
def line_long_name : DataLine :=
  ⟨[], ['5'], [' '], List.replicate 70 'A', [' '], "ON".toList, [], ['\n']⟩

/-- An indented comment line of 265 characters whose tail, from character 256
on, reads `7 GHOST ON`. -/
def long_comment : List Char :=
  "  # note".toList ++ List.replicate 247 'x' ++ "7 GHOST ON".toList

/-- Two data lines around the long comment line. -/
def file_long_comment : List Char :=
  "1 A ON\n".toList ++ (long_comment ++ '\n' :: "2 B OFF\n".toList)

/-- A line laid out as one or two fields: white space, the first field, and
then either nothing (`sep` and `second` empty) or white space and a second
field; white space and the end of the line follow. -/
structure ShortLine where
  lead : List Char
  first : List Char
  sep : List Char
  second : List Char
  trail : List Char
  eol : List Char
deriving DecidableEq, Repr

/-- The characters of the line. -/
def ShortLine.text (l : ShortLine) : List Char :=
  l.lead ++ (l.first ++ (l.sep ++ (l.second ++ (l.trail ++ l.eol))))

/-- The first field does not start a number: its first character is neither a
digit nor a sign. -/
def no_number_start (t : List Char) : Bool :=
  match t with
  | [] => true
  | c :: _ => !isdigit c && c != '-' && c != '+'

/-- The line has one or two whitespace-separated fields and fits one read of the
loader; its first field is a plain numeral or does not start a number, and its
second field, if any, has at most 63 characters. -/
def ShortLine.plain (l : ShortLine) : Bool :=
  is_blank l.lead && is_field l.first
    && ((l.sep.isEmpty && l.second.isEmpty)
      || (!l.sep.isEmpty && is_blank l.sep && is_field l.second
        && decide (l.second.length ≤ 63)))
    && is_blank l.trail && (l.eol == ['\n'] || l.eol == [])
    && (is_numeral l.first || no_number_start l.first)
    && decide (l.text.length < LINE_BUF_SIZE)

/-- The line `3 C` of two fields. -/
def line_two_fields : ShortLine :=
  ⟨[], ['3'], [' '], ['C'], [], ['\n']⟩

/-! ## Sequences of additions and the mapping table -/

/-- A sequence of `inventory_add` calls on the same inventory; the return
values are not looked at. -/
def inventory_add_all (realloc_ok : Nat → Bool) (inv : IOAInventory) :
    List DiscoveredIOA → IOAInventory
  | [] => inv
  | p :: ps => inventory_add_all realloc_ok (inventory_add realloc_ok inv p).2 ps

/-- The first occurrence of each address of a sequence of points, in the order
of first occurrence: the head, then the first occurrences of the tail without
those that carry the address of the head. -/
def first_occurrences : List DiscoveredIOA → List DiscoveredIOA
  | [] => []
  | p :: ps => p :: (first_occurrences ps).filter (fun e => e.ioa != p.ioa)

/-- The mapping table from type codes to categories. -/
def classify (tid : Nat) : IOACategory :=
  match tid with
  | 1 => IOACategory.IOA_CAT_SINGLE_POINT
  | 30 => IOACategory.IOA_CAT_SINGLE_POINT
  | 3 => IOACategory.IOA_CAT_DOUBLE_POINT
  | 31 => IOACategory.IOA_CAT_DOUBLE_POINT
  | 7 => IOACategory.IOA_CAT_BITSTRING
  | 33 => IOACategory.IOA_CAT_BITSTRING
  | 9 => IOACategory.IOA_CAT_MEASURED_NORM
  | 34 => IOACategory.IOA_CAT_MEASURED_NORM
  | 11 => IOACategory.IOA_CAT_MEASURED_SCALED
  | 35 => IOACategory.IOA_CAT_MEASURED_SCALED
  | 13 => IOACategory.IOA_CAT_MEASURED_SHORT
  | 36 => IOACategory.IOA_CAT_MEASURED_SHORT
  | _ => IOACategory.IOA_CAT_OTHER

/-- Four observations: address 7 twice, with another point in between, then a
new address. -/
def points_seen : List DiscoveredIOA :=
  [ ⟨7, 1, IOACategory.IOA_CAT_SINGLE_POINT, true, true, 0, 0⟩,
    ⟨9, 3, IOACategory.IOA_CAT_DOUBLE_POINT, true, false, 0, 0⟩,
    ⟨7, 13, IOACategory.IOA_CAT_MEASURED_SHORT, false, false, 5, 0⟩,
    ⟨2, 7, IOACategory.IOA_CAT_BITSTRING, false, false, 0, 255⟩ ]

/-- The capacity is `32 * 2 ^ k`, the count does not exceed it, and it has
only grown beyond 32 when the count reached half of it. -/
def growth_invariant (inv : IOAInventory) : Prop :=
  (∃ k, inv.capacity = 32 * 2 ^ k) ∧ inv.count ≤ inv.capacity
    ∧ (inv.capacity = 32 ∨ inv.capacity < 2 * inv.count)


/-- An inventory whose single slot is in use. -/
def inv_full : IOAInventory :=
  { entries := [point_sp], capacity := 1 }

/-- A point with an address not yet stored. -/
def point_new : DiscoveredIOA :=
  ⟨101, 3, IOACategory.IOA_CAT_DOUBLE_POINT, true, false, 0, 0⟩

/-- An interrogation response of type 30 (single point with time tag) with two
elements. -/
def asdu_sp_time : Recon.ASDU :=
  { tid := 30, cot := Recon.CS101_COT_INTERROGATED_BY_STATION, negative := false,
    elements :=
      [ some ⟨11, true, Recon.DoublePointValue.IEC60870_DOUBLE_POINT_OFF, 0, 0, 0, 0⟩,
        some ⟨12, false, Recon.DoublePointValue.IEC60870_DOUBLE_POINT_OFF, 0, 0, 0, 0⟩ ] }

/-- The globals after a successful `inventory_init`. -/
def globals_start : Recon.Globals :=
  { g_inventory := inventory_init true, g_gi_confirmed := false, g_gi_terminated := false }

/-- A line laid out as three fields followed by the rest of the line, which may
hold further fields. -/
structure FieldsLine where
  lead : List Char
  ioa_field : List Char
  sep1 : List Char
  name_field : List Char
  sep2 : List Char
  state_field : List Char
  more : List Char
  eol : List Char
deriving DecidableEq, Repr

/-- The characters of the line. -/
def FieldsLine.text (l : FieldsLine) : List Char :=
  l.lead ++ (l.ioa_field ++ (l.sep1 ++ (l.name_field ++ (l.sep2 ++
    (l.state_field ++ (l.more ++ l.eol))))))

/-- Two lines whose IOA fields are numerals that do not fit 32 bits. -/
def file_wide_numerals : List Char :=
  "4294967296 A ON\n4294967297 B ON\n".toList

/-- A negative activation confirmation of a single command. -/
def negative_con : Multi.ASDU :=
  ⟨Multi.C_SC_NA_1, Multi.CS101_COT_ACTIVATION_CON, true⟩

/-- The received ASDUs without the positive activation confirmations of single
commands. -/
def without_confirmations (received : List Multi.ASDU) : List Multi.ASDU :=
  received.filter (fun a => !Multi.is_positive_con a)

/-- Two positive activation confirmations of single commands. -/
def received_confirmed : List Multi.ASDU :=
  [⟨Multi.C_SC_NA_1, Multi.CS101_COT_ACTIVATION_CON, false⟩,
   ⟨Multi.C_SC_NA_1, Multi.CS101_COT_ACTIVATION_CON, false⟩]

/-- The ASDU of type 30 with two elements, under the cause `c`. -/
def asdu_with_cause (c : Nat) : Recon.ASDU :=
  { asdu_sp_time with cot := c }

/-- The cause of transmission passes the filter of the recon handler. -/
def is_collected_cause (cot : Nat) : Bool :=
  cot == Recon.CS101_COT_INTERROGATED_BY_STATION
    || cot == Recon.CS101_COT_SPONTANEOUS || cot == Recon.CS101_COT_PERIODIC

/-- A step position element with address 21. -/
def step_a : Recon.InformationObject :=
  ⟨21, false, Recon.DoublePointValue.IEC60870_DOUBLE_POINT_OFF, 0, 0, 0, 0⟩

/-- A step position element with address 22. -/
def step_b : Recon.InformationObject :=
  ⟨22, false, Recon.DoublePointValue.IEC60870_DOUBLE_POINT_OFF, 0, 0, 0, 0⟩

/-- A spontaneous ASDU of type 5 (step position), which the table does not
list: two elements with a `NULL` element between them. -/
def asdu_step : Recon.ASDU :=
  { tid := 5, cot := Recon.CS101_COT_SPONTANEOUS, negative := false,
    elements := [some step_a, none, some step_b] }

/-- A double-point element with address 41 and value ON. -/
def dp_on : Recon.InformationObject :=
  ⟨41, false, Recon.DoublePointValue.IEC60870_DOUBLE_POINT_ON, 0, 0, 0, 0⟩

/-- A double-point element with address 42 and value OFF. -/
def dp_off : Recon.InformationObject :=
  ⟨42, false, Recon.DoublePointValue.IEC60870_DOUBLE_POINT_OFF, 0, 0, 0, 0⟩

/-- A double-point element with address 43 and the intermediate value. -/
def dp_intermediate : Recon.InformationObject :=
  ⟨43, false, Recon.DoublePointValue.IEC60870_DOUBLE_POINT_INTERMEDIATE, 0, 0, 0, 0⟩

/-- A double-point element with address 44 and the indeterminate value. -/
def dp_indeterminate : Recon.InformationObject :=
  ⟨44, false, Recon.DoublePointValue.IEC60870_DOUBLE_POINT_INDETERMINATE, 0, 0, 0, 0⟩

/-- A double-point element that carries address 41 again, with value OFF. -/
def dp_again : Recon.InformationObject :=
  ⟨41, false, Recon.DoublePointValue.IEC60870_DOUBLE_POINT_OFF, 0, 0, 0, 0⟩

/-- An interrogation response of type 31 (double point with time tag) with one
element of each value and a repeated address. -/
def asdu_dp : Recon.ASDU :=
  { tid := 31, cot := Recon.CS101_COT_INTERROGATED_BY_STATION, negative := false,
    elements := [some dp_on, some dp_off, some dp_intermediate, some dp_indeterminate,
      some dp_again] }

/-! ## The read loop -/

theorem fgets_append_eq (n : Nat) (fp : List Char) :
    (fgets n fp).1 ++ (fgets n fp).2 = fp := by
  induction fp generalizing n with
  | nil => cases n <;> simp [fgets]
  | cons c fp ih =>
    cases n with
    | zero => simp [fgets]
    | succ n =>
      by_cases h : c = '\n'
      · simp [fgets, h]
      · simp [fgets, h, ih]

theorem fgets_rest_length (n : Nat) (c : Char) (fp : List Char) :
    (fgets (n + 1) (c :: fp)).2.length ≤ fp.length := by
  have h := congrArg List.length (fgets_append_eq (n + 1) (c :: fp))
  have h1 : 1 ≤ (fgets (n + 1) (c :: fp)).1.length := by
    by_cases hc : c = '\n' <;> simp [fgets, hc]
  simp only [List.length_append, List.length_cons] at h
  omega

theorem fgets_nil (n : Nat) : fgets n [] = ([], []) := by
  cases n <;> rfl

theorem load_loop_acc (fuel : Nat) (fp : List Char) (head : List IOATarget) (count : Nat) :
    load_loop fuel fp head count
      = (head ++ (load_loop fuel fp [] 0).1, count + (load_loop fuel fp [] 0).2) := by
  induction fuel generalizing fp head count with
  | zero => simp [load_loop]
  | succ fuel ih =>
    unfold load_loop
    split
    · simp
    · split
      · exact ih _ _ _
      · rename_i node _
        rw [ih _ (head ++ [node]) (count + 1), ih _ ([] ++ [node]) (0 + 1)]
        simp [Nat.add_assoc]

theorem load_loop_count (fuel : Nat) (fp : List Char) :
    (load_loop fuel fp [] 0).2 = (load_loop fuel fp [] 0).1.length := by
  induction fuel generalizing fp with
  | zero => simp [load_loop]
  | succ fuel ih =>
    unfold load_loop
    split
    · simp
    · split
      · exact ih _
      · rename_i node _
        rw [load_loop_acc]
        simp [ih, Nat.add_comm]

theorem load_loop_fuel2 (f1 f2 : Nat) (fp : List Char) (h1 : fp.length < f1)
    (h2 : fp.length < f2) :
    (load_loop f1 fp [] 0).1 = (load_loop f2 fp [] 0).1 := by
  induction f1 generalizing f2 fp with
  | zero => omega
  | succ f1 ih =>
    cases f2 with
    | zero => omega
    | succ f2 =>
      cases fp with
      | nil => simp [load_loop, fgets]
      | cons c fp =>
        have hr := fgets_rest_length (LINE_BUF_SIZE - 2) c fp
        have hL : LINE_BUF_SIZE - 1 = (LINE_BUF_SIZE - 2) + 1 := by decide
        simp only [List.length_cons] at h1 h2
        unfold load_loop
        rw [hL]
        generalize fgets (LINE_BUF_SIZE - 2 + 1) (c :: fp) = r at hr
        obtain ⟨l, rest⟩ := r
        cases l with
        | nil => rfl
        | cons a l =>
          simp only at hr ⊢
          cases parse_line (cstr (a :: l)) with
          | none =>
            simp only
            exact ih f2 rest (by omega) (by omega)
          | some node =>
            simp only
            rw [load_loop_acc f1, load_loop_acc f2]
            simp only
            rw [ih f2 rest (by omega) (by omega)]

theorem load_loop_fuel (fuel : Nat) (fp : List Char) (h : fp.length < fuel) :
    (load_loop fuel fp [] 0).1 = scan_file fp :=
  load_loop_fuel2 fuel (fp.length + 1) fp h (Nat.lt_succ_self _)

/-- One step of the scan: the first buffer read, then the rest of the file. -/
theorem scan_file_step (c : Char) (fp : List Char) :
    scan_file (c :: fp)
      = (parse_line (cstr (fgets (LINE_BUF_SIZE - 1) (c :: fp)).1)).toList
          ++ scan_file (fgets (LINE_BUF_SIZE - 1) (c :: fp)).2 := by
  have hr := fgets_rest_length (LINE_BUF_SIZE - 2) c fp
  have hL : LINE_BUF_SIZE - 1 = (LINE_BUF_SIZE - 2) + 1 := by decide
  rw [hL]
  have h1 : 1 ≤ (fgets (LINE_BUF_SIZE - 2 + 1) (c :: fp)).1.length := by
    by_cases hc : c = '\n' <;> simp [fgets, hc]
  conv_lhs => unfold scan_file
  simp only [List.length_cons]
  unfold load_loop
  rw [hL]
  generalize hf : fgets (LINE_BUF_SIZE - 2 + 1) (c :: fp) = r at hr h1
  obtain ⟨l, rest⟩ := r
  cases l with
  | nil => simp at h1
  | cons a l =>
    simp only at hr ⊢
    cases parse_line (cstr (a :: l)) with
    | none =>
      simp only
      rw [load_loop_fuel _ _ (by omega)]
      simp
    | some node =>
      simp only
      rw [load_loop_acc, load_loop_fuel _ _ (by omega)]
      simp

theorem scan_file_nil : scan_file [] = [] := by
  simp [scan_file, load_loop, fgets]

/-- The result of `load_ioa_map` in terms of the entries of the scan. -/
theorem load_ioa_map_eq (fp : List Char) :
    load_ioa_map (some fp) = if scan_file fp = [] then none else some (scan_file fp) := by
  unfold load_ioa_map scan_file
  simp only
  rw [load_loop_count]
  simp [List.length_eq_zero]

/-! ## Files as sequences of lines -/

theorem fgets_append_line (n : Nat) (a b : List Char) :
    fgets n (a ++ '\n' :: b)
      = ((fgets n (a ++ ['\n'])).1, (fgets n (a ++ ['\n'])).2 ++ b) := by
  induction a generalizing n with
  | nil => cases n <;> simp [fgets]
  | cons c a ih =>
    cases n with
    | zero => simp [fgets]
    | succ n =>
      by_cases h : c = '\n'
      · simp [fgets, h]
      · simp [fgets, h, ih n]

theorem fgets_whole_line (n : Nat) (line : List Char) (hn : ∀ c ∈ line, c ≠ '\n')
    (hl : line.length < n) :
    fgets n (line ++ ['\n']) = (line ++ ['\n'], []) := by
  induction line generalizing n with
  | nil =>
    cases n with
    | zero => omega
    | succ n => simp [fgets]
  | cons c line ih =>
    cases n with
    | zero => omega
    | succ n =>
      have hc : c ≠ '\n' := hn c (List.mem_cons_self _ _)
      have := ih n (fun x hx => hn x (List.mem_cons_of_mem _ hx))
        (by simp only [List.length_cons] at hl; omega)
      simp [fgets, hc, this]

/-- The rest of a newline-terminated text after one read is empty or again
newline-terminated. -/
theorem fgets_rest_line (n : Nat) (a : List Char) :
    (fgets n (a ++ ['\n'])).2 = [] ∨ ∃ a2, (fgets n (a ++ ['\n'])).2 = a2 ++ ['\n'] := by
  induction a generalizing n with
  | nil => cases n <;> simp [fgets]
  | cons c a ih =>
    cases n with
    | zero => right; exact ⟨c :: a, by simp [fgets]⟩
    | succ n =>
      by_cases h : c = '\n'
      · right; exact ⟨a, by simp [fgets, h]⟩
      · simpa [fgets, h] using ih n

/-- Entries of a file that starts with complete lines: those of the lines, then
those of the rest. -/
theorem scan_file_append_line (a b : List Char) :
    scan_file (a ++ '\n' :: b) = scan_file (a ++ ['\n']) ++ scan_file b := by
  generalize hk : a.length = k
  induction k using Nat.strong_induction_on generalizing a with
  | _ k ih =>
    obtain ⟨c, t, hct⟩ : ∃ c t, a ++ ['\n'] = c :: t := by
      cases a with
      | nil => exact ⟨_, _, rfl⟩
      | cons c a => exact ⟨c, a ++ ['\n'], rfl⟩
    have hct2 : a ++ '\n' :: b = c :: (t ++ b) := by
      have : a ++ '\n' :: b = (a ++ ['\n']) ++ b := by simp
      rw [this, hct]; rfl
    have hlen : t.length = a.length := by
      have := congrArg List.length hct
      simp at this; omega
    have e1 := scan_file_step c (t ++ b)
    have e2 := scan_file_step c t
    rw [← hct2] at e1
    rw [← hct] at e2
    rw [e1, e2, fgets_append_line]
    simp only
    have hr := fgets_rest_length (LINE_BUF_SIZE - 2) c t
    have hL : LINE_BUF_SIZE - 2 + 1 = LINE_BUF_SIZE - 1 := by decide
    rw [hL, ← hct] at hr
    rcases fgets_rest_line (LINE_BUF_SIZE - 1) a with h0 | ⟨a2, h2⟩
    · rw [h0, scan_file_nil]; simp
    · rw [h2] at hr ⊢
      have : a2.length < k := by simp at hr; omega
      have hh := ih a2.length this a2 rfl
      have e : a2 ++ ['\n'] ++ b = a2 ++ '\n' :: b := by simp
      rw [e, hh]; simp

/-- A line that fits the buffer is read in one piece. -/
theorem scan_file_line (line rest : List Char) (hn : ∀ c ∈ line, c ≠ '\n')
    (hl : line.length + 1 < LINE_BUF_SIZE) :
    scan_file (line ++ '\n' :: rest)
      = (parse_line (cstr (line ++ ['\n']))).toList ++ scan_file rest := by
  rw [scan_file_append_line]
  obtain ⟨c, t, hct⟩ : ∃ c t, line ++ ['\n'] = c :: t := by
    cases line with
    | nil => exact ⟨_, _, rfl⟩
    | cons c a => exact ⟨c, a ++ ['\n'], rfl⟩
  have e2 := scan_file_step c t
  rw [← hct] at e2
  rw [e2, fgets_whole_line _ line hn (by omega), scan_file_nil]
  simp

/-! ## Fields and white space -/

theorem isspace_ne_NUL {c : Char} (h : isspace c = true) : c ≠ NUL := by
  rintro rfl
  revert h
  decide

theorem isdigit_not_isspace {c : Char} (h : isdigit c = true) : isspace c = false := by
  simp only [isdigit, isspace, Bool.and_eq_true, decide_eq_true_eq] at h ⊢
  simp only [Bool.or_eq_false_iff, Bool.and_eq_false_iff, beq_eq_false_iff_ne,
    decide_eq_false_iff_not]
  omega

theorem skip_ws_append (s r : List Char) (h : ∀ c ∈ s, isspace c = true) :
    skip_ws (s ++ r) = skip_ws r := by
  induction s with
  | nil => rfl
  | cons c s ih =>
    have hc := h c (List.mem_cons_self _ _)
    simp only [List.cons_append, skip_ws, hc, if_true]
    exact ih (fun x hx => h x (List.mem_cons_of_mem _ hx))

theorem skip_ws_cons (c : Char) (r : List Char) (h : isspace c = false) :
    skip_ws (c :: r) = c :: r := by
  simp [skip_ws, h]

theorem skip_ws_all (s : List Char) (h : ∀ c ∈ s, isspace c = true) :
    skip_ws s = [] := by
  have := skip_ws_append s [] h
  simpa [skip_ws] using this

theorem cstr_eq (l : List Char) (h : ∀ c ∈ l, c ≠ NUL) : cstr l = l := by
  unfold cstr
  rw [List.takeWhile_eq_self_iff]
  intro c hc
  simpa using h c hc

theorem isspace_ne_hash {c : Char} (h : isspace c = true) : c ≠ '#' := by
  rintro rfl
  revert h
  decide

theorem is_skip_line_append (s r : List Char) (h : ∀ c ∈ s, isspace c = true) :
    is_skip_line (s ++ r) = is_skip_line r := by
  induction s with
  | nil => rfl
  | cons c s ih =>
    have hc := h c (List.mem_cons_self _ _)
    have h1 := isspace_ne_hash hc
    simp only [List.cons_append, is_skip_line, h1, hc, if_false, Bool.not_true]
    exact ih (fun x hx => h x (List.mem_cons_of_mem _ hx))

theorem scan_tok_field (n : Nat) (t r : List Char) (ht : ∀ c ∈ t, isspace c = false)
    (hr : ∀ c ∈ r.head?, isspace c = true) :
    scan_tok n (t ++ r) = (t.take n, t.drop n ++ r) := by
  induction t generalizing n with
  | nil =>
    cases n with
    | zero => simp [scan_tok]
    | succ n =>
      cases r with
      | nil => simp [scan_tok]
      | cons c r =>
        have : isspace c = true := hr c (by simp)
        simp [scan_tok, this]
  | cons c t ih =>
    cases n with
    | zero => simp [scan_tok]
    | succ n =>
      have hc := ht c (List.mem_cons_self _ _)
      have := ih n (fun x hx => ht x (List.mem_cons_of_mem _ hx))
      simp [scan_tok, hc, this]


theorem isdigit_ne_sign {c : Char} (h : isdigit c = true) : ¬ (c = '-' ∨ c = '+') := by
  rintro (rfl | rfl) <;> revert h <;> decide

theorem isdigit_ne_hash {c : Char} (h : isdigit c = true) : c ≠ '#' := by
  rintro rfl
  revert h
  decide

theorem isdigit_ne_NUL {c : Char} (h : isdigit c = true) : c ≠ NUL := by
  rintro rfl
  revert h
  decide

theorem conv_u_numeral (s0 f1 r : List Char) (h0 : ∀ c ∈ s0, isspace c = true)
    (hne : f1 ≠ []) (h1 : ∀ c ∈ f1, isdigit c = true)
    (hr : ∀ c ∈ r.head?, isdigit c = false) :
    conv_u (s0 ++ (f1 ++ r)) = Except.ok (strtoul false f1 % 2 ^ 32, r) := by
  obtain ⟨d, ds, rfl⟩ := List.exists_cons_of_ne_nil hne
  have hd := h1 d (List.mem_cons_self _ _)
  have hr2 : r.takeWhile isdigit = [] := by
    cases r with
    | nil => rfl
    | cons c r => simp [List.takeWhile, hr c (by simp)]
  have hr3 : r.dropWhile isdigit = r := by
    cases r with
    | nil => rfl
    | cons c r => simp [List.dropWhile, hr c (by simp)]
  have hsign := isdigit_ne_sign hd
  have hminus : ¬ d = '-' := fun h => hsign (Or.inl h)
  have hplus : ¬ d = '+' := fun h => hsign (Or.inr h)
  unfold conv_u
  rw [skip_ws_append _ _ h0, List.cons_append, skip_ws_cons _ _ (isdigit_not_isspace hd)]
  simp only [hplus, if_false, hminus, decide_False, or_self]
  rw [← List.cons_append, List.takeWhile_append_of_pos h1,
    List.dropWhile_append_of_pos h1, hr2, hr3]
  simp

/-! ## The three conversions on a line of fields -/

theorem conv_s_field (w : Nat) (s t r : List Char) (hs : ∀ c ∈ s, isspace c = true)
    (hne : t ≠ []) (ht : ∀ c ∈ t, isspace c = false)
    (hr : ∀ c ∈ r.head?, isspace c = true) :
    conv_s w (skip_ws (s ++ (t ++ r))) = some (t.take w, t.drop w ++ r) := by
  obtain ⟨a, t2, rfl⟩ := List.exists_cons_of_ne_nil hne
  have ha := ht a (List.mem_cons_self _ _)
  rw [skip_ws_append _ _ hs, List.cons_append, skip_ws_cons _ _ ha]
  unfold conv_s
  rw [skip_ws_cons _ _ ha]
  simp only
  rw [← List.cons_append, scan_tok_field w _ r ht hr]

theorem head_append_space (s r : List Char) (hne : s ≠ [])
    (hs : ∀ c ∈ s, isspace c = true) : ∀ c ∈ (s ++ r).head?, isspace c = true := by
  obtain ⟨a, s2, rfl⟩ := List.exists_cons_of_ne_nil hne
  intro c hc
  simp only [List.cons_append, List.head?_cons, Option.mem_def, Option.some.injEq] at hc
  exact hc ▸ hs a (List.mem_cons_self _ _)

theorem head_space_not_digit (r : List Char) (h : ∀ c ∈ r.head?, isspace c = true) :
    ∀ c ∈ r.head?, isdigit c = false := by
  intro c hc
  have := h c hc
  cases hd : isdigit c with
  | false => rfl
  | true => rw [isdigit_not_isspace hd] at this; cases this

/-- The three conversions on a line of three fields whose first field is a
numeral: the name is cut at 63 characters, and the state is read from what
follows the name conversion. -/
theorem sscanf_three_fields (s0 f1 s1 f2 s2 f3 tl : List Char)
    (h0 : ∀ c ∈ s0, isspace c = true)
    (hne1 : f1 ≠ []) (h1 : ∀ c ∈ f1, isdigit c = true)
    (hs1 : s1 ≠ []) (hs1w : ∀ c ∈ s1, isspace c = true)
    (hne2 : f2 ≠ []) (h2 : ∀ c ∈ f2, isspace c = false)
    (hs2 : s2 ≠ []) (hs2w : ∀ c ∈ s2, isspace c = true)
    (hne3 : f3 ≠ []) (h3 : ∀ c ∈ f3, isspace c = false)
    (htl : ∀ c ∈ tl.head?, isspace c = true) :
    sscanf_u_63s_15s (s0 ++ (f1 ++ (s1 ++ (f2 ++ (s2 ++ (f3 ++ tl))))))
      = ⟨3, strtoul false f1 % 2 ^ 32, f2.take 63,
          if f2.length ≤ 63 then f3.take 15 else (f2.drop 63).take 15⟩ := by
  unfold sscanf_u_63s_15s
  rw [conv_u_numeral s0 f1 _ h0 hne1 h1
    (head_space_not_digit _ (head_append_space s1 _ hs1 hs1w))]
  simp only
  rw [conv_s_field 63 s1 f2 _ hs1w hne2 h2 (head_append_space s2 _ hs2 hs2w)]
  simp only
  by_cases hl : f2.length ≤ 63
  · rw [List.drop_eq_nil_of_le hl, List.nil_append,
      conv_s_field 15 s2 f3 tl hs2w hne3 h3 htl]
    simp [hl]
  · have hd : f2.drop 63 ≠ [] := by
      intro h
      rw [List.drop_eq_nil_iff] at h
      exact hl h
    have hd2 : ∀ c ∈ f2.drop 63, isspace c = false :=
      fun c hc => h2 c (List.mem_of_mem_drop hc)
    have := conv_s_field 15 [] (f2.drop 63) (s2 ++ (f3 ++ tl)) (by simp) hd hd2
      (head_append_space s2 _ hs2 hs2w)
    rw [List.nil_append] at this
    rw [this]
    simp [hl]

theorem is_skip_line_numeral (s0 f1 r : List Char) (h0 : ∀ c ∈ s0, isspace c = true)
    (hne1 : f1 ≠ []) (h1 : ∀ c ∈ f1, isdigit c = true) :
    is_skip_line (s0 ++ (f1 ++ r)) = false := by
  obtain ⟨d, ds, rfl⟩ := List.exists_cons_of_ne_nil hne1
  have hd := h1 d (List.mem_cons_self _ _)
  rw [is_skip_line_append _ _ h0]
  simp [is_skip_line, isdigit_ne_hash hd, isdigit_not_isspace hd]

theorem strtoul_lt (f1 : List Char) (h : digits_val 0 f1 < 2 ^ 32) :
    strtoul false f1 % 2 ^ 32 = digits_val 0 f1 := by
  have : ¬ digits_val 0 f1 > ULONG_MAX := by
    unfold ULONG_MAX; omega
  simp only [strtoul, this, if_false, Bool.false_eq_true]
  exact Nat.mod_eq_of_lt h

/-- What the loop body does with a line of three fields whose first field is a
numeral below `2 ^ 32` and whose name has at most 63 characters. -/
theorem parse_line_three_fields (s0 f1 s1 f2 s2 f3 tl : List Char)
    (h0 : ∀ c ∈ s0, isspace c = true)
    (hne1 : f1 ≠ []) (h1 : ∀ c ∈ f1, isdigit c = true)
    (hv : digits_val 0 f1 < 2 ^ 32)
    (hs1 : s1 ≠ []) (hs1w : ∀ c ∈ s1, isspace c = true)
    (hne2 : f2 ≠ []) (h2 : ∀ c ∈ f2, isspace c = false) (hl2 : f2.length ≤ 63)
    (hs2 : s2 ≠ []) (hs2w : ∀ c ∈ s2, isspace c = true)
    (hne3 : f3 ≠ []) (h3 : ∀ c ∈ f3, isspace c = false)
    (htl : ∀ c ∈ tl.head?, isspace c = true) :
    parse_line (s0 ++ (f1 ++ (s1 ++ (f2 ++ (s2 ++ (f3 ++ tl))))))
      = if digits_val 0 f1 > IOA_MAX then none
        else some ⟨digits_val 0 f1, f2, parse_state (f3.take 15)⟩ := by
  unfold parse_line
  rw [is_skip_line_numeral s0 f1 _ h0 hne1 h1,
    sscanf_three_fields s0 f1 s1 f2 s2 f3 tl h0 hne1 h1 hs1 hs1w hne2 h2 hs2 hs2w hne3 h3 htl,
    strtoul_lt f1 hv]
  simp only [Bool.false_eq_true, if_false, lt_self_iff_false, hl2, if_true]
  split
  · rfl
  · have hv2 : digits_val 0 f1 < 4294967296 := by simpa using hv
    simp [strncpy, IOA_NAME_MAX, Nat.mod_eq_of_lt hv2, List.take_of_length_le hl2]

/-! ## The state token -/

theorem strcasecmp_take (n : Nat) (s b : List Char) (h : b.length < n) :
    strcasecmp (s.take n) b = strcasecmp s b := by
  induction b generalizing s n with
  | nil =>
    cases s with
    | nil => simp
    | cons a s =>
      cases n with
      | zero => simp at h
      | succ n => simp [strcasecmp]
  | cons x b ih =>
    cases n with
    | zero => simp at h
    | succ n =>
      cases s with
      | nil => simp
      | cons a s =>
        simp only [List.take_succ_cons, strcasecmp]
        rw [ih n s (by simpa using h)]

theorem parse_state_take (s : List Char) : parse_state (s.take 15) = parse_state s := by
  unfold parse_state
  rw [strcasecmp_take 15 s str_OFF (by decide), strcasecmp_take 15 s str_ON (by decide)]

theorem char_of_toNat {c : Char} {n : Nat} (h : c.toNat = n) : c = Char.ofNat n := by
  rw [← h, Char.ofNat_toNat]

theorem tolower_eq_o {c : Char} : tolower c = 111 ↔ c = 'O' ∨ c = 'o' := by
  constructor
  · intro h
    unfold tolower at h
    split at h
    · left
      have h2 : c.toNat = 79 := by omega
      exact char_of_toNat h2
    · right; exact char_of_toNat h
  · rintro (rfl | rfl) <;> decide

theorem tolower_eq_n {c : Char} : tolower c = 110 ↔ c = 'N' ∨ c = 'n' := by
  constructor
  · intro h
    unfold tolower at h
    split at h
    · left
      have h2 : c.toNat = 78 := by omega
      exact char_of_toNat h2
    · right; exact char_of_toNat h
  · rintro (rfl | rfl) <;> decide

theorem tolower_eq_zero {c : Char} : tolower c = 0 ↔ c = NUL := by
  constructor
  · intro h
    unfold tolower at h
    split at h
    · omega
    · exact char_of_toNat h
  · rintro rfl; decide

/-- The spellings of `ON` the comparison accepts. -/
theorem strcasecmp_ON (s : List Char) (hs : ∀ c ∈ s, c ≠ NUL) :
    strcasecmp s str_ON = 0
      ↔ s = ['O', 'N'] ∨ s = ['O', 'n'] ∨ s = ['o', 'N'] ∨ s = ['o', 'n'] := by
  constructor
  · intro h
    match s, hs, h with
    | [], _, h => simp [strcasecmp, str_ON, tolower] at h
    | [a], hs, h =>
      simp only [strcasecmp, str_ON] at h
      split at h
      · simp [tolower] at h
      · omega
    | [a, b], _, h =>
      simp only [strcasecmp, str_ON] at h
      have e1 : tolower 'O' = 111 := by decide
      have e2 : tolower 'N' = 110 := by decide
      rw [e1, e2] at h
      split at h
      · rename_i ha
        split at h
        · rename_i hb
          rcases tolower_eq_o.mp ha with rfl | rfl <;>
            rcases tolower_eq_n.mp hb with rfl | rfl <;> simp
        · omega
      · omega
    | a :: b :: c :: t, hs, h =>
      simp only [strcasecmp, str_ON] at h
      have hc : tolower c ≠ 0 := fun h0 =>
        hs c (by simp) (tolower_eq_zero.mp h0)
      split at h
      · split at h
        · omega
        · omega
      · omega
  · rintro (rfl | rfl | rfl | rfl) <;> decide

theorem strcasecmp_OFF_ON (s : List Char) (h : strcasecmp s str_ON = 0) :
    strcasecmp s str_OFF ≠ 0 := by
  match s, h with
  | [], h => simp [strcasecmp, str_ON, tolower] at h
  | [a], h =>
    simp only [strcasecmp, str_ON] at h
    split at h
    · simp [tolower] at h
    · omega
  | a :: b :: t, h =>
    simp only [strcasecmp, str_ON, str_OFF] at h ⊢
    have e1 : tolower 'O' = 111 := by decide
    have e2 : tolower 'N' = 110 := by decide
    have e3 : tolower 'F' = 102 := by decide
    rw [e1, e3]
    rw [e1, e2] at h
    split at h
    · rename_i ha
      rw [if_pos ha]
      split at h
      · rename_i hb
        have : ¬ tolower b = 102 := by omega
        rw [if_neg this]
        omega
      · omega
    · omega

/-- The parsed state is `1` exactly for the four spellings of `ON`. -/
theorem parse_state_eq_one (s : List Char) (hs : ∀ c ∈ s, c ≠ NUL) :
    parse_state s = 1
      ↔ s = ['O', 'N'] ∨ s = ['O', 'n'] ∨ s = ['o', 'N'] ∨ s = ['o', 'n'] := by
  rw [← strcasecmp_ON s hs]
  unfold parse_state
  constructor
  · intro h
    split at h
    · omega
    · split at h
      · assumption
      · omega
  · intro h
    rw [if_neg (strcasecmp_OFF_ON s h), if_pos h]

theorem parse_state_le_one (s : List Char) : parse_state s = 0 ∨ parse_state s = 1 := by
  unfold parse_state
  split
  · left; rfl
  · split
    · right; rfl
    · left; rfl

/-! ## Decimal rendering -/

theorem digit_char_table : ∀ d, d < 10 → (digit_char d).toNat = 48 + d := by
  decide

theorem digit_char_toNat (d : Nat) (h : d < 10) : (digit_char d).toNat = 48 + d :=
  digit_char_table d h

theorem digit_char_isdigit (d : Nat) (h : d < 10) : isdigit (digit_char d) = true := by
  have := digit_char_toNat d h
  simp only [isdigit, Bool.and_eq_true, decide_eq_true_eq]
  omega

theorem digits_val_append (a : Nat) (xs ys : List Char) :
    digits_val a (xs ++ ys) = digits_val (digits_val a xs) ys := by
  induction xs generalizing a with
  | nil => rfl
  | cons x xs ih =>
    show digits_val (a * 10 + (x.toNat - 48)) (xs ++ ys)
      = digits_val (digits_val (a * 10 + (x.toNat - 48)) xs) ys
    exact ih _

theorem digits_val_snoc (ds : List Char) (c : Char) :
    digits_val 0 (ds ++ [c]) = digits_val 0 ds * 10 + (c.toNat - 48) := by
  rw [digits_val_append]
  rfl

theorem fmt_u_core_acc (fuel n : Nat) (acc : List Char) :
    fmt_u_core fuel n acc = fmt_u_core fuel n [] ++ acc := by
  induction fuel generalizing n acc with
  | zero => rfl
  | succ fuel ih =>
    rw [fmt_u_core, fmt_u_core]
    by_cases h10 : n / 10 = 0
    · rw [if_pos h10, if_pos h10]
      rfl
    · rw [if_neg h10, if_neg h10, ih (n / 10) (digit_char (n % 10) :: acc),
        ih (n / 10) [digit_char (n % 10)], List.append_assoc]
      rfl

theorem fmt_u_core_step (fuel n : Nat) (h10 : ¬ n / 10 = 0) :
    fmt_u_core (fuel + 1) n [] = fmt_u_core fuel (n / 10) [] ++ [digit_char (n % 10)] := by
  rw [fmt_u_core, if_neg h10, fmt_u_core_acc]

theorem fmt_u_core_small (fuel n : Nat) (h10 : n / 10 = 0) :
    fmt_u_core (fuel + 1) n [] = [digit_char (n % 10)] := by
  rw [fmt_u_core, if_pos h10]

theorem fmt_u_core_digits (fuel n : Nat) (hn : n < fuel) :
    ∀ c ∈ fmt_u_core fuel n [], isdigit c = true := by
  induction fuel generalizing n with
  | zero => omega
  | succ fuel ih =>
    have hm : n % 10 < 10 := Nat.mod_lt _ (by omega)
    intro c hc
    by_cases h10 : n / 10 = 0
    · rw [fmt_u_core_small fuel n h10, List.mem_singleton] at hc
      rw [hc]
      exact digit_char_isdigit _ hm
    · rw [fmt_u_core_step fuel n h10] at hc
      rcases List.mem_append.mp hc with h | h
      · exact ih (n / 10) (by omega) c h
      · rw [List.mem_singleton] at h
        rw [h]
        exact digit_char_isdigit _ hm

theorem fmt_u_core_val (fuel n : Nat) (hn : n < fuel) :
    digits_val 0 (fmt_u_core fuel n []) = n := by
  induction fuel generalizing n with
  | zero => omega
  | succ fuel ih =>
    have hm : n % 10 < 10 := Nat.mod_lt _ (by omega)
    have hd := digit_char_toNat _ hm
    by_cases h10 : n / 10 = 0
    · rw [fmt_u_core_small fuel n h10]
      have := digits_val_snoc [] (digit_char (n % 10))
      rw [List.nil_append] at this
      rw [this, hd]
      have h0 : digits_val 0 [] = 0 := rfl
      rw [h0]
      omega
    · rw [fmt_u_core_step fuel n h10, digits_val_snoc, ih (n / 10) (by omega), hd]
      omega

theorem fmt_u_core_length (fuel n k : Nat) (hn : n < fuel) (hk : n < 10 ^ (k + 1)) :
    1 ≤ (fmt_u_core fuel n []).length ∧ (fmt_u_core fuel n []).length ≤ k + 1 := by
  induction fuel generalizing n k with
  | zero => omega
  | succ fuel ih =>
    by_cases h10 : n / 10 = 0
    · rw [fmt_u_core_small fuel n h10, List.length_singleton]
      omega
    · rw [fmt_u_core_step fuel n h10, List.length_append, List.length_singleton]
      cases k with
      | zero => omega
      | succ k =>
        have h2 : n / 10 < 10 ^ (k + 1) := by
          rw [Nat.div_lt_iff_lt_mul (by omega)]
          rw [pow_succ] at hk
          exact hk
        have := ih (n / 10) k (by omega) h2
        omega

theorem fmt_u_spec (n : Nat) :
    fmt_u n ≠ [] ∧ (∀ c ∈ fmt_u n, isdigit c = true) ∧ digits_val 0 (fmt_u n) = n ∧
      (∀ k, n < 10 ^ (k + 1) → (fmt_u n).length ≤ k + 1) := by
  have hn : n < n + 1 := Nat.lt_succ_self n
  refine ⟨?_, fmt_u_core_digits _ _ hn, fmt_u_core_val _ _ hn,
    fun k hk => (fmt_u_core_length _ _ k hn hk).2⟩
  intro h
  have h1 := (fmt_u_core_length (n + 1) n n hn (Nat.lt_of_lt_of_le (Nat.lt_pow_self (by omega) n)
    (Nat.pow_le_pow_right (by omega) (Nat.le_succ n)))).1
  unfold fmt_u at h
  rw [h] at h1
  simp at h1

/-! ## Comment lines, blank lines and written config lines -/

theorem scan_file_comment (body rest : List Char) (hn : ∀ c ∈ body, c ≠ '\n')
    (hl : body.length + 2 < LINE_BUF_SIZE) :
    scan_file (('#' :: body) ++ '\n' :: rest) = scan_file rest := by
  rw [scan_file_line ('#' :: body) rest]
  · have : parse_line (cstr (('#' :: body) ++ ['\n'])) = none := by
      have h1 : ('#' != NUL) = true := by decide
      simp [parse_line, cstr, List.takeWhile, h1, is_skip_line]
    rw [this]
    rfl
  · intro c hc
    rcases List.mem_cons.mp hc with h | h
    · rw [h]; decide
    · exact hn c h
  · simpa using hl

theorem scan_file_blank (rest : List Char) : scan_file ('\n' :: rest) = scan_file rest := by
  have := scan_file_line [] rest (by simp) (by decide)
  rw [List.nil_append] at this
  rw [this]
  have : parse_line (cstr ([] ++ ['\n'])) = none := by decide
  rw [this]
  rfl

theorem isdigit_ne_newline {c : Char} (h : isdigit c = true) : c ≠ '\n' := by
  rintro rfl
  revert h
  decide

theorem not_isspace_ne_newline {c : Char} (h : isspace c = false) : c ≠ '\n' := by
  rintro rfl
  revert h
  decide

theorem name_pfx_field (cat : IOACategory) :
    ∀ c ∈ name_pfx cat ++ ['_', 'I', 'O', 'A', '_'], isspace c = false ∧ c ≠ NUL := by
  cases cat <;> decide

theorem state_str_field (e : DiscoveredIOA) :
    state_str e ≠ [] ∧ (state_str e).length ≤ 3 ∧
      ∀ c ∈ state_str e, isspace c = false ∧ c ≠ NUL := by
  unfold state_str
  cases e.is_digital <;> cases e.digital_state <;> decide

theorem state_str_parse (e : DiscoveredIOA) :
    parse_state (state_str e) = if e.is_digital && e.digital_state then 1 else 0 := by
  unfold state_str
  cases e.is_digital <;> cases e.digital_state <;> decide

theorem config_name_field (e : DiscoveredIOA) (k : Nat) (hk : e.ioa < 10 ^ (k + 1)) :
    config_name e ≠ [] ∧ (config_name e).length ≤ 8 + k ∧
      ∀ c ∈ config_name e, isspace c = false ∧ c ≠ NUL := by
  obtain ⟨_, hdig, _, hlen⟩ := fmt_u_spec e.ioa
  have h7 : (name_pfx e.category ++ ['_', 'I', 'O', 'A', '_']).length = 7 := by
    cases e.category <;> rfl
  unfold config_name
  refine ⟨?_, ?_, ?_⟩
  · intro h
    have := congrArg List.length h
    rw [List.length_append, h7] at this
    simp at this
  · rw [List.length_append, h7]
    have := hlen k hk
    omega
  · intro c hc
    rcases List.mem_append.mp hc with h | h
    · exact name_pfx_field e.category c h
    · exact ⟨isdigit_not_isspace (hdig c h), isdigit_ne_NUL (hdig c h)⟩

theorem parse_config_line (e : DiscoveredIOA) (h : e.ioa ≤ IOA_MAX) :
    ∃ line : List Char, config_line e = line ++ ['\n'] ∧ (∀ c ∈ line, c ≠ '\n') ∧
      line.length + 1 < LINE_BUF_SIZE ∧
      parse_line (cstr (line ++ ['\n'])) = some (toTargetEntry e) := by
  obtain ⟨hne1, hdig, hval, hlen⟩ := fmt_u_spec e.ioa
  have hk : e.ioa < 10 ^ (7 + 1) := by
    unfold IOA_MAX at h
    omega
  have hl1 := hlen 7 hk
  obtain ⟨hne2, hl2, hf2⟩ := config_name_field e 7 hk
  obtain ⟨hne3, hl3, hf3⟩ := state_str_field e
  have hpad : ∀ c ∈ List.replicate (6 - (fmt_u e.ioa).length) ' ' ++ [' '], c = ' ' := by
    intro c hc
    rcases List.mem_append.mp hc with h | h
    · exact (List.mem_replicate.mp h).2
    · exact List.mem_singleton.mp h
  have hs1w : ∀ c ∈ List.replicate (6 - (fmt_u e.ioa).length) ' ' ++ [' '],
      isspace c = true := fun c hc => by rw [hpad c hc]; decide
  have hs2w : ∀ c ∈ [' ', ' '], isspace c = true := by decide
  refine ⟨fmt_u e.ioa ++ ((List.replicate (6 - (fmt_u e.ioa).length) ' ' ++ [' '])
    ++ (config_name e ++ ([' ', ' '] ++ state_str e))), ?_, ?_, ?_, ?_⟩
  · simp [config_line, fmt_u_left6, List.append_assoc]
  · intro c hc
    rcases List.mem_append.mp hc with h1 | hc
    · exact isdigit_ne_newline (hdig c h1)
    rcases List.mem_append.mp hc with h1 | hc
    · rw [hpad c h1]; decide
    rcases List.mem_append.mp hc with h1 | hc
    · exact not_isspace_ne_newline (hf2 c h1).1
    rcases List.mem_append.mp hc with h1 | hc
    · have : c = ' ' := by simpa using h1
      rw [this]; decide
    · exact not_isspace_ne_newline (hf3 c hc).1
  · simp only [List.length_append, List.length_replicate, List.length_cons, List.length_nil,
      LINE_BUF_SIZE]
    omega
  · rw [cstr_eq]
    · have e1 : fmt_u e.ioa ++ ((List.replicate (6 - (fmt_u e.ioa).length) ' ' ++ [' '])
          ++ (config_name e ++ ([' ', ' '] ++ state_str e))) ++ ['\n']
          = [] ++ (fmt_u e.ioa ++ ((List.replicate (6 - (fmt_u e.ioa).length) ' ' ++ [' '])
            ++ (config_name e ++ ([' ', ' '] ++ (state_str e ++ ['\n']))))) := by
        simp [List.append_assoc]
      rw [e1, parse_line_three_fields [] (fmt_u e.ioa) _ (config_name e) [' ', ' ']
        (state_str e) ['\n'] (by simp) hne1 hdig (by rw [hval]; unfold IOA_MAX at h; omega)
        (by simp) hs1w hne2 (fun c hc => (hf2 c hc).1) (by omega) (by simp) hs2w hne3
        (fun c hc => (hf3 c hc).1) (by decide)]
      rw [hval, if_neg (by omega), parse_state_take, state_str_parse]
      rfl
    · intro c hc
      rcases List.mem_append.mp hc with hc | h1
      swap
      · have : c = '\n' := by simpa using h1
        rw [this]; decide
      rcases List.mem_append.mp hc with h1 | hc
      · exact isdigit_ne_NUL (hdig c h1)
      rcases List.mem_append.mp hc with h1 | hc
      · exact isspace_ne_NUL (hs1w c h1)
      rcases List.mem_append.mp hc with h1 | hc
      · exact (hf2 c h1).2
      rcases List.mem_append.mp hc with h1 | hc
      · exact isspace_ne_NUL (hs2w c h1)
      · exact (hf3 c hc).2

theorem scan_config_line (e : DiscoveredIOA) (rest : List Char) (h : e.ioa ≤ IOA_MAX) :
    scan_file (config_line e ++ rest) = toTargetEntry e :: scan_file rest := by
  obtain ⟨line, h1, h2, h3, h4⟩ := parse_config_line e h
  rw [h1, List.append_assoc, List.singleton_append, scan_file_line line rest h2 h3, h4]
  rfl

theorem scan_config_lines (es : List DiscoveredIOA) (h : ∀ e ∈ es, e.ioa ≤ IOA_MAX) :
    scan_file (config_lines es) = es.map toTargetEntry := by
  induction es with
  | nil => exact scan_file_nil
  | cons e es ih =>
    rw [config_lines, scan_config_line e _ (h e (List.mem_cons_self _ _)),
      ih (fun x hx => h x (List.mem_cons_of_mem _ hx))]
    rfl

theorem fmt_d_no_newline (i : Int) : ∀ c ∈ fmt_d i, c ≠ '\n' := by
  intro c hc
  unfold fmt_d at hc
  split at hc
  · rcases List.mem_cons.mp hc with h | h
    · rw [h]; decide
    · exact isdigit_ne_newline ((fmt_u_spec _).2.1 c h)
  · exact isdigit_ne_newline ((fmt_u_spec _).2.1 c hc)

theorem fmt_d_count_length (count : Nat) (h : count < 2 ^ 31) :
    (fmt_d (count : Int)).length ≤ 10 := by
  have h0 : ¬ ((count : Int) < 0) := by omega
  unfold fmt_d
  rw [if_neg h0, Int.natAbs_ofNat]
  exact (fmt_u_spec count).2.2.2 9 (by omega)

/-- The header written by `inventory_write_config` yields no entry, provided its
first line has no line break and fits the line buffer. -/
theorem scan_config_header (count : Nat) (target_ip : List Char) (target_port : Int)
    (timebuf body : List Char) (hcount : count < 2 ^ 31)
    (hnl : ∀ c ∈ target_ip ++ timebuf, c ≠ '\n')
    (hfit : (header_line1 target_ip target_port timebuf).length + 1 < LINE_BUF_SIZE) :
    scan_file (config_header count target_ip target_port timebuf ++ body)
      = scan_file body := by
  have e : config_header count target_ip target_port timebuf ++ body
      = header_line1 target_ip target_port timebuf ++ '\n' ::
          (header_line2 ++ '\n' :: (header_line3 count ++ '\n' :: '\n' :: body)) := by
    simp [config_header, List.append_assoc]
  rw [e]
  have k1 : ∀ c ∈ " Auto-discovered IOAs from ".toList, c ≠ '\n' := by decide
  have k2 : ∀ c ∈ [':'], c ≠ '\n' := by decide
  have k3 : ∀ c ∈ " on ".toList, c ≠ '\n' := by decide
  have k4 : ∀ c ∈ " Total: ".toList, c ≠ '\n' := by decide
  have k5 : ∀ c ∈ " IOAs discovered".toList, c ≠ '\n' := by decide
  unfold header_line1 header_line2 header_line3
  rw [scan_file_comment, scan_file_comment, scan_file_comment, scan_file_blank]
  · intro c hc
    rcases List.mem_append.mp hc with hc | h1
    swap
    · exact k5 c h1
    rcases List.mem_append.mp hc with h1 | h1
    · exact k4 c h1
    · exact fmt_d_no_newline _ c h1
  · have := fmt_d_count_length count hcount
    simp only [List.length_append, LINE_BUF_SIZE]
    have h1 : " Total: ".toList.length = 8 := by decide
    have h2 : " IOAs discovered".toList.length = 16 := by decide
    omega
  · decide
  · decide
  · intro c hc
    rcases List.mem_append.mp hc with hc | h1
    swap
    · exact hnl c (List.mem_append_right _ h1)
    rcases List.mem_append.mp hc with hc | h1
    swap
    · exact k3 c h1
    rcases List.mem_append.mp hc with hc | h1
    swap
    · exact fmt_d_no_newline _ c h1
    rcases List.mem_append.mp hc with hc | h1
    swap
    · exact k2 c h1
    rcases List.mem_append.mp hc with h1 | h1
    · exact k1 c h1
    · exact hnl c (List.mem_append_left _ h1)
  · unfold header_line1 at hfit
    simp only [List.length_cons] at hfit
    omega

/-! ## Lines inside a file -/

theorem fgets_whole_eof (n : Nat) (line : List Char) (hn : ∀ c ∈ line, c ≠ '\n')
    (hl : line.length ≤ n) : fgets n line = (line, []) := by
  induction line generalizing n with
  | nil => exact fgets_nil n
  | cons c line ih =>
    cases n with
    | zero => simp at hl
    | succ n =>
      have hc : c ≠ '\n' := hn c (List.mem_cons_self _ _)
      have := ih n (fun x hx => hn x (List.mem_cons_of_mem _ hx))
        (by simpa using hl)
      simp [fgets, hc, this]

theorem at_line_start_iff (before : List Char) :
    at_line_start before = true ↔ before = [] ∨ ∃ p, before = p ++ ['\n'] := by
  unfold at_line_start
  rcases List.eq_nil_or_concat before with h | ⟨p, c, h⟩
  · subst h; simp
  · subst h
    rw [List.concat_eq_append, List.getLast?_concat]
    simp only [beq_iff_eq, List.append_eq_nil, List.cons_ne_nil, and_false, false_or]
    constructor
    · rintro rfl
      exact ⟨p, rfl⟩
    · rintro ⟨q, hq⟩
      have := congrArg List.getLast? hq
      simpa using this

/-- Entries of a file split after a complete line. -/
theorem scan_file_append (before rest : List Char) (h : at_line_start before = true) :
    scan_file (before ++ rest) = scan_file before ++ scan_file rest := by
  rcases (at_line_start_iff before).mp h with h | ⟨p, h⟩
  · subst h
    simp [scan_file_nil]
  · subst h
    rw [List.append_assoc, List.singleton_append, scan_file_append_line]

/-- A line that fits the buffer, ended by a newline or by the end of the file,
is read in one piece. -/
theorem scan_file_line_eol (line eol rest : List Char) (hn : ∀ c ∈ line, c ≠ '\n')
    (hl : line.length + eol.length < LINE_BUF_SIZE)
    (heol : eol = ['\n'] ∨ (eol = [] ∧ rest = [])) :
    scan_file (line ++ (eol ++ rest))
      = (parse_line (cstr (line ++ eol))).toList ++ scan_file rest := by
  rcases heol with h | ⟨h1, h2⟩
  · subst h
    exact scan_file_line line rest hn (by simpa using hl)
  · subst h1 h2
    simp only [List.append_nil, scan_file_nil]
    cases line with
    | nil => decide
    | cons c t =>
      rw [scan_file_step, fgets_whole_eof _ (c :: t) hn
        (by simp [LINE_BUF_SIZE] at hl ⊢; omega), scan_file_nil]
      simp

theorem is_blank_spec {s : List Char} (h : is_blank s = true) :
    ∀ c ∈ s, isspace c = true ∧ c ≠ '\n' := by
  intro c hc
  have := List.all_eq_true.mp h c hc
  simpa using this

theorem is_field_spec {t : List Char} (h : is_field t = true) :
    t ≠ [] ∧ ∀ c ∈ t, isspace c = false ∧ c ≠ NUL := by
  unfold is_field at h
  rw [Bool.and_eq_true] at h
  refine ⟨by simpa using h.1, fun c hc => ?_⟩
  have := List.all_eq_true.mp h.2 c hc
  simpa using this

theorem is_numeral_spec {t : List Char} (h : is_numeral t = true) :
    t ≠ [] ∧ ∀ c ∈ t, isdigit c = true := by
  unfold is_numeral at h
  rw [Bool.and_eq_true] at h
  exact ⟨by simpa using h.1, fun c hc => List.all_eq_true.mp h.2 c hc⟩

/-- The line without its end. -/
theorem DataLine.text_eq (l : DataLine) :
    l.text = (l.lead ++ (l.ioa_field ++ (l.sep1 ++ (l.name_field ++ (l.sep2 ++
      (l.state_field ++ l.trail)))))) ++ l.eol := by
  simp [DataLine.text, List.append_assoc]

theorem DataLine.three_fields_spec {l : DataLine} (h : l.three_fields = true) :
    is_blank l.lead = true ∧ is_field l.ioa_field = true ∧ l.sep1 ≠ [] ∧
      is_blank l.sep1 = true ∧ is_field l.name_field = true ∧ l.sep2 ≠ [] ∧
      is_blank l.sep2 = true ∧ is_field l.state_field = true ∧ is_blank l.trail = true ∧
      (l.eol = ['\n'] ∨ l.eol = []) := by
  unfold DataLine.three_fields at h
  simp only [Bool.and_eq_true, Bool.or_eq_true, Bool.not_eq_true', List.isEmpty_eq_false,
    beq_iff_eq] at h
  obtain ⟨⟨⟨⟨⟨⟨⟨⟨⟨a, b⟩, c⟩, d⟩, e⟩, f⟩, g⟩, i⟩, j⟩, k⟩ := h
  exact ⟨a, b, c, d, e, f, g, i, j, k⟩

theorem DataLine.no_newline {l : DataLine} (h : l.three_fields = true) :
    ∀ c ∈ l.lead ++ (l.ioa_field ++ (l.sep1 ++ (l.name_field ++ (l.sep2 ++
      (l.state_field ++ l.trail))))), c ≠ '\n' := by
  obtain ⟨a, b, _, d, e, _, g, i, j, _⟩ := DataLine.three_fields_spec h
  intro c hc
  rcases List.mem_append.mp hc with h1 | hc
  · exact (is_blank_spec a c h1).2
  rcases List.mem_append.mp hc with h1 | hc
  · exact not_isspace_ne_newline ((is_field_spec b).2 c h1).1
  rcases List.mem_append.mp hc with h1 | hc
  · exact (is_blank_spec d c h1).2
  rcases List.mem_append.mp hc with h1 | hc
  · exact not_isspace_ne_newline ((is_field_spec e).2 c h1).1
  rcases List.mem_append.mp hc with h1 | hc
  · exact (is_blank_spec g c h1).2
  rcases List.mem_append.mp hc with h1 | hc
  · exact not_isspace_ne_newline ((is_field_spec i).2 c h1).1
  · exact (is_blank_spec j c hc).2

theorem DataLine.no_NUL {l : DataLine} (h : l.three_fields = true) :
    ∀ c ∈ l.text, c ≠ NUL := by
  obtain ⟨a, b, _, d, e, _, g, i, j, k⟩ := DataLine.three_fields_spec h
  intro c hc
  unfold DataLine.text at hc
  rcases List.mem_append.mp hc with h1 | hc
  · exact isspace_ne_NUL (is_blank_spec a c h1).1
  rcases List.mem_append.mp hc with h1 | hc
  · exact ((is_field_spec b).2 c h1).2
  rcases List.mem_append.mp hc with h1 | hc
  · exact isspace_ne_NUL (is_blank_spec d c h1).1
  rcases List.mem_append.mp hc with h1 | hc
  · exact ((is_field_spec e).2 c h1).2
  rcases List.mem_append.mp hc with h1 | hc
  · exact isspace_ne_NUL (is_blank_spec g c h1).1
  rcases List.mem_append.mp hc with h1 | hc
  · exact ((is_field_spec i).2 c h1).2
  rcases List.mem_append.mp hc with h1 | hc
  · exact isspace_ne_NUL (is_blank_spec j c h1).1
  · rcases k with k | k
    · rw [k] at hc
      have : c = '\n' := by simpa using hc
      rw [this]; decide
    · rw [k] at hc
      cases hc

theorem DataLine.tail_head {l : DataLine} (h : l.three_fields = true) :
    ∀ c ∈ (l.trail ++ l.eol).head?, isspace c = true := by
  obtain ⟨_, _, _, _, _, _, _, _, j, k⟩ := DataLine.three_fields_spec h
  intro c hc
  have hmem : c ∈ l.trail ++ l.eol := List.mem_of_mem_head? hc
  rcases List.mem_append.mp hmem with h1 | h1
  · exact (is_blank_spec j c h1).1
  · rcases k with k | k
    · rw [k] at h1
      have : c = '\n' := by simpa using h1
      rw [this]; decide
    · rw [k] at h1
      cases h1

/-- The loop body on a line of three fields whose first field is a numeral
below `2 ^ 32` and whose name has at most 63 characters. -/
theorem parse_data_line (l : DataLine) (h : l.three_fields = true)
    (hnum : is_numeral l.ioa_field = true) (hv : digits_val 0 l.ioa_field < 2 ^ 32)
    (hname : l.name_field.length ≤ 63) :
    parse_line (cstr l.text)
      = if digits_val 0 l.ioa_field > IOA_MAX then none
        else some ⟨digits_val 0 l.ioa_field, l.name_field, parse_state l.state_field⟩ := by
  obtain ⟨a, _, c, d, e, f, g, i, _, _⟩ := DataLine.three_fields_spec h
  rw [cstr_eq _ (DataLine.no_NUL h)]
  unfold DataLine.text
  rw [parse_line_three_fields l.lead l.ioa_field l.sep1 l.name_field l.sep2 l.state_field
    (l.trail ++ l.eol) (fun x hx => (is_blank_spec a x hx).1) (is_numeral_spec hnum).1
    (is_numeral_spec hnum).2 hv c (fun x hx => (is_blank_spec d x hx).1)
    (is_field_spec e).1 (fun x hx => ((is_field_spec e).2 x hx).1) hname f
    (fun x hx => (is_blank_spec g x hx).1) (is_field_spec i).1
    (fun x hx => ((is_field_spec i).2 x hx).1) (DataLine.tail_head h), parse_state_take]

/-- A three-field line that fits the buffer is read in one piece, wherever it
stands in the file. -/
theorem scan_data_line (before rest : List Char) (l : DataLine)
    (hstart : at_line_start before = true) (h : l.three_fields = true)
    (hlen : l.text.length < LINE_BUF_SIZE) (heof : l.eol = [] → rest = []) :
    scan_file (before ++ (l.text ++ rest))
      = scan_file before ++ ((parse_line (cstr l.text)).toList ++ scan_file rest) := by
  rw [scan_file_append before _ hstart]
  congr 1
  have k := (DataLine.three_fields_spec h).2.2.2.2.2.2.2.2.2
  have heol : l.eol = ['\n'] ∨ (l.eol = [] ∧ rest = []) := by
    rcases k with k | k
    · exact Or.inl k
    · exact Or.inr ⟨k, heof k⟩
  rw [DataLine.text_eq] at hlen ⊢
  rw [List.append_assoc]
  exact scan_file_line_eol _ l.eol rest (DataLine.no_newline h)
    (by rw [List.length_append] at hlen; exact hlen) heol

/-! ## Inventory -/

theorem has_ioa_append (es : List DiscoveredIOA) (p : DiscoveredIOA) (ioa : Nat)
    (h : p.ioa = ioa) : has_ioa (es ++ [p]) ioa = true := by
  induction es with
  | nil => simp [has_ioa, h]
  | cons e es ih =>
    simp only [List.cons_append, has_ioa]
    split
    · rfl
    · exact ih

theorem has_ioa_false (es : List DiscoveredIOA) (ioa : Nat) (h : has_ioa es ioa = false) :
    ∀ e ∈ es, e.ioa ≠ ioa := by
  induction es with
  | nil => simp
  | cons e es ih =>
    simp only [has_ioa] at h
    split at h
    · cases h
    · rename_i hne
      intro x hx
      rcases List.mem_cons.mp hx with rfl | hx
      · exact hne
      · exact ih h x hx

theorem find_after_append (es : List DiscoveredIOA) (p : DiscoveredIOA) (ioa : Nat)
    (h1 : ∀ e ∈ es, e.ioa ≠ ioa) (h2 : p.ioa = ioa) :
    (es ++ [p]).find? (fun e => e.ioa == ioa) = some p := by
  induction es with
  | nil => simp [List.find?, h2]
  | cons e es ih =>
    have he : (e.ioa == ioa) = false := by
      simpa using h1 e (List.mem_cons_self _ _)
    simp only [List.cons_append, List.find?, he]
    exact ih (fun x hx => h1 x (List.mem_cons_of_mem _ hx))

/-- What a successful insertion stores. -/
theorem inventory_add_inserted (r : Nat → Bool) (inv inv1 : IOAInventory)
    (p : DiscoveredIOA) (h : inventory_add r inv p = (1, inv1)) :
    has_ioa inv.entries p.ioa = false ∧ inv1.entries = inv.entries ++ [p] := by
  unfold inventory_add at h
  split at h
  · cases h
  · rename_i hdup
    have hd : has_ioa inv.entries p.ioa = false := by simpa using hdup
    split at h
    · simp only at h
      split at h
      · injection h with _ h2
        exact ⟨hd, by rw [← h2]⟩
      · cases h
    · injection h with _ h2
      exact ⟨hd, by rw [← h2]⟩

/-! ## Dispatch and response tracking -/

namespace Multi

theorem attack_loop_all_ok (create_ok send_ok : Nat → Bool)
    (h : ∀ i, create_ok i = true ∧ send_ok i = true) (targets : List IOATarget)
    (i : Nat) (d : Dispatch) :
    (attack_loop create_ok send_ok targets i d).send_count = d.send_count + targets.length
      ∧ (attack_loop create_ok send_ok targets i d).send_fail = d.send_fail := by
  induction targets generalizing i d with
  | nil => simp [attack_loop]
  | cons t ts ih =>
    simp only [attack_loop, (h i).1, (h i).2, Bool.not_true, Bool.false_eq_true, if_false,
      if_true]
    simp only [List.length_cons]
    constructor
    · rw [(ih _ _).1]
      simp only
      omega
    · rw [(ih _ _).2]

theorem handler_fold (received : List ASDU) (g : Counters)
    (h : ∀ a ∈ received, is_unknown_response a = false) :
    received.foldl asduReceivedHandler g
      = ⟨g.g_confirm_count + received.countP is_positive_con,
          g.g_reject_count + received.countP is_negative_con⟩ := by
  induction received generalizing g with
  | nil => simp
  | cons a as ih =>
    rw [List.foldl_cons, ih _ (fun x hx => h x (List.mem_cons_of_mem _ hx))]
    have hu := h a (List.mem_cons_self _ _)
    rw [List.countP_cons, List.countP_cons]
    unfold is_unknown_response at hu
    unfold asduReceivedHandler is_positive_con is_negative_con
    by_cases h1 : a.tid = C_SC_NA_1
    · by_cases h2 : a.cot = CS101_COT_ACTIVATION_CON
      · cases h3 : a.negative <;> simp [h1, h2, h3] <;> omega
      · simp only [h1, beq_self_eq_true, Bool.true_and, Bool.or_eq_false_iff,
          beq_eq_false_iff_ne] at hu
        simp [h1, h2, hu.1, hu.2]
    · simp [h1]

end Multi


/-! ## What holds for lines that fit the line buffer -/

/-- `is_skip_line` is true exactly when the text, after leading white space, is
empty or begins with `#`. -/
theorem is_skip_line_iff (line : List Char) :
    is_skip_line line = true
      ↔ skip_ws line = [] ∨ (skip_ws line).head? = some '#' := by
  induction line with
  | nil => simp [is_skip_line, skip_ws]
  | cons c line ih =>
    by_cases h1 : c = '#'
    · subst h1
      have : isspace '#' = false := by decide
      simp [is_skip_line, skip_ws, this]
    · cases h2 : isspace c with
      | true =>
        simp only [is_skip_line, h1, h2, if_false, Bool.not_true, skip_ws, if_true]
        exact ih
      | false =>
        simp [is_skip_line, h1, h2, skip_ws]

theorem is_skip_line_cstr (line eol : List Char) (h : is_skip_line line = true)
    (heol : eol = ['\n'] ∨ eol = []) : is_skip_line (cstr (line ++ eol)) = true := by
  induction line with
  | nil => rcases heol with rfl | rfl <;> decide
  | cons c line ih =>
    by_cases h1 : c = '#'
    · subst h1
      have h0 : ('#' != NUL) = true := by decide
      simp [cstr, List.takeWhile, h0, is_skip_line]
    · cases h2 : isspace c with
      | true =>
        have h0 : (c != NUL) = true := by simpa using isspace_ne_NUL h2
        simp only [is_skip_line, h1, h2, if_false, Bool.not_true] at h
        have := ih h
        simp only [cstr, List.cons_append, List.takeWhile, h0] at this ⊢
        simp only [is_skip_line, h1, h2, if_false, Bool.not_true]
        exact this
      | false =>
        simp [is_skip_line, h1, h2] at h

/-- A comment or blank line that fits the line buffer contributes no entry,
wherever it stands in the file. -/
theorem skip_line_within_buffer (before line eol rest : List Char)
    (hstart : at_line_start before = true) (hskip : is_skip_line line = true)
    (hn : ∀ c ∈ line, c ≠ '\n') (hl : line.length + eol.length < LINE_BUF_SIZE)
    (heol : eol = ['\n'] ∨ (eol = [] ∧ rest = [])) :
    scan_file (before ++ (line ++ (eol ++ rest))) = scan_file before ++ scan_file rest
      ∧ load_ioa_map (some (before ++ (line ++ (eol ++ rest))))
        = load_ioa_map (some (before ++ rest)) := by
  have h1 : scan_file (before ++ (line ++ (eol ++ rest)))
      = scan_file before ++ scan_file rest := by
    rw [scan_file_append before _ hstart, scan_file_line_eol line eol rest hn hl heol]
    have : parse_line (cstr (line ++ eol)) = none := by
      unfold parse_line
      rw [is_skip_line_cstr line eol hskip (heol.imp id (fun h => h.1))]
      rfl
    rw [this]
    rfl
  refine ⟨h1, ?_⟩
  rw [load_ioa_map_eq, load_ioa_map_eq, h1, scan_file_append before rest hstart]

/-- The load fails exactly when the scan yields no entry; a list that is
returned is the non-empty list of the scanned entries. -/
theorem load_fails_iff_no_entry (fp : List Char) :
    (load_ioa_map (some fp) = none ↔ scan_file fp = [])
      ∧ (∀ l, load_ioa_map (some fp) = some l →
          l = scan_file fp ∧ 1 ≤ get_ioa_count (some l))
      ∧ load_ioa_map (some []) = none ∧ load_ioa_map none = none := by
  refine ⟨?_, ?_, by decide, rfl⟩
  · rw [load_ioa_map_eq]
    by_cases h : scan_file fp = [] <;> simp [h]
  · intro l hl
    rw [load_ioa_map_eq] at hl
    by_cases h : scan_file fp = []
    · simp [h] at hl
    · simp only [h, if_false, Option.some.injEq] at hl
      subst hl
      refine ⟨rfl, ?_⟩
      simp only [get_ioa_count]
      exact List.length_pos.mpr h

/-- Fail-safe state parsing for lines that fit the line buffer: a line of three
fields with a numeral of value at most 16777215 and a name of at most 63
characters always yields an entry, whose state is ON exactly for the spellings
`ON`, `On`, `oN`, `on` of the third field and OFF for every other token. -/
theorem state_fail_safe_within_buffer (l : DataLine) (hwf : l.well_formed = true)
    (hv : digits_val 0 l.ioa_field ≤ IOA_MAX) :
    parse_line (cstr l.text)
        = some ⟨digits_val 0 l.ioa_field, l.name_field, parse_state l.state_field⟩
      ∧ (parse_state l.state_field = 1
        ↔ l.state_field = ['O', 'N'] ∨ l.state_field = ['O', 'n']
          ∨ l.state_field = ['o', 'N'] ∨ l.state_field = ['o', 'n'])
      ∧ (parse_state l.state_field = 0 ∨ parse_state l.state_field = 1) := by
  unfold DataLine.well_formed at hwf
  simp only [Bool.and_eq_true, decide_eq_true_eq] at hwf
  obtain ⟨⟨h3, hnum⟩, hname⟩ := hwf
  have hf := (DataLine.three_fields_spec h3).2.2.2.2.2.2.2.1
  refine ⟨?_, parse_state_eq_one _ (fun c hc => ((is_field_spec hf).2 c hc).2),
    parse_state_le_one _⟩
  rw [parse_data_line l h3 hnum (by unfold IOA_MAX at hv; omega) hname, if_neg (by omega)]

/-- Names longer than 63 characters: on a line of three fields with a numeral
of value at most 16777215, the entry gets the first 63 characters of the name,
and its state is parsed from the up to 15 characters of the name that follow
them; the third field is not read. -/
theorem long_name_state_from_name (l : DataLine) (h3 : l.three_fields = true)
    (hnum : is_numeral l.ioa_field = true) (hv : digits_val 0 l.ioa_field ≤ IOA_MAX)
    (hname : 63 < l.name_field.length) :
    parse_line (cstr l.text)
      = some ⟨digits_val 0 l.ioa_field, l.name_field.take 63,
          parse_state ((l.name_field.drop 63).take 15)⟩ := by
  obtain ⟨a, _, c, d, e, f, g, i, _, _⟩ := DataLine.three_fields_spec h3
  have hv2 : digits_val 0 l.ioa_field < 2 ^ 32 := by unfold IOA_MAX at hv; omega
  rw [cstr_eq _ (DataLine.no_NUL h3)]
  unfold DataLine.text parse_line
  rw [is_skip_line_numeral l.lead l.ioa_field _ (fun x hx => (is_blank_spec a x hx).1)
      (is_numeral_spec hnum).1 (is_numeral_spec hnum).2,
    sscanf_three_fields l.lead l.ioa_field l.sep1 l.name_field l.sep2 l.state_field
      (l.trail ++ l.eol) (fun x hx => (is_blank_spec a x hx).1) (is_numeral_spec hnum).1
      (is_numeral_spec hnum).2 c (fun x hx => (is_blank_spec d x hx).1)
      (is_field_spec e).1 (fun x hx => ((is_field_spec e).2 x hx).1) f
      (fun x hx => (is_blank_spec g x hx).1) (is_field_spec i).1
      (fun x hx => ((is_field_spec i).2 x hx).1) (DataLine.tail_head h3),
    strtoul_lt _ hv2]
  have hv3 : digits_val 0 l.ioa_field < 4294967296 := by simpa using hv2
  simp only [Bool.false_eq_true, if_false, lt_self_iff_false, if_neg (by omega : ¬ l.name_field.length ≤ 63),
    if_neg (by omega : ¬ digits_val 0 l.ioa_field > IOA_MAX)]
  simp [strncpy, IOA_NAME_MAX, Nat.mod_eq_of_lt hv3]

/-! ## Lines of one or two fields -/

theorem conv_s_blank (w : Nat) (s : List Char) (h : ∀ c ∈ s, isspace c = true) :
    conv_s w (skip_ws s) = none := by
  rw [skip_ws_all s h]
  rfl

theorem parse_line_one_numeral (s0 f1 tl : List Char) (h0 : ∀ c ∈ s0, isspace c = true)
    (hne : f1 ≠ []) (h1 : ∀ c ∈ f1, isdigit c = true)
    (htl : ∀ c ∈ tl, isspace c = true) :
    parse_line (s0 ++ (f1 ++ tl)) = none := by
  have hh : ∀ c ∈ tl.head?, isdigit c = false :=
    head_space_not_digit _ (fun c hc => htl c (List.mem_of_mem_head? hc))
  unfold parse_line sscanf_u_63s_15s
  rw [conv_u_numeral s0 f1 tl h0 hne h1 hh]
  simp only
  rw [conv_s_blank 63 tl htl]
  simp

theorem parse_line_two_numeral (s0 f1 s1 f2 tl : List Char)
    (h0 : ∀ c ∈ s0, isspace c = true)
    (hne1 : f1 ≠ []) (h1 : ∀ c ∈ f1, isdigit c = true)
    (hs1 : s1 ≠ []) (hs1w : ∀ c ∈ s1, isspace c = true)
    (hne2 : f2 ≠ []) (h2 : ∀ c ∈ f2, isspace c = false) (hl2 : f2.length ≤ 63)
    (htl : ∀ c ∈ tl, isspace c = true) :
    parse_line (s0 ++ (f1 ++ (s1 ++ (f2 ++ tl)))) = none := by
  have hh : ∀ c ∈ tl.head?, isspace c = true :=
    fun c hc => htl c (List.mem_of_mem_head? hc)
  unfold parse_line sscanf_u_63s_15s
  rw [conv_u_numeral s0 f1 _ h0 hne1 h1
    (head_space_not_digit _ (head_append_space s1 _ hs1 hs1w))]
  simp only
  rw [conv_s_field 63 s1 f2 tl hs1w hne2 h2 hh]
  simp only
  rw [List.drop_eq_nil_of_le hl2, List.nil_append, conv_s_blank 15 tl htl]
  simp

theorem parse_line_no_number (s0 : List Char) (c : Char) (r : List Char)
    (h0 : ∀ x ∈ s0, isspace x = true) (hc : isspace c = false)
    (hd : no_number_start (c :: r) = true) :
    parse_line (s0 ++ (c :: r)) = none := by
  simp only [no_number_start, Bool.and_eq_true, Bool.not_eq_true', bne_iff_ne, ne_eq] at hd
  obtain ⟨⟨hdig, hminus⟩, hplus⟩ := hd
  have hconv : conv_u (s0 ++ (c :: r)) = Except.error 0 := by
    unfold conv_u
    rw [skip_ws_append _ _ h0, skip_ws_cons _ _ hc]
    simp [hminus, hplus, List.takeWhile, hdig]
  unfold parse_line sscanf_u_63s_15s
  rw [hconv]
  simp

/-- The loop body yields no entry on a line of one or two fields whose first
field is a plain numeral or does not start a number and whose second field has
at most 63 characters. -/
theorem parse_short_line (l : ShortLine) (h : l.plain = true) :
    parse_line (cstr l.text) = none
      ∧ (∀ c ∈ l.lead ++ (l.first ++ (l.sep ++ (l.second ++ l.trail))), c ≠ '\n')
      ∧ (l.eol = ['\n'] ∨ l.eol = []) := by
  unfold ShortLine.plain at h
  simp only [Bool.and_eq_true, Bool.or_eq_true, Bool.not_eq_true', List.isEmpty_eq_false,
    List.isEmpty_iff, beq_iff_eq, decide_eq_true_eq] at h
  obtain ⟨⟨⟨⟨⟨⟨hlead, hfirst⟩, hsecond⟩, htrail⟩, heol⟩, hnum⟩, _⟩ := h
  have hl := is_blank_spec hlead
  have hf := is_field_spec hfirst
  have ht := is_blank_spec htrail
  have htl : ∀ c ∈ l.trail ++ l.eol, isspace c = true := by
    intro c hc
    rcases List.mem_append.mp hc with h1 | h1
    · exact (ht c h1).1
    · rcases heol with k | k
      · rw [k] at h1
        have : c = '\n' := by simpa using h1
        rw [this]; decide
      · rw [k] at h1
        cases h1
  have hsec : ∀ c ∈ l.sep ++ l.second, c ≠ '\n' ∧ c ≠ NUL := by
    intro c hc
    rcases hsecond with ⟨k1, k2⟩ | ⟨⟨⟨_, k2⟩, k3⟩, _⟩
    · rw [k1, k2] at hc
      cases hc
    · rcases List.mem_append.mp hc with h1 | h1
      · exact ⟨(is_blank_spec k2 c h1).2, isspace_ne_NUL (is_blank_spec k2 c h1).1⟩
      · exact ⟨not_isspace_ne_newline ((is_field_spec k3).2 c h1).1,
          ((is_field_spec k3).2 c h1).2⟩
  refine ⟨?_, ?_, heol⟩
  · rw [cstr_eq]
    · unfold ShortLine.text
      rcases hnum with hnum | hnum
      · rcases hsecond with ⟨k1, k2⟩ | ⟨⟨⟨k1, k2⟩, k3⟩, k4⟩
        · rw [k1, k2]
          exact parse_line_one_numeral _ _ _ (fun c hc => (hl c hc).1)
            (is_numeral_spec hnum).1 (is_numeral_spec hnum).2 htl
        · exact parse_line_two_numeral _ _ _ _ _ (fun c hc => (hl c hc).1)
            (is_numeral_spec hnum).1 (is_numeral_spec hnum).2 k1
            (fun c hc => (is_blank_spec k2 c hc).1) (is_field_spec k3).1
            (fun c hc => ((is_field_spec k3).2 c hc).1) k4 htl
      · obtain ⟨c, r, hcr⟩ := List.exists_cons_of_ne_nil hf.1
        rw [hcr] at hnum ⊢
        rw [List.cons_append]
        exact parse_line_no_number _ c _ (fun x hx => (hl x hx).1)
          ((hf.2 c (by rw [hcr]; exact List.mem_cons_self _ _)).1) hnum
    · intro c hc
      unfold ShortLine.text at hc
      rcases List.mem_append.mp hc with h1 | hc
      · exact isspace_ne_NUL (hl c h1).1
      rcases List.mem_append.mp hc with h1 | hc
      · exact (hf.2 c h1).2
      rw [← List.append_assoc] at hc
      rcases List.mem_append.mp hc with h1 | hc
      · exact (hsec c h1).2
      · exact isspace_ne_NUL (htl c hc)
  · intro c hc
    rcases List.mem_append.mp hc with h1 | hc
    · exact (hl c h1).2
    rcases List.mem_append.mp hc with h1 | hc
    · exact not_isspace_ne_newline (hf.2 c h1).1
    rw [← List.append_assoc] at hc
    rcases List.mem_append.mp hc with h1 | hc
    · exact (hsec c h1).1
    · exact (ht c hc).2

/-- A line of one or two fields that fits the line buffer, whose first field is
a plain numeral or does not start a number and whose second field has at most
63 characters, yields no entry and does not end the load: the result is that of
the file without the line. -/
theorem short_line_skipped (before rest : List Char) (l : ShortLine)
    (hstart : at_line_start before = true) (h : l.plain = true)
    (heof : l.eol = [] → rest = []) :
    scan_file (before ++ (l.text ++ rest)) = scan_file before ++ scan_file rest
      ∧ load_ioa_map (some (before ++ (l.text ++ rest)))
        = load_ioa_map (some (before ++ rest)) := by
  obtain ⟨hp, hn, hk⟩ := parse_short_line l h
  have hlen : l.text.length < LINE_BUF_SIZE := by
    unfold ShortLine.plain at h
    simp only [Bool.and_eq_true, decide_eq_true_eq] at h
    exact h.2
  have heol : l.eol = ['\n'] ∨ (l.eol = [] ∧ rest = []) := by
    rcases hk with k | k
    · exact Or.inl k
    · exact Or.inr ⟨k, heof k⟩
  have e : l.text = (l.lead ++ (l.first ++ (l.sep ++ (l.second ++ l.trail)))) ++ l.eol := by
    simp [ShortLine.text, List.append_assoc]
  have h1 : scan_file (before ++ (l.text ++ rest))
      = scan_file before ++ scan_file rest := by
    rw [scan_file_append before _ hstart]
    congr 1
    rw [e] at hlen hp ⊢
    rw [List.append_assoc, scan_file_line_eol _ l.eol rest hn
      (by rw [List.length_append] at hlen; exact hlen) heol, hp]
    rfl
  refine ⟨h1, ?_⟩
  rw [load_ioa_map_eq, load_ioa_map_eq, h1, scan_file_append before rest hstart]

/-- The five-line file whose third line is `3 C` yields exactly the four
entries of the other lines. -/
theorem short_line_skipped_example :
    load_ioa_map (some file_short)
      = some [⟨1, ['A'], 1⟩, ⟨2, ['B'], 1⟩, ⟨4, ['D'], 1⟩, ⟨5, ['E'], 1⟩] := by
  have h := (short_line_skipped "1 A ON\n2 B ON\n".toList "4 D ON\n5 E ON\n".toList
    line_two_fields (by decide) (by decide) (by decide)).2
  have e1 : "1 A ON\n2 B ON\n".toList ++ (line_two_fields.text ++ "4 D ON\n5 E ON\n".toList)
      = file_short := by decide
  have e2 : load_ioa_map (some ("1 A ON\n2 B ON\n".toList ++ "4 D ON\n5 E ON\n".toList))
      = some [⟨1, ['A'], 1⟩, ⟨2, ['B'], 1⟩, ⟨4, ['D'], 1⟩, ⟨5, ['E'], 1⟩] := by decide!
  rw [e1, e2] at h
  exact h


/-! ## Sequences of additions -/

theorem has_ioa_iff (es : List DiscoveredIOA) (ioa : Nat) :
    has_ioa es ioa = true ↔ ∃ e ∈ es, e.ioa = ioa := by
  induction es with
  | nil => simp [has_ioa]
  | cons e es ih =>
    simp only [has_ioa, List.mem_cons, exists_eq_or_imp]
    by_cases h : e.ioa = ioa
    · simp [h]
    · simp [h, ih]

theorem has_ioa_snoc (es : List DiscoveredIOA) (p : DiscoveredIOA) (ioa : Nat) :
    has_ioa (es ++ [p]) ioa = (has_ioa es ioa || decide (p.ioa = ioa)) := by
  induction es with
  | nil => by_cases h : p.ioa = ioa <;> simp [has_ioa, h]
  | cons e es ih =>
    by_cases h : e.ioa = ioa
    · simp [has_ioa, h]
    · simp only [List.cons_append, has_ioa, h, if_false]
      exact ih

/-- An addition leaves the stored entries alone or appends the point. -/
theorem inventory_add_entries (r : Nat → Bool) (inv : IOAInventory) (p : DiscoveredIOA) :
    (inventory_add r inv p).2.entries = inv.entries
      ∨ ((inventory_add r inv p).2.entries = inv.entries ++ [p]
        ∧ has_ioa inv.entries p.ioa = false) := by
  unfold inventory_add
  by_cases hd : has_ioa inv.entries p.ioa = true
  · left; rw [if_pos hd]
  · rw [if_neg hd]
    have hd2 : has_ioa inv.entries p.ioa = false := by simpa using hd
    split
    · simp only
      split
      · right; exact ⟨rfl, hd2⟩
      · left; rfl
    · right; exact ⟨rfl, hd2⟩

/-- An addition without allocation failure stores every new address. -/
theorem inventory_add_entries_ok (r : Nat → Bool) (hr : ∀ n, r n = true)
    (inv : IOAInventory) (p : DiscoveredIOA) :
    (inventory_add r inv p).2.entries
      = if has_ioa inv.entries p.ioa then inv.entries else inv.entries ++ [p] := by
  unfold inventory_add
  by_cases hd : has_ioa inv.entries p.ioa = true
  · rw [if_pos hd, if_pos hd]
  · rw [if_neg hd, if_neg hd]
    split
    · simp only [hr, if_true]
    · rfl

theorem inventory_add_all_entries (r : Nat → Bool) (hr : ∀ n, r n = true)
    (ps : List DiscoveredIOA) (inv : IOAInventory) :
    (inventory_add_all r inv ps).entries
      = inv.entries
        ++ (first_occurrences ps).filter (fun e => !has_ioa inv.entries e.ioa) := by
  induction ps generalizing inv with
  | nil => simp [inventory_add_all, first_occurrences]
  | cons p ps ih =>
    rw [inventory_add_all, ih, inventory_add_entries_ok r hr, first_occurrences]
    by_cases hd : has_ioa inv.entries p.ioa = true
    · rw [if_pos hd]
      congr 1
      rw [List.filter_cons, hd]
      simp only [Bool.not_true, Bool.false_eq_true, if_false, List.filter_filter]
      apply List.filter_congr
      intro e _
      by_cases he : e.ioa = p.ioa
      · rw [he, hd]; rfl
      · simp [he]
    · have hd2 : has_ioa inv.entries p.ioa = false := by simpa using hd
      rw [if_neg hd, List.filter_cons, hd2]
      simp only [Bool.not_false, if_true, List.filter_filter, List.append_assoc,
        List.singleton_append]
      congr 2
      apply List.filter_congr
      intro e _
      rw [has_ioa_snoc]
      by_cases he : e.ioa = p.ioa
      · have : p.ioa = e.ioa := he.symm
        simp [he]
      · have : ¬ p.ioa = e.ioa := fun h => he h.symm
        simp [he, this]

theorem first_occurrences_mem (ps : List DiscoveredIOA) (x : Nat) :
    x ∈ (first_occurrences ps).map (fun e => e.ioa) ↔ x ∈ ps.map (fun e => e.ioa) := by
  induction ps with
  | nil => simp [first_occurrences]
  | cons p ps ih =>
    simp only [first_occurrences, List.map_cons, List.mem_cons]
    by_cases hx : x = p.ioa
    · simp [hx]
    · simp only [hx, false_or]
      rw [← ih]
      simp only [List.mem_map, List.mem_filter, bne_iff_ne, ne_eq]
      constructor
      · rintro ⟨e, ⟨he, _⟩, rfl⟩
        exact ⟨e, he, rfl⟩
      · rintro ⟨e, he, rfl⟩
        exact ⟨e, ⟨he, hx⟩, rfl⟩

theorem first_occurrences_nodup (ps : List DiscoveredIOA) :
    ((first_occurrences ps).map (fun e => e.ioa)).Nodup := by
  induction ps with
  | nil => simp [first_occurrences]
  | cons p ps ih =>
    simp only [first_occurrences, List.map_cons, List.nodup_cons]
    constructor
    · simp only [List.mem_map, List.mem_filter, bne_iff_ne, ne_eq, not_exists, not_and,
        and_imp]
      intro e _ hne heq
      exact hne heq
    · exact ih.sublist (List.Sublist.map _ (List.filter_sublist _))

theorem first_occurrences_sublist (ps : List DiscoveredIOA) :
    (first_occurrences ps).Sublist ps := by
  induction ps with
  | nil => exact List.Sublist.slnil
  | cons p ps ih =>
    rw [first_occurrences]
    exact List.Sublist.cons₂ p ((List.filter_sublist _).trans ih)

theorem first_occurrences_length (ps : List DiscoveredIOA) :
    (first_occurrences ps).length = (ps.map (fun e => e.ioa)).toFinset.card := by
  have h1 : ((first_occurrences ps).map (fun e => e.ioa)).toFinset
      = (ps.map (fun e => e.ioa)).toFinset := by
    ext x
    simp only [List.mem_toFinset]
    exact first_occurrences_mem ps x
  rw [← h1, List.toFinset_card_of_nodup (first_occurrences_nodup ps), List.length_map]

theorem first_occurrences_iff (ps : List DiscoveredIOA) (e : DiscoveredIOA) :
    e ∈ first_occurrences ps
      ↔ ∃ l1 l2, ps = l1 ++ e :: l2 ∧ ∀ x ∈ l1, x.ioa ≠ e.ioa := by
  induction ps with
  | nil => simp [first_occurrences]
  | cons p ps ih =>
    simp only [first_occurrences, List.mem_cons, List.mem_filter, bne_iff_ne, ne_eq]
    constructor
    · rintro (rfl | ⟨he, hne⟩)
      · exact ⟨[], ps, rfl, by simp⟩
      · obtain ⟨l1, l2, h1, h2⟩ := ih.mp he
        refine ⟨p :: l1, l2, by rw [h1]; rfl, ?_⟩
        intro x hx
        rcases List.mem_cons.mp hx with rfl | hx
        · exact fun h => hne h.symm
        · exact h2 x hx
    · rintro ⟨l1, l2, h1, h2⟩
      cases l1 with
      | nil =>
        left
        simp only [List.nil_append, List.cons.injEq] at h1
        exact h1.1.symm
      | cons a l1 =>
        right
        simp only [List.cons_append, List.cons.injEq] at h1
        obtain ⟨rfl, h1⟩ := h1
        refine ⟨ih.mpr ⟨l1, l2, h1, fun x hx => h2 x (List.mem_cons_of_mem _ hx)⟩, ?_⟩
        exact fun h => h2 p (List.mem_cons_self _ _) h.symm

/-! ## Growth of the inventory -/

theorem inventory_add_growth (r : Nat → Bool) (inv : IOAInventory) (p : DiscoveredIOA)
    (h : growth_invariant inv) : growth_invariant (inventory_add r inv p).2 := by
  obtain ⟨⟨k, hk⟩, hle, hhalf⟩ := h
  unfold inventory_add
  split
  · exact ⟨⟨k, hk⟩, hle, hhalf⟩
  · split
    · rename_i hfull
      simp only
      split
      · refine ⟨⟨k + 1, ?_⟩, ?_, ?_⟩
        · simp only [hk, pow_succ]
          omega
        · simp only [IOAInventory.count, List.length_append, List.length_singleton] at hle hfull ⊢
          have hpos : 0 < 2 ^ k := Nat.two_pow_pos k
          generalize 2 ^ k = x at hk hpos
          clear hhalf
          omega
        · right
          simp only [IOAInventory.count, List.length_append, List.length_singleton] at hle hfull ⊢
          clear hk hhalf hle
          omega
      · exact ⟨⟨k, hk⟩, hle, hhalf⟩
    · rename_i hroom
      refine ⟨⟨k, hk⟩, ?_, ?_⟩
      · simp only [IOAInventory.count, List.length_append, List.length_singleton] at hroom ⊢
        omega
      · rcases hhalf with h32 | hlt
        · left; exact h32
        · right
          simp only [IOAInventory.count, List.length_append, List.length_singleton] at hlt ⊢
          omega

theorem inventory_add_all_growth (r : Nat → Bool) (ps : List DiscoveredIOA)
    (inv : IOAInventory) (h : growth_invariant inv) :
    growth_invariant (inventory_add_all r inv ps) := by
  induction ps generalizing inv with
  | nil => exact h
  | cons p ps ih => exact ih _ (inventory_add_growth r inv p h)


/-! ## The lines written for the entries -/

theorem is_field_of {t : List Char} (hne : t ≠ [])
    (h : ∀ c ∈ t, isspace c = false ∧ c ≠ NUL) : is_field t = true := by
  unfold is_field
  rw [Bool.and_eq_true]
  refine ⟨by simpa using hne, ?_⟩
  rw [List.all_eq_true]
  intro c hc
  simpa using h c hc

theorem is_numeral_of {t : List Char} (hne : t ≠ [])
    (h : ∀ c ∈ t, isdigit c = true) : is_numeral t = true := by
  unfold is_numeral
  rw [Bool.and_eq_true]
  refine ⟨by simpa using hne, ?_⟩
  rw [List.all_eq_true]
  exact h

theorem is_blank_spaces {s : List Char} (h : ∀ c ∈ s, c = ' ') : is_blank s = true := by
  unfold is_blank
  rw [List.all_eq_true]
  intro c hc
  rw [h c hc]
  decide

theorem config_lines_eq (es : List DiscoveredIOA) :
    config_lines es = (es.map config_line).flatten := by
  induction es with
  | nil => rfl
  | cons e es ih => simp [config_lines, ih]

theorem fmt_u_numeral (n : Nat) : is_numeral (fmt_u n) = true :=
  is_numeral_of (fmt_u_spec n).1 (fmt_u_spec n).2.1

theorem fmt_u_field (n : Nat) : is_field (fmt_u n) = true :=
  is_field_of (fmt_u_spec n).1
    (fun c hc => ⟨isdigit_not_isspace ((fmt_u_spec n).2.1 c hc),
      isdigit_ne_NUL ((fmt_u_spec n).2.1 c hc)⟩)

theorem config_name_is_field (e : DiscoveredIOA) : is_field (config_name e) = true := by
  obtain ⟨hne, hdig, _, _⟩ := fmt_u_spec e.ioa
  apply is_field_of
  · unfold config_name
    intro h
    have := congrArg List.length h
    simp only [List.length_append, List.length_nil] at this
    have h7 : (name_pfx e.category).length = 2 := by cases e.category <;> rfl
    omega
  · intro c hc
    unfold config_name at hc
    rcases List.mem_append.mp hc with h | h
    · exact name_pfx_field e.category c h
    · exact ⟨isdigit_not_isspace (hdig c h), isdigit_ne_NUL (hdig c h)⟩

/-- The layout of a written data line. -/
theorem config_line_layout (e : DiscoveredIOA) :
    ∃ l : DataLine, l.text = config_line e ∧ l.three_fields = true
      ∧ l.lead = [] ∧ l.ioa_field = fmt_u e.ioa ∧ l.name_field = config_name e
      ∧ l.state_field = state_str e ∧ l.trail = [] ∧ l.eol = ['\n'] := by
  refine ⟨⟨[], fmt_u e.ioa, List.replicate (6 - (fmt_u e.ioa).length) ' ' ++ [' '],
    config_name e, [' ', ' '], state_str e, [], ['\n']⟩, ?_, ?_, rfl, rfl, rfl, rfl, rfl, rfl⟩
  · simp [DataLine.text, config_line, fmt_u_left6, List.append_assoc]
  · have hpad : is_blank (List.replicate (6 - (fmt_u e.ioa).length) ' ' ++ [' ']) = true := by
      apply is_blank_spaces
      intro c hc
      rcases List.mem_append.mp hc with h | h
      · exact (List.mem_replicate.mp h).2
      · exact List.mem_singleton.mp h
    have hst : is_field (state_str e) = true :=
      is_field_of (state_str_field e).1 (state_str_field e).2.2
    have h2 : is_blank [' ', ' '] = true := by decide
    have h0 : is_blank [] = true := by decide
    simp only [DataLine.three_fields, h0, fmt_u_field, hpad, config_name_is_field, h2, hst,
      Bool.and_true, Bool.true_and, List.isEmpty_cons, Bool.not_false, beq_self_eq_true,
      Bool.true_or, Bool.not_eq_true', List.isEmpty_eq_false, ne_eq, List.append_eq_nil,
      List.cons_ne_nil, and_false, not_false_eq_true]

/-! ## The attack loop -/

namespace Multi

/-- The command built for a target. -/
theorem attack_loop_spec (create_ok send_ok : Nat → Bool) (targets : List IOATarget)
    (i : Nat) (d : Dispatch) :
    (attack_loop create_ok send_ok targets i d).attempted
        = d.attempted ++ targets.map
            (fun t => (⟨t.ioa, t.target_state != 0, false, 0⟩ : SingleCommand))
      ∧ (attack_loop create_ok send_ok targets i d).send_count
        = d.send_count + (List.range' i targets.length).countP
            (fun j => create_ok j && send_ok j)
      ∧ (attack_loop create_ok send_ok targets i d).send_fail
        = d.send_fail + (List.range' i targets.length).countP
            (fun j => !(create_ok j && send_ok j)) := by
  induction targets generalizing i d with
  | nil => simp [attack_loop]
  | cons t ts ih =>
    simp only [attack_loop, List.length_cons, List.range'_succ, List.countP_cons,
      List.map_cons]
    cases hc : create_ok i with
    | false =>
      simp only [Bool.not_false, if_true, Bool.false_and, Bool.false_eq_true, if_false]
      refine ⟨?_, ?_, ?_⟩
      · rw [(ih _ _).1]; simp
      · rw [(ih _ _).2.1]; rfl
      · rw [(ih _ _).2.2]; simp only; omega
    | true =>
      cases hs : send_ok i with
      | false =>
        simp only [Bool.not_true, Bool.false_eq_true, if_false, Bool.and_false,
          Bool.not_false, if_true]
        refine ⟨?_, ?_, ?_⟩
        · rw [(ih _ _).1]; simp
        · rw [(ih _ _).2.1]; rfl
        · rw [(ih _ _).2.2]; simp only; omega
      | true =>
        simp only [Bool.not_true, Bool.false_eq_true, if_false, Bool.and_true, if_true]
        refine ⟨?_, ?_, ?_⟩
        · rw [(ih _ _).1]; simp
        · rw [(ih _ _).2.1]; simp only; omega
        · rw [(ih _ _).2.2]; rfl

end Multi

/-! ## The recon handler -/

namespace Recon

/-- The loop over the elements only appends entries built from elements. -/
theorem process_elements_entries (build : InformationObject → DiscoveredIOA)
    (r : Nat → Bool) (elements : List (Option InformationObject)) (inv : IOAInventory) :
    ∃ added, (process_elements build r elements inv).entries = inv.entries ++ added
      ∧ ∀ e ∈ added, ∃ io, some io ∈ elements ∧ e = build io := by
  induction elements generalizing inv with
  | nil => exact ⟨[], by simp [process_elements], by simp⟩
  | cons o rest ih =>
    cases o with
    | none =>
      obtain ⟨added, h1, h2⟩ := ih inv
      refine ⟨added, by rw [process_elements]; exact h1, ?_⟩
      intro e he
      obtain ⟨io, hio, rfl⟩ := h2 e he
      exact ⟨io, List.mem_cons_of_mem _ hio, rfl⟩
    | some io =>
      obtain ⟨added, h1, h2⟩ := ih (inventory_add r inv (build io)).2
      rw [process_elements, h1]
      rcases inventory_add_entries r inv (build io) with h | ⟨h, _⟩
      · refine ⟨added, by rw [h], ?_⟩
        intro e he
        obtain ⟨io2, hio, rfl⟩ := h2 e he
        exact ⟨io2, List.mem_cons_of_mem _ hio, rfl⟩
      · refine ⟨build io :: added, by rw [h]; simp, ?_⟩
        intro e he
        rcases List.mem_cons.mp he with rfl | he
        · exact ⟨io, List.mem_cons_self _ _, rfl⟩
        · obtain ⟨io2, hio, rfl⟩ := h2 e he
          exact ⟨io2, List.mem_cons_of_mem _ hio, rfl⟩

theorem builder_entries (build : Nat → InformationObject → DiscoveredIOA)
    (cat : IOACategory) (dig : Bool)
    (hb : ∀ tid io, (build tid io).ioa = entry_ioa io
      ∧ (build tid io).type_id = entry_type_id tid ∧ (build tid io).category = cat
      ∧ (build tid io).is_digital = dig)
    (r : Nat → Bool) (asdu : ASDU) (inv : IOAInventory)
    (hc : classify asdu.tid = cat)
    (hd : dig = decide (cat = IOACategory.IOA_CAT_SINGLE_POINT
      ∨ cat = IOACategory.IOA_CAT_DOUBLE_POINT)) :
    ∃ added, (process_elements (build asdu.tid) r asdu.elements inv).entries
        = inv.entries ++ added
      ∧ ∀ e ∈ added, ∃ io, some io ∈ asdu.elements ∧ e.ioa = entry_ioa io
        ∧ e.type_id = entry_type_id asdu.tid ∧ e.category = classify asdu.tid
        ∧ e.is_digital = decide (classify asdu.tid = IOACategory.IOA_CAT_SINGLE_POINT
            ∨ classify asdu.tid = IOACategory.IOA_CAT_DOUBLE_POINT) := by
  obtain ⟨added, h1, h2⟩ := process_elements_entries (build asdu.tid) r asdu.elements inv
  refine ⟨added, h1, ?_⟩
  intro e he
  obtain ⟨io, hio, rfl⟩ := h2 e he
  obtain ⟨k1, k2, k3, k4⟩ := hb asdu.tid io
  exact ⟨io, hio, k1, k2, by rw [k3, hc], by rw [k4, hc, hd]⟩

/-- What the `switch` over the type identifier records. -/
theorem dispatch_by_type_entries (r : Nat → Bool) (asdu : ASDU) (inv : IOAInventory) :
    ∃ added, (dispatch_by_type r asdu inv).entries = inv.entries ++ added
      ∧ ∀ e ∈ added, ∃ io, some io ∈ asdu.elements ∧ e.ioa = entry_ioa io
        ∧ e.type_id = entry_type_id asdu.tid ∧ e.category = classify asdu.tid
        ∧ e.is_digital = decide (classify asdu.tid = IOACategory.IOA_CAT_SINGLE_POINT
            ∨ classify asdu.tid = IOACategory.IOA_CAT_DOUBLE_POINT) := by
  unfold dispatch_by_type
  split
  · rename_i heq
    exact builder_entries single_point_entry _ _ (fun _ _ => ⟨rfl, rfl, rfl, rfl⟩) r asdu inv
      (by rw [heq]; rfl) (by decide)
  · rename_i heq
    exact builder_entries single_point_entry _ _ (fun _ _ => ⟨rfl, rfl, rfl, rfl⟩) r asdu inv
      (by rw [heq]; rfl) (by decide)
  · rename_i heq
    exact builder_entries double_point_entry _ _ (fun _ _ => ⟨rfl, rfl, rfl, rfl⟩) r asdu inv
      (by rw [heq]; rfl) (by decide)
  · rename_i heq
    exact builder_entries double_point_entry _ _ (fun _ _ => ⟨rfl, rfl, rfl, rfl⟩) r asdu inv
      (by rw [heq]; rfl) (by decide)
  · rename_i heq
    exact builder_entries bitstring_entry _ _ (fun _ _ => ⟨rfl, rfl, rfl, rfl⟩) r asdu inv
      (by rw [heq]; rfl) (by decide)
  · rename_i heq
    exact builder_entries bitstring_entry _ _ (fun _ _ => ⟨rfl, rfl, rfl, rfl⟩) r asdu inv
      (by rw [heq]; rfl) (by decide)
  · rename_i heq
    exact builder_entries measured_normalized_entry _ _ (fun _ _ => ⟨rfl, rfl, rfl, rfl⟩)
      r asdu inv (by rw [heq]; rfl) (by decide)
  · rename_i heq
    exact builder_entries measured_normalized_entry _ _ (fun _ _ => ⟨rfl, rfl, rfl, rfl⟩)
      r asdu inv (by rw [heq]; rfl) (by decide)
  · rename_i heq
    exact builder_entries measured_scaled_entry _ _ (fun _ _ => ⟨rfl, rfl, rfl, rfl⟩)
      r asdu inv (by rw [heq]; rfl) (by decide)
  · rename_i heq
    exact builder_entries measured_scaled_entry _ _ (fun _ _ => ⟨rfl, rfl, rfl, rfl⟩)
      r asdu inv (by rw [heq]; rfl) (by decide)
  · rename_i heq
    exact builder_entries measured_short_entry _ _ (fun _ _ => ⟨rfl, rfl, rfl, rfl⟩)
      r asdu inv (by rw [heq]; rfl) (by decide)
  · rename_i heq
    exact builder_entries measured_short_entry _ _ (fun _ _ => ⟨rfl, rfl, rfl, rfl⟩)
      r asdu inv (by rw [heq]; rfl) (by decide)
  · have hc : classify asdu.tid = IOACategory.IOA_CAT_OTHER := by
      unfold classify
      split <;> first | rfl | simp_all
    exact builder_entries generic_entry _ _ (fun _ _ => ⟨rfl, rfl, rfl, rfl⟩) r asdu inv
      hc (by decide)

end Recon

/-! ## The address range of loaded entries -/

theorem parse_line_ioa_le (line : List Char) (e : IOATarget)
    (h : parse_line line = some e) : e.ioa ≤ IOA_MAX := by
  unfold parse_line at h
  split at h
  · cases h
  · simp only at h
    split at h
    · cases h
    · split at h
      · cases h
      · rename_i hle
        injection h with h
        rw [← h]
        simp only
        exact Nat.le_trans (Nat.mod_le _ _) (Nat.le_of_not_gt hle)

/-- Every entry of a scan has an address of at most 16777215. -/
theorem scan_file_ioa_le (fp : List Char) : ∀ e ∈ scan_file fp, e.ioa ≤ IOA_MAX := by
  generalize hk : fp.length = k
  induction k using Nat.strong_induction_on generalizing fp with
  | _ k ih =>
    cases fp with
    | nil => simp [scan_file_nil]
    | cons c t =>
      intro e he
      rw [scan_file_step] at he
      rcases List.mem_append.mp he with h | h
      · cases hp : parse_line (cstr (fgets (LINE_BUF_SIZE - 1) (c :: t)).1) with
        | none => rw [hp] at h; cases h
        | some e2 =>
          rw [hp] at h
          have : e = e2 := by simpa using h
          rw [this]
          exact parse_line_ioa_le _ _ hp
      · have hr := fgets_rest_length (LINE_BUF_SIZE - 2) c t
        have hL : LINE_BUF_SIZE - 2 + 1 = LINE_BUF_SIZE - 1 := by decide
        rw [hL] at hr
        simp only [List.length_cons] at hk
        exact ih _ (by omega) _ rfl e h

/-! ## Lines with further fields and lines that do not start with a number -/

/-- The loop body on a line of three fields whose first field is any numeral
and whose name has at most 63 characters: the address is the value of the
numeral as `strtoul` converts it, cut to 32 bits, and the line is dropped when
that address exceeds 16777215. -/
theorem parse_numeral_line (l : DataLine) (h3 : l.three_fields = true)
    (hnum : is_numeral l.ioa_field = true) (hname : l.name_field.length ≤ 63) :
    parse_line (cstr l.text)
      = if strtoul false l.ioa_field % 2 ^ 32 > IOA_MAX then none
        else some ⟨strtoul false l.ioa_field % 2 ^ 32, l.name_field,
          parse_state l.state_field⟩ := by
  obtain ⟨a, _, c, d, e, f, g, i, _, _⟩ := DataLine.three_fields_spec h3
  rw [cstr_eq _ (DataLine.no_NUL h3)]
  unfold DataLine.text parse_line
  rw [is_skip_line_numeral l.lead l.ioa_field _ (fun x hx => (is_blank_spec a x hx).1)
      (is_numeral_spec hnum).1 (is_numeral_spec hnum).2,
    sscanf_three_fields l.lead l.ioa_field l.sep1 l.name_field l.sep2 l.state_field
      (l.trail ++ l.eol) (fun x hx => (is_blank_spec a x hx).1) (is_numeral_spec hnum).1
      (is_numeral_spec hnum).2 c (fun x hx => (is_blank_spec d x hx).1)
      (is_field_spec e).1 (fun x hx => ((is_field_spec e).2 x hx).1) f
      (fun x hx => (is_blank_spec g x hx).1) (is_field_spec i).1
      (fun x hx => ((is_field_spec i).2 x hx).1) (DataLine.tail_head h3)]
  simp only [Bool.false_eq_true, if_false, lt_self_iff_false, if_pos hname]
  split
  · rfl
  · have hlt : strtoul false l.ioa_field % 2 ^ 32 < 2 ^ 32 := Nat.mod_lt _ (by decide)
    rw [Nat.mod_eq_of_lt hlt, parse_state_take]
    simp [strncpy, IOA_NAME_MAX, List.take_of_length_le hname]

/-- Numerals above 16777215 on a line of three fields: values below `2 ^ 32` and
values of `2 ^ 64` or more yield no entry; a value `v` in between yields an entry
exactly when `v % 2 ^ 32` is at most 16777215, and that remainder is the address
of the entry. -/
theorem numeral_beyond_range (l : DataLine) (h3 : l.three_fields = true)
    (hnum : is_numeral l.ioa_field = true) (hname : l.name_field.length ≤ 63)
    (hv : IOA_MAX < digits_val 0 l.ioa_field) :
    (digits_val 0 l.ioa_field < 2 ^ 32 → parse_line (cstr l.text) = none)
      ∧ (2 ^ 64 ≤ digits_val 0 l.ioa_field → parse_line (cstr l.text) = none)
      ∧ (2 ^ 32 ≤ digits_val 0 l.ioa_field → digits_val 0 l.ioa_field < 2 ^ 64 →
          parse_line (cstr l.text)
            = if digits_val 0 l.ioa_field % 2 ^ 32 > IOA_MAX then none
              else some ⟨digits_val 0 l.ioa_field % 2 ^ 32, l.name_field,
                parse_state l.state_field⟩) := by
  have hp := parse_numeral_line l h3 hnum hname
  refine ⟨?_, ?_, ?_⟩
  · intro h
    have : strtoul false l.ioa_field = digits_val 0 l.ioa_field := by
      unfold strtoul ULONG_MAX
      rw [if_neg (by omega)]
      rfl
    rw [hp, this, Nat.mod_eq_of_lt h, if_pos hv]
  · intro h
    have : strtoul false l.ioa_field = ULONG_MAX := by
      unfold strtoul ULONG_MAX
      rw [if_pos (by omega)]
    rw [hp, this, if_pos (by decide)]
  · intro h1 h2
    have : strtoul false l.ioa_field = digits_val 0 l.ioa_field := by
      unfold strtoul ULONG_MAX
      rw [if_neg (by omega)]
      rfl
    rw [hp, this]

/-! ## The single-shot tool -/

/-- The exit code of the single-shot tool after one received ASDU: `0` for a
positive activation confirmation of the single command, `2` for an
unknown-address or unknown-cause response, and `3` in every other case; with
nothing received it is `3`. -/
theorem poc_single_response (a : Multi.ASDU) :
    Poc.run [] = 3
      ∧ Poc.run [a]
        = (if Multi.is_positive_con a then 0
          else if Multi.is_unknown_response a then 2
          else 3) := by
  refine ⟨rfl, ?_⟩
  unfold Poc.run Poc.exit_code Multi.is_positive_con Multi.is_unknown_response
  simp only [List.foldl_cons, List.foldl_nil, Poc.asduReceivedHandler]
  by_cases h1 : a.tid = Multi.C_SC_NA_1
  · by_cases h2 : a.cot = Multi.CS101_COT_ACTIVATION_CON
    · by_cases h3 : a.negative = true
      · simp [h1, h2, h3, Multi.CS101_COT_ACTIVATION_CON, Multi.CS101_COT_UNKNOWN_IOA,
          Multi.CS101_COT_UNKNOWN_COT]
      · have h4 : a.negative = false := by simpa using h3
        simp [h1, h2, h4, Multi.CS101_COT_ACTIVATION_CON, Multi.CS101_COT_UNKNOWN_IOA,
          Multi.CS101_COT_UNKNOWN_COT]
    · by_cases h3 : a.cot = Multi.CS101_COT_ACTIVATION_TERMINATION
      · simp [h1, h3, Multi.CS101_COT_ACTIVATION_TERMINATION,
          Multi.CS101_COT_ACTIVATION_CON, Multi.CS101_COT_UNKNOWN_IOA,
          Multi.CS101_COT_UNKNOWN_COT]
      · by_cases h4 : a.cot = Multi.CS101_COT_UNKNOWN_IOA
        · simp [h1, h4, Multi.CS101_COT_ACTIVATION_TERMINATION,
            Multi.CS101_COT_ACTIVATION_CON, Multi.CS101_COT_UNKNOWN_IOA,
            Multi.CS101_COT_UNKNOWN_COT]
        · by_cases h5 : a.cot = Multi.CS101_COT_UNKNOWN_COT
          · simp [h1, h5, Multi.CS101_COT_ACTIVATION_TERMINATION,
              Multi.CS101_COT_ACTIVATION_CON, Multi.CS101_COT_UNKNOWN_IOA,
              Multi.CS101_COT_UNKNOWN_COT]
          · simp [h1, h2, h3, h4, h5]
  · simp [h1]

/-! ## The counters after any sequence of responses -/

namespace Multi

/-- One call of the handler, counter by counter. -/
theorem handler_step (g : Counters) (a : ASDU) :
    asduReceivedHandler g a
      = ⟨g.g_confirm_count + (if is_positive_con a then 1 else 0),
          g.g_reject_count
            + (if is_negative_con a || is_unknown_response a then 1 else 0)⟩ := by
  unfold asduReceivedHandler is_positive_con is_negative_con is_unknown_response
  by_cases h1 : a.tid = C_SC_NA_1
  · by_cases h2 : a.cot = CS101_COT_ACTIVATION_CON
    · cases h5 : a.negative <;>
        simp [h1, h2, h5, CS101_COT_ACTIVATION_CON, CS101_COT_UNKNOWN_IOA,
          CS101_COT_UNKNOWN_COT]
    · by_cases h3 : a.cot = CS101_COT_ACTIVATION_TERMINATION
      · simp [h1, h3, CS101_COT_ACTIVATION_TERMINATION, CS101_COT_ACTIVATION_CON,
          CS101_COT_UNKNOWN_IOA, CS101_COT_UNKNOWN_COT]
      · by_cases h4 : a.cot = CS101_COT_UNKNOWN_IOA
        · simp [h1, h4, CS101_COT_ACTIVATION_TERMINATION, CS101_COT_ACTIVATION_CON,
            CS101_COT_UNKNOWN_IOA, CS101_COT_UNKNOWN_COT]
        · by_cases h5 : a.cot = CS101_COT_UNKNOWN_COT
          · simp [h1, h5, CS101_COT_ACTIVATION_TERMINATION, CS101_COT_ACTIVATION_CON,
              CS101_COT_UNKNOWN_IOA, CS101_COT_UNKNOWN_COT]
          · simp [h1, h2, h3, h4, h5]
  · simp [h1]

/-- The counters after the handler has seen a list of ASDUs. -/
theorem handler_fold_all (received : List ASDU) (g : Counters) :
    received.foldl asduReceivedHandler g
      = ⟨g.g_confirm_count + received.countP is_positive_con,
          g.g_reject_count
            + received.countP (fun a => is_negative_con a || is_unknown_response a)⟩ := by
  induction received generalizing g with
  | nil => simp
  | cons a as ih =>
    rw [List.foldl_cons, ih, handler_step, List.countP_cons, List.countP_cons]
    simp only [Counters.mk.injEq]
    constructor <;> omega

/-- A response that counts as rejected is not a positive confirmation. -/
theorem rejected_not_positive (a : ASDU)
    (h : (is_negative_con a || is_unknown_response a) = true) :
    is_positive_con a = false := by
  unfold is_positive_con
  unfold is_negative_con is_unknown_response at h
  by_cases h1 : a.tid = C_SC_NA_1
  · by_cases h2 : a.cot = CS101_COT_ACTIVATION_CON
    · cases h5 : a.negative
      · simp [h1, h2, h5, CS101_COT_ACTIVATION_CON, CS101_COT_UNKNOWN_IOA,
          CS101_COT_UNKNOWN_COT] at h
      · simp
    · simp [h2]
  · simp [h1]

end Multi

/-- Leaving the positive confirmations out changes no rejected count and leaves
no confirmation. -/
theorem without_confirmations_counts (received : List Multi.ASDU) :
    (without_confirmations received).countP Multi.is_positive_con = 0
      ∧ (without_confirmations received).countP
          (fun a => Multi.is_negative_con a || Multi.is_unknown_response a)
        = received.countP
          (fun a => Multi.is_negative_con a || Multi.is_unknown_response a) := by
  unfold without_confirmations
  constructor
  · rw [List.countP_eq_zero]
    intro a ha
    have := (List.mem_filter.mp ha).2
    simpa using this
  · rw [List.countP_filter]
    apply List.countP_congr
    intro a _
    constructor
    · intro h
      simp only [Bool.and_eq_true] at h
      exact h.1
    · intro h
      have hp := Multi.rejected_not_positive a h
      simp only [Bool.and_eq_true]
      exact ⟨h, by simp [hp]⟩

/-- The summary of a run in terms of the loop and the received responses. -/
theorem Multi.run_eq (targets : List IOATarget) (create_ok send_ok : Nat → Bool)
    (received : List Multi.ASDU) :
    Multi.run targets create_ok send_ok received
      = ⟨(Multi.attack_loop create_ok send_ok targets 0 ⟨0, 0, []⟩).send_count,
          (Multi.attack_loop create_ok send_ok targets 0 ⟨0, 0, []⟩).send_fail,
          received.countP Multi.is_positive_con,
          received.countP
            (fun a => Multi.is_negative_con a || Multi.is_unknown_response a),
          Multi.exit_code
            (Multi.attack_loop create_ok send_ok targets 0 ⟨0, 0, []⟩).send_count
            (Multi.attack_loop create_ok send_ok targets 0 ⟨0, 0, []⟩).send_fail
            (received.countP
              (fun a => Multi.is_negative_con a || Multi.is_unknown_response a))⟩ := by
  unfold Multi.run
  simp only [Multi.handler_fold_all, Nat.zero_add]

/-! ## The boundary of the address range on lines that fit one read -/

/-- In any file, a well-formed data line (three fields, numeral first, name of at
most 63 characters) that fits the 255 characters of one read and whose IOA field
has the value 16777215 yields an entry with `ioa = 16777215`, placed between the
entries of the lines before and after it; with the value 16777216 the line
yields no entry and the result is that of the file without the line. -/
theorem ioa_boundary_within_read (before rest : List Char) (l : DataLine)
    (hstart : at_line_start before = true) (hwf : l.well_formed = true)
    (hfit : l.fits_read = true)
    (heof : l.eol = [] → rest = []) :
    (digits_val 0 l.ioa_field = 16777215 →
        load_ioa_map (some (before ++ (l.text ++ rest)))
          = some (scan_file before
              ++ (⟨16777215, l.name_field, parse_state l.state_field⟩ :: scan_file rest)))
      ∧ (digits_val 0 l.ioa_field = 16777216 →
        scan_file (before ++ (l.text ++ rest)) = scan_file before ++ scan_file rest
          ∧ load_ioa_map (some (before ++ (l.text ++ rest)))
            = load_ioa_map (some (before ++ rest))) := by
  unfold DataLine.well_formed at hwf
  simp only [Bool.and_eq_true, decide_eq_true_eq] at hwf
  obtain ⟨⟨h3, hnum⟩, hname⟩ := hwf
  have hlen : l.text.length < LINE_BUF_SIZE := by
    unfold DataLine.fits_read at hfit
    simpa using hfit
  have hscan := scan_data_line before rest l hstart h3 hlen heof
  constructor
  · intro hv
    have hp := parse_data_line l h3 hnum (by rw [hv]; decide) hname
    rw [hv, if_neg (by decide)] at hp
    rw [load_ioa_map_eq, hscan, hp]
    simp
  · intro hv
    have hp := parse_data_line l h3 hnum (by rw [hv]; decide) hname
    rw [hv, if_pos (by decide)] at hp
    rw [hp] at hscan
    simp only [Option.toList, List.nil_append] at hscan
    refine ⟨hscan, ?_⟩
    rw [load_ioa_map_eq, load_ioa_map_eq, hscan, scan_file_append before rest hstart]

/-- The line `16777215 BRK_MAX ON` and the line `16777216 BRK_OVER ON` between
two other lines. -/
theorem ioa_boundary_within_read_example :
    load_ioa_map (some (lines_before ++ (line_max.text ++ lines_after)))
        = some [⟨1, ['A'], 1⟩, ⟨16777215, "BRK_MAX".toList, 1⟩, ⟨2, ['B'], 0⟩]
      ∧ load_ioa_map (some (lines_before ++ (line_over.text ++ lines_after)))
        = some [⟨1, ['A'], 1⟩, ⟨2, ['B'], 0⟩] := by
  have h1 := (ioa_boundary_within_read lines_before lines_after line_max (by decide)
    (by decide) (by decide) (by decide)).1 (by decide)
  have h2 := ((ioa_boundary_within_read lines_before lines_after line_over (by decide)
    (by decide) (by decide) (by decide)).2 (by decide)).2
  have e1 : scan_file lines_before = [⟨1, ['A'], 1⟩] := by decide!
  have e2 : scan_file lines_after = [⟨2, ['B'], 0⟩] := by decide!
  have e3 : load_ioa_map (some (lines_before ++ lines_after))
      = some [⟨1, ['A'], 1⟩, ⟨2, ['B'], 0⟩] := by decide!
  have e4 : parse_state line_max.state_field = 1 := by decide
  rw [e1, e2, e4] at h1
  rw [e3] at h2
  exact ⟨h1, h2⟩


/-! ## What the handler records for an element -/

namespace Recon

/-- The loop of a `process_...` function is a sequence of `inventory_add` calls,
one for every element that is not `NULL`. -/
theorem process_elements_eq (build : InformationObject → DiscoveredIOA)
    (r : Nat → Bool) (elements : List (Option InformationObject)) (inv : IOAInventory) :
    process_elements build r elements inv
      = inventory_add_all r inv ((elements.filterMap id).map build) := by
  induction elements generalizing inv with
  | nil => rfl
  | cons o rest ih =>
    cases o with
    | none =>
      rw [process_elements, ih]
      rfl
    | some io =>
      rw [process_elements, ih]
      rfl

/-- Without allocation failure, the entry built for an element is stored when
its address is neither in the inventory nor carried by an earlier element. -/
theorem process_elements_records (build : InformationObject → DiscoveredIOA)
    (hb : ∀ io, (build io).ioa = entry_ioa io)
    (r : Nat → Bool) (hr : ∀ n, r n = true) (inv : IOAInventory)
    (l1 : List (Option InformationObject)) (io : InformationObject)
    (l2 : List (Option InformationObject))
    (hnew : has_ioa inv.entries (entry_ioa io) = false)
    (hfirst : ∀ y, some y ∈ l1 → entry_ioa y ≠ entry_ioa io) :
    build io ∈ (process_elements build r (l1 ++ some io :: l2) inv).entries := by
  rw [process_elements_eq, inventory_add_all_entries r hr]
  apply List.mem_append_right
  rw [List.mem_filter]
  constructor
  · rw [first_occurrences_iff]
    refine ⟨(l1.filterMap id).map build, (l2.filterMap id).map build, ?_, ?_⟩
    · simp [List.filterMap_append]
    · intro x hx
      obtain ⟨y, hy, rfl⟩ := List.mem_map.mp hx
      rw [hb, hb]
      apply hfirst
      obtain ⟨o, ho, hoy⟩ := List.mem_filterMap.mp hy
      simp only [id_eq] at hoy
      rw [← hoy]
      exact ho
  · rw [hb, hnew]
    rfl

/-- What a `process_...` function records for an element with a new address. -/
theorem builder_records (build : Nat → InformationObject → DiscoveredIOA)
    (cat : IOACategory) (dig : Bool)
    (hb : ∀ tid io, (build tid io).ioa = entry_ioa io
      ∧ (build tid io).type_id = entry_type_id tid ∧ (build tid io).category = cat
      ∧ (build tid io).is_digital = dig)
    (r : Nat → Bool) (hr : ∀ n, r n = true) (asdu : ASDU) (inv : IOAInventory)
    (hc : classify asdu.tid = cat)
    (hd : dig = decide (cat = IOACategory.IOA_CAT_SINGLE_POINT
      ∨ cat = IOACategory.IOA_CAT_DOUBLE_POINT))
    (l1 : List (Option InformationObject)) (io : InformationObject)
    (l2 : List (Option InformationObject))
    (hel : asdu.elements = l1 ++ some io :: l2)
    (hnew : has_ioa inv.entries (entry_ioa io) = false)
    (hfirst : ∀ y, some y ∈ l1 → entry_ioa y ≠ entry_ioa io) :
    ∃ e ∈ (process_elements (build asdu.tid) r asdu.elements inv).entries,
      e.ioa = entry_ioa io ∧ e.type_id = entry_type_id asdu.tid
        ∧ e.category = classify asdu.tid
        ∧ e.is_digital = decide (classify asdu.tid = IOACategory.IOA_CAT_SINGLE_POINT
            ∨ classify asdu.tid = IOACategory.IOA_CAT_DOUBLE_POINT) := by
  obtain ⟨k1, k2, k3, k4⟩ := hb asdu.tid io
  refine ⟨build asdu.tid io, ?_, k1, k2, by rw [k3, hc], by rw [k4, hc, hd]⟩
  rw [hel]
  exact process_elements_records (build asdu.tid) (fun x => (hb asdu.tid x).1) r hr inv
    l1 io l2 hnew hfirst

/-- What the `switch` over the type identifier records for an element with a
new address, when no allocation fails. -/
theorem dispatch_by_type_records (r : Nat → Bool) (hr : ∀ n, r n = true) (asdu : ASDU)
    (inv : IOAInventory)
    (l1 : List (Option InformationObject)) (io : InformationObject)
    (l2 : List (Option InformationObject))
    (hel : asdu.elements = l1 ++ some io :: l2)
    (hnew : has_ioa inv.entries (entry_ioa io) = false)
    (hfirst : ∀ y, some y ∈ l1 → entry_ioa y ≠ entry_ioa io) :
    ∃ e ∈ (dispatch_by_type r asdu inv).entries,
      e.ioa = entry_ioa io ∧ e.type_id = entry_type_id asdu.tid
        ∧ e.category = classify asdu.tid
        ∧ e.is_digital = decide (classify asdu.tid = IOACategory.IOA_CAT_SINGLE_POINT
            ∨ classify asdu.tid = IOACategory.IOA_CAT_DOUBLE_POINT) := by
  unfold dispatch_by_type
  split
  · rename_i heq
    exact builder_records single_point_entry _ _ (fun _ _ => ⟨rfl, rfl, rfl, rfl⟩) r hr asdu inv
      (by rw [heq]; rfl) (by decide) l1 io l2 hel hnew hfirst
  · rename_i heq
    exact builder_records single_point_entry _ _ (fun _ _ => ⟨rfl, rfl, rfl, rfl⟩) r hr asdu inv
      (by rw [heq]; rfl) (by decide) l1 io l2 hel hnew hfirst
  · rename_i heq
    exact builder_records double_point_entry _ _ (fun _ _ => ⟨rfl, rfl, rfl, rfl⟩) r hr asdu inv
      (by rw [heq]; rfl) (by decide) l1 io l2 hel hnew hfirst
  · rename_i heq
    exact builder_records double_point_entry _ _ (fun _ _ => ⟨rfl, rfl, rfl, rfl⟩) r hr asdu inv
      (by rw [heq]; rfl) (by decide) l1 io l2 hel hnew hfirst
  · rename_i heq
    exact builder_records bitstring_entry _ _ (fun _ _ => ⟨rfl, rfl, rfl, rfl⟩) r hr asdu inv
      (by rw [heq]; rfl) (by decide) l1 io l2 hel hnew hfirst
  · rename_i heq
    exact builder_records bitstring_entry _ _ (fun _ _ => ⟨rfl, rfl, rfl, rfl⟩) r hr asdu inv
      (by rw [heq]; rfl) (by decide) l1 io l2 hel hnew hfirst
  · rename_i heq
    exact builder_records measured_normalized_entry _ _ (fun _ _ => ⟨rfl, rfl, rfl, rfl⟩) r hr asdu inv
      (by rw [heq]; rfl) (by decide) l1 io l2 hel hnew hfirst
  · rename_i heq
    exact builder_records measured_normalized_entry _ _ (fun _ _ => ⟨rfl, rfl, rfl, rfl⟩) r hr asdu inv
      (by rw [heq]; rfl) (by decide) l1 io l2 hel hnew hfirst
  · rename_i heq
    exact builder_records measured_scaled_entry _ _ (fun _ _ => ⟨rfl, rfl, rfl, rfl⟩) r hr asdu inv
      (by rw [heq]; rfl) (by decide) l1 io l2 hel hnew hfirst
  · rename_i heq
    exact builder_records measured_scaled_entry _ _ (fun _ _ => ⟨rfl, rfl, rfl, rfl⟩) r hr asdu inv
      (by rw [heq]; rfl) (by decide) l1 io l2 hel hnew hfirst
  · rename_i heq
    exact builder_records measured_short_entry _ _ (fun _ _ => ⟨rfl, rfl, rfl, rfl⟩) r hr asdu inv
      (by rw [heq]; rfl) (by decide) l1 io l2 hel hnew hfirst
  · rename_i heq
    exact builder_records measured_short_entry _ _ (fun _ _ => ⟨rfl, rfl, rfl, rfl⟩) r hr asdu inv
      (by rw [heq]; rfl) (by decide) l1 io l2 hel hnew hfirst
  · have hc : classify asdu.tid = IOACategory.IOA_CAT_OTHER := by
      unfold classify
      split <;> first | rfl | simp_all
    exact builder_records generic_entry _ _ (fun _ _ => ⟨rfl, rfl, rfl, rfl⟩) r hr asdu inv
      hc (by decide) l1 io l2 hel hnew hfirst

/-- The handler hands a data ASDU with a collected cause to the `switch`. -/
theorem handler_collects (r : Nat → Bool) (g : Globals) (asdu : ASDU)
    (hdata : asdu.tid ≠ C_IC_NA_1)
    (hcot : asdu.cot = CS101_COT_INTERROGATED_BY_STATION
      ∨ asdu.cot = CS101_COT_SPONTANEOUS ∨ asdu.cot = CS101_COT_PERIODIC) :
    (asduReceivedHandler r g asdu).g_inventory = dispatch_by_type r asdu g.g_inventory := by
  have hfilter : ¬ (asdu.cot ≠ CS101_COT_INTERROGATED_BY_STATION
      ∧ asdu.cot ≠ CS101_COT_SPONTANEOUS ∧ asdu.cot ≠ CS101_COT_PERIODIC) := by
    rintro ⟨h1, h2, h3⟩
    rcases hcot with h | h | h
    · exact h1 h
    · exact h2 h
    · exact h3 h
  unfold asduReceivedHandler
  rw [if_neg hdata, if_neg hfilter]

end Recon

/-! ## C1: round trip of the written config -/

/-- C1 (amended): for every non-empty inventory of digital points whose
addresses are at most 16777215 (and whose count fits an `int`), written with a
first header line that has no line break and fits the 255-character read
buffer, `load_ioa_map` on the file written by `inventory_write_config` succeeds
and returns the projection of the inventory: the same number of entries, in the
same order, each with the address and the synthesized name of its inventory
entry and the state ON exactly when `digital_state` holds. -/
theorem C1_round_trip (inv : IOAInventory) (target_ip : List Char) (target_port : Int)
    (timebuf : List Char)
    (hne : inv.entries ≠ [])
    (hcount : inv.count < 2 ^ 31)
    (hioa : ∀ e ∈ inv.entries, e.ioa ≤ IOA_MAX)
    (hdig : ∀ e ∈ inv.entries, e.is_digital = true)
    (hnl : ∀ c ∈ target_ip ++ timebuf, c ≠ '\n')
    (hfit : (header_line1 target_ip target_port timebuf).length + 1 < LINE_BUF_SIZE) :
    load_ioa_map (inventory_write_config true inv target_ip target_port timebuf).2
        = some (toTargetEntries inv)
      ∧ get_ioa_count
          (load_ioa_map (inventory_write_config true inv target_ip target_port timebuf).2)
        = inv.count
      ∧ toTargetEntries inv
        = inv.entries.map (fun e =>
            { ioa := e.ioa, name := config_name e,
              target_state := if e.digital_state then 1 else 0 }) := by
  have hload : load_ioa_map
      (inventory_write_config true inv target_ip target_port timebuf).2
        = some (toTargetEntries inv) := by
    simp only [inventory_write_config, if_true]
    rw [load_ioa_map_eq, scan_config_header _ _ _ _ _ hcount hnl hfit,
      scan_config_lines _ hioa]
    have : List.map toTargetEntry inv.entries ≠ [] := by
      simpa using hne
    rw [if_neg this]
    rfl
  refine ⟨hload, ?_, ?_⟩
  · rw [hload]
    simp [get_ioa_count, toTargetEntries, IOAInventory.count]
  · unfold toTargetEntries
    apply List.map_congr_left
    intro e he
    simp [toTargetEntry, hdig e he]

/-- C1 witness: the amended round trip at an inventory of two digital points. -/
theorem C1_round_trip_witness :
    load_ioa_map (inventory_write_config true inv_two ip_plain 2404 time_plain).2
        = some (toTargetEntries inv_two)
      ∧ get_ioa_count
          (load_ioa_map (inventory_write_config true inv_two ip_plain 2404 time_plain).2)
        = inv_two.count
      ∧ toTargetEntries inv_two
        = inv_two.entries.map (fun e =>
            { ioa := e.ioa, name := config_name e,
              target_state := if e.digital_state then 1 else 0 }) :=
  C1_round_trip inv_two ip_plain 2404 time_plain (by decide) (by decide) (by decide)
    (by decide) (by decide) (by decide)

/-- C1 counterexample: the round trip as stated fails.  A digital point with
address 16777216 is written but skipped on load, so the loaded list has 0
entries against 1 in the projection; the empty inventory makes the load fail;
and a line break in the target address of the header adds an entry. -/
theorem C1_counterexample :
    (∀ e ∈ inv_wide.entries, e.is_digital = true)
      ∧ get_ioa_count
          (load_ioa_map (inventory_write_config true inv_wide ip_plain 2404 time_plain).2)
        = 0
      ∧ (toTargetEntries inv_wide).length = 1
      ∧ load_ioa_map
          (inventory_write_config true ⟨[], 32⟩ ip_plain 2404 time_plain).2 = none
      ∧ get_ioa_count
          (load_ioa_map
            (inventory_write_config true inv_one "\n7 X ON\n#".toList 2404 time_plain).2)
        = 2 := by
  decide!

/-! ## C2: a second add of the same address -/

/-- C2: for every inventory and every two points `p`, `q` with the same `ioa`
(whatever their categories and values), once `inventory_add` of `p` returned
`1`, `inventory_add` of `q` returns `0` and leaves the inventory as it was after
the first add: same count, same capacity, same stored entries, and the entry
found for that address is still `p`. -/
theorem C2_duplicate_add (r1 r2 : Nat → Bool) (inv inv1 : IOAInventory)
    (p q : DiscoveredIOA) (hioa : p.ioa = q.ioa)
    (hadd : inventory_add r1 inv p = (1, inv1)) :
    inventory_add r2 inv1 q = (0, inv1)
      ∧ (inventory_add r2 inv1 q).2.count = inv1.count
      ∧ (inventory_add r2 inv1 q).2.capacity = inv1.capacity
      ∧ (inventory_add r2 inv1 q).2.entries = inv1.entries
      ∧ (inventory_add r2 inv1 q).2.entries.find? (fun e => e.ioa == q.ioa) = some p := by
  obtain ⟨hnew, hent⟩ := inventory_add_inserted r1 inv inv1 p hadd
  have hdup : has_ioa inv1.entries q.ioa = true := by
    rw [hent]
    exact has_ioa_append _ _ _ hioa
  have hres : inventory_add r2 inv1 q = (0, inv1) := by
    unfold inventory_add
    rw [if_pos hdup]
  rw [hres]
  refine ⟨rfl, rfl, rfl, rfl, ?_⟩
  simp only
  rw [hent]
  exact find_after_append _ _ _ (hioa ▸ has_ioa_false _ _ hnew) hioa

/-- C2 witness: address 100 first stored as a single point, then seen again as
a measured value. -/
theorem C2_duplicate_add_witness :
    point_sp.ioa = point_mv.ioa
      ∧ inventory_add realloc_always (inventory_init true) point_sp
          = (1, ⟨[point_sp], 32⟩)
      ∧ inventory_add realloc_always ⟨[point_sp], 32⟩ point_mv = (0, ⟨[point_sp], 32⟩) :=
  ⟨by decide, by decide,
    (C2_duplicate_add realloc_always realloc_always (inventory_init true) ⟨[point_sp], 32⟩
      point_sp point_mv (by decide) (by decide)).1⟩

/-! ## C3: boundary of the address range -/

/-- C3 (code at the failing inputs): between two other lines, the well-formed
line with the fields `16777215`, `BRK_MAX` and `ON`, in which 250 spaces precede
the state, yields no entry; and the well-formed line with the fields `16777216`,
`BRK_OVER` and `ON`, indented by 248 spaces, yields an entry with address 6. -/
theorem C3_boundary_on_long_line :
    (line_max_long.well_formed = true
        ∧ digits_val 0 line_max_long.ioa_field = 16777215
        ∧ load_ioa_map (some (lines_before ++ (line_max_long.text ++ lines_after)))
          = some [⟨1, ['A'], 1⟩, ⟨2, ['B'], 0⟩])
      ∧ (line_over_long.well_formed = true
        ∧ digits_val 0 line_over_long.ioa_field = 16777216
        ∧ load_ioa_map (some (lines_before ++ (line_over_long.text ++ lines_after)))
          = some [⟨1, ['A'], 1⟩, ⟨6, "BRK_OVER".toList, 1⟩, ⟨2, ['B'], 0⟩]) := by
  decide!

/-! ## C4: lines with fewer than three tokens -/

/-- C4 (code at the failing input): in a file of five data lines whose third
line has only the two tokens `12abc` and `ON`, that line still yields the entry
`(12, abc, ON)`: the load returns five entries, not four. -/
theorem C4_glued_numeral_accepted :
    load_ioa_map (some file_glued)
      = some [⟨1, ['A'], 1⟩, ⟨2, ['B'], 1⟩, ⟨12, ['a', 'b', 'c'], 1⟩, ⟨4, ['D'], 1⟩,
          ⟨5, ['E'], 1⟩] := by
  decide!

/-! ## C5: files without entries -/

/-- C5 (code at the failing input): a file made of two comment lines, the second
one 262 characters long, does not make the load fail: the tail of the long
comment line is read as a data line and the load returns one entry. -/
theorem C5_comment_only_file_loads :
    is_skip_line "# header".toList = true
      ∧ is_skip_line ('#' :: List.replicate 254 ' ' ++ "9 Z ON".toList) = true
      ∧ load_ioa_map (some file_comments) = some [⟨9, ['Z'], 1⟩]
      ∧ get_ioa_count (load_ioa_map (some file_comments)) = 1 := by
  decide!

/-! ## C6: a run with positive and negative confirmations -/

/-- C6: for every run over `n ≥ 1` targets in which every command is created
and accepted, and in which the handler receives, before the response wait ends,
`p` positive and `q ≥ 1` negative activation confirmations of single commands
(and no unknown-address or unknown-cause response), the summary is
`sent = n`, `sendFailed = 0`, `confirmed = p`, `rejected = q` and the exit code
is `2` (partial). -/
theorem C6_partial_run (targets : List IOATarget) (create_ok send_ok : Nat → Bool)
    (received : List Multi.ASDU)
    (hn : 1 ≤ targets.length)
    (hok : ∀ i, create_ok i = true ∧ send_ok i = true)
    (hrecv : ∀ a ∈ received, Multi.is_unknown_response a = false)
    (hq : 1 ≤ received.countP Multi.is_negative_con) :
    Multi.run targets create_ok send_ok received
      = ⟨targets.length, 0, received.countP Multi.is_positive_con,
          received.countP Multi.is_negative_con, 2⟩ := by
  unfold Multi.run
  have h1 := Multi.attack_loop_all_ok create_ok send_ok hok targets 0 ⟨0, 0, []⟩
  have h2 := Multi.handler_fold received ⟨0, 0⟩ hrecv
  simp only [Nat.zero_add] at h1 h2
  simp only [h1.1, h1.2, h2]
  have hx : Multi.exit_code targets.length 0 (received.countP Multi.is_negative_con) = 2 := by
    unfold Multi.exit_code
    rw [if_neg (by omega), if_pos (by omega)]
  rw [hx]

/-- C6 witness: targets A, B, C; A confirmed positively, B negatively, C
silent. -/
theorem C6_partial_run_witness :
    Multi.run targets_abc all_ok all_ok received_ab = ⟨3, 0, 1, 1, 2⟩ :=
  C6_partial_run targets_abc all_ok all_ok received_ab (by decide)
    (fun _ => ⟨rfl, rfl⟩) (by decide) (by decide)

/-! ## C7: classification of a run -/

/-- C7: for all counter values the exit code of the multi-target tool is `0`
(success) iff `sent > 0`, `sendFailed = 0` and `rejected = 0`; `1` (failure) iff
`sent = 0`; `2` (partial) in every other case; the three outcomes are mutually
exclusive and exhaustive. -/
theorem C7_run_classification (sent sendFailed rejected : Nat) :
    (Multi.exit_code sent sendFailed rejected = 0
        ↔ sent > 0 ∧ sendFailed = 0 ∧ rejected = 0)
      ∧ (Multi.exit_code sent sendFailed rejected = 1 ↔ sent = 0)
      ∧ (Multi.exit_code sent sendFailed rejected = 2
        ↔ ¬ (sent > 0 ∧ sendFailed = 0 ∧ rejected = 0) ∧ ¬ sent = 0)
      ∧ (Multi.exit_code sent sendFailed rejected = 0
        ∨ Multi.exit_code sent sendFailed rejected = 1
        ∨ Multi.exit_code sent sendFailed rejected = 2) := by
  unfold Multi.exit_code
  by_cases h1 : sent > 0 ∧ sendFailed = 0 ∧ rejected = 0
  · rw [if_pos h1]
    simp only [true_iff, OfNat.zero_ne_ofNat, false_iff, not_and, true_or, and_true]
    exact ⟨h1, ⟨by omega, by omega⟩⟩
  · rw [if_neg h1]
    by_cases h2 : sent > 0
    · rw [if_pos h2]
      simp only [OfNat.ofNat_ne_zero, false_iff, OfNat.ofNat_ne_one, true_iff, or_true,
        and_true]
      exact ⟨h1, by omega, h1, by omega⟩
    · rw [if_neg h2]
      simp only [one_ne_zero, false_iff, true_iff, OfNat.one_ne_ofNat, false_or, true_or,
        or_true, and_true]
      exact ⟨h1, by omega, by omega⟩

/-! ## C8: the state token -/

/-- C8 (code at the failing input): a line with the three fields `5`, `N` and
`ONX`, a valid address and a one-character name, in which 250 spaces precede
the state, yields an entry with state ON although the third field is not `ON`. -/
theorem C8_unrecognised_token_yields_on :
    line_padded.three_fields = true
      ∧ is_numeral line_padded.ioa_field = true
      ∧ digits_val 0 line_padded.ioa_field ≤ IOA_MAX
      ∧ line_padded.name_field.length ≤ 63
      ∧ strcasecmp line_padded.state_field str_ON ≠ 0
      ∧ load_ioa_map (some line_padded.text) = some [⟨5, ['N'], 1⟩] := by
  decide!

/-! ## C9: names longer than 63 characters -/

/-- C9 (code at the failing input): for the line `5 <70 times A> ON` the entry
has the first 63 characters of the name, but its state is OFF: the state is
read from the rest of the name, not from the third field `ON`. -/
theorem C9_long_name_loses_state :
    line_long_name.three_fields = true
      ∧ line_long_name.state_field = str_ON
      ∧ load_ioa_map (some line_long_name.text)
        = some [⟨5, List.replicate 63 'A', 0⟩] := by
  decide!

/-! ## C10: comment and blank lines -/

/-- C10 (code at the failing input): a comment line of 265 characters between
two data lines contributes the entry `(7, GHOST, ON)`, read from its tail. -/
theorem C10_long_comment_yields_entry :
    is_skip_line long_comment = true
      ∧ (∀ c ∈ long_comment, c ≠ '\n')
      ∧ load_ioa_map (some file_long_comment)
        = some [⟨1, ['A'], 1⟩, ⟨7, "GHOST".toList, 1⟩, ⟨2, ['B'], 0⟩] := by
  decide!

/-! ## C11: the inventory keeps first occurrences -/

/-- C11: starting from an empty, successfully initialised inventory, after any
sequence of `inventory_add` calls without allocation failure the stored entries
are exactly the first occurrence of each address of the sequence, in the order
of first occurrence (a point is stored iff no earlier point of the sequence has
its address); their addresses are pairwise distinct, and the count is the
number of distinct addresses seen. -/
theorem C11_first_write_wins (r : Nat → Bool) (ps : List DiscoveredIOA)
    (hr : ∀ n, r n = true) :
    (inventory_add_all r (inventory_init true) ps).entries = first_occurrences ps
      ∧ ((inventory_add_all r (inventory_init true) ps).entries.map
          (fun e => e.ioa)).Nodup
      ∧ (inventory_add_all r (inventory_init true) ps).entries.Sublist ps
      ∧ (∀ e, e ∈ (inventory_add_all r (inventory_init true) ps).entries
          ↔ ∃ l1 l2, ps = l1 ++ e :: l2 ∧ ∀ x ∈ l1, x.ioa ≠ e.ioa)
      ∧ (inventory_add_all r (inventory_init true) ps).count
        = (ps.map (fun e => e.ioa)).toFinset.card := by
  have h : (inventory_add_all r (inventory_init true) ps).entries
      = first_occurrences ps := by
    rw [inventory_add_all_entries r hr]
    simp [inventory_init, has_ioa]
  refine ⟨h, ?_, ?_, ?_, ?_⟩
  · rw [h]; exact first_occurrences_nodup ps
  · rw [h]; exact first_occurrences_sublist ps
  · intro e; rw [h]; exact first_occurrences_iff ps e
  · rw [IOAInventory.count, h]; exact first_occurrences_length ps

/-- C11 witness: of four observations with addresses 7, 9, 7, 2 the first, the
second and the fourth are stored. -/
theorem C11_first_write_wins_witness :
    (inventory_add_all realloc_always (inventory_init true) points_seen).entries
      = [ ⟨7, 1, IOACategory.IOA_CAT_SINGLE_POINT, true, true, 0, 0⟩,
          ⟨9, 3, IOACategory.IOA_CAT_DOUBLE_POINT, true, false, 0, 0⟩,
          ⟨2, 7, IOACategory.IOA_CAT_BITSTRING, false, false, 0, 255⟩ ] := by
  have h := (C11_first_write_wins realloc_always points_seen (fun _ => rfl)).1
  rw [h]
  decide

/-! ## C17: growth of the inventory -/

/-- C17: when `inventory_add` is called with a new address on a full inventory
(`count = capacity`), the only request made is for twice the current capacity;
if it fails the result is `-1` with the inventory unchanged, if it succeeds the
capacity is doubled, the point is appended at the end and the result is `1`.
After any sequence of calls on an inventory initialised with capacity 32,
whatever the allocator answers, the capacity is `32 * 2 ^ k` for some `k` and the
count does not exceed it (and the capacity is 32 or below twice the count). -/
theorem C17_growth (r : Nat → Bool) (inv : IOAInventory) (p : DiscoveredIOA)
    (ps : List DiscoveredIOA) (hnew : has_ioa inv.entries p.ioa = false)
    (hfull : inv.count = inv.capacity) :
    (r (inv.capacity * 2) = false → inventory_add r inv p = (-1, inv))
      ∧ (r (inv.capacity * 2) = true →
          inventory_add r inv p = (1, ⟨inv.entries ++ [p], inv.capacity * 2⟩))
      ∧ (∀ r2 : Nat → Bool, r2 (inv.capacity * 2) = r (inv.capacity * 2) →
          inventory_add r2 inv p = inventory_add r inv p)
      ∧ (∃ k, (inventory_add_all r (inventory_init true) ps).capacity = 32 * 2 ^ k)
      ∧ (inventory_add_all r (inventory_init true) ps).count
          ≤ (inventory_add_all r (inventory_init true) ps).capacity
      ∧ ((inventory_add_all r (inventory_init true) ps).capacity = 32
          ∨ (inventory_add_all r (inventory_init true) ps).capacity
            < 2 * (inventory_add_all r (inventory_init true) ps).count) := by
  have hadd : ∀ r2 : Nat → Bool, inventory_add r2 inv p
      = if r2 (inv.capacity * 2) then (1, ⟨inv.entries ++ [p], inv.capacity * 2⟩)
        else (-1, inv) := by
    intro r2
    unfold inventory_add
    rw [hnew]
    simp only [Bool.false_eq_true, if_false]
    rw [if_pos (by omega)]
  have hinit : growth_invariant (inventory_init true) :=
    ⟨⟨0, rfl⟩, by decide, Or.inl rfl⟩
  obtain ⟨hk, hle, hhalf⟩ := inventory_add_all_growth r ps _ hinit
  refine ⟨?_, ?_, ?_, hk, hle, hhalf⟩
  · intro h
    rw [hadd, h]
    rfl
  · intro h
    rw [hadd, h]
    rfl
  · intro r2 h
    rw [hadd, hadd, h]

/-- C17 witness: a full inventory of capacity 1 grows to capacity 2, and four
additions to a fresh inventory leave the capacity at 32. -/
theorem C17_growth_witness :
    has_ioa inv_full.entries point_new.ioa = false
      ∧ inv_full.count = inv_full.capacity
      ∧ inventory_add realloc_always inv_full point_new
        = (1, ⟨[point_sp, point_new], 2⟩)
      ∧ (inventory_add_all realloc_always (inventory_init true) points_seen).capacity
        = 32 :=
  ⟨by decide, by decide,
    (C17_growth realloc_always inv_full point_new points_seen (by decide)
      (by decide)).2.1 (by decide),
    by decide⟩

/-! ## C12: the lines written for the entries -/

/-- C12: `inventory_write_config` writes, after the header, one data line per
inventory entry, in inventory order.  The line of an entry `e` has three fields:
the decimal numeral of `e.ioa`, the name `<prefix>_IOA_<e.ioa>` with prefix SP,
DP, BS, MN, MS, MF for the six known categories and UK otherwise, and the state,
which is `ON` iff `e` is digital and its `digital_state` is true and `OFF` in
every other case (so for every non-digital entry). -/
theorem C12_written_lines (inv : IOAInventory) (target_ip : List Char)
    (target_port : Int) (timebuf : List Char) (e : DiscoveredIOA) :
    (inventory_write_config true inv target_ip target_port timebuf).2
        = some (config_header inv.count target_ip target_port timebuf
            ++ (inv.entries.map config_line).flatten)
      ∧ (∃ l : DataLine, l.text = config_line e ∧ l.three_fields = true
          ∧ l.lead = [] ∧ l.eol = ['\n']
          ∧ l.ioa_field = fmt_u e.ioa
          ∧ l.name_field = name_pfx e.category ++ ['_', 'I', 'O', 'A', '_'] ++ fmt_u e.ioa
          ∧ l.state_field
            = if e.is_digital = true ∧ e.digital_state = true then ['O', 'N']
              else ['O', 'F', 'F'])
      ∧ is_numeral (fmt_u e.ioa) = true ∧ digits_val 0 (fmt_u e.ioa) = e.ioa
      ∧ name_pfx IOACategory.IOA_CAT_SINGLE_POINT = ['S', 'P']
      ∧ name_pfx IOACategory.IOA_CAT_DOUBLE_POINT = ['D', 'P']
      ∧ name_pfx IOACategory.IOA_CAT_BITSTRING = ['B', 'S']
      ∧ name_pfx IOACategory.IOA_CAT_MEASURED_NORM = ['M', 'N']
      ∧ name_pfx IOACategory.IOA_CAT_MEASURED_SCALED = ['M', 'S']
      ∧ name_pfx IOACategory.IOA_CAT_MEASURED_SHORT = ['M', 'F']
      ∧ name_pfx IOACategory.IOA_CAT_OTHER = ['U', 'K']
      ∧ (e.is_digital = false → state_str e = ['O', 'F', 'F']) := by
  refine ⟨?_, ?_, fmt_u_numeral e.ioa, (fmt_u_spec e.ioa).2.2.1, rfl, rfl, rfl, rfl, rfl,
    rfl, rfl, ?_⟩
  · simp only [inventory_write_config, if_true]
    rw [config_lines_eq]
  · obtain ⟨l, h1, h2, h3, h4, h5, h6, _, h8⟩ := config_line_layout e
    refine ⟨l, h1, h2, h3, h8, h4, ?_, ?_⟩
    · rw [h5]; rfl
    · rw [h6]
      unfold state_str
      cases e.is_digital <;> cases e.digital_state <;> rfl
  · intro h
    simp [state_str, h, str_OFF]

/-! ## C13: response tracking -/

/-- C13: for every notification the handler of the multi-target tool changes the
counters in exactly these ways: a positive activation confirmation of a single
command adds 1 to `confirmed`; a negative activation confirmation, an
unknown-address or an unknown-cause response to a single command adds 1 to
`rejected`; every other ASDU, among them activation termination and every ASDU
that is not a single command, leaves both counters unchanged. -/
theorem C13_response_tracking (g : Multi.Counters) (a : Multi.ASDU) :
    Multi.asduReceivedHandler g a
        = (if Multi.is_positive_con a then
            ⟨g.g_confirm_count + 1, g.g_reject_count⟩
          else if Multi.is_negative_con a || Multi.is_unknown_response a then
            ⟨g.g_confirm_count, g.g_reject_count + 1⟩
          else g)
      ∧ Multi.asduReceivedHandler g
          ⟨Multi.C_SC_NA_1, Multi.CS101_COT_ACTIVATION_TERMINATION, a.negative⟩ = g
      ∧ (a.tid ≠ Multi.C_SC_NA_1 → Multi.asduReceivedHandler g a = g) := by
  refine ⟨?_, ?_, ?_⟩
  · unfold Multi.asduReceivedHandler Multi.is_positive_con Multi.is_negative_con
      Multi.is_unknown_response
    by_cases h1 : a.tid = Multi.C_SC_NA_1
    · by_cases h2 : a.cot = Multi.CS101_COT_ACTIVATION_CON
      · have h3 : ¬ a.cot = Multi.CS101_COT_UNKNOWN_IOA := by rw [h2]; decide
        have h4 : ¬ a.cot = Multi.CS101_COT_UNKNOWN_COT := by rw [h2]; decide
        cases h5 : a.negative <;> simp [h1, h2, h3, h4, h5]
      · by_cases h3 : a.cot = Multi.CS101_COT_ACTIVATION_TERMINATION
        · have h4 : ¬ a.cot = Multi.CS101_COT_UNKNOWN_IOA := by rw [h3]; decide
          have h5 : ¬ a.cot = Multi.CS101_COT_UNKNOWN_COT := by rw [h3]; decide
          simp [h1, h3, Multi.CS101_COT_ACTIVATION_TERMINATION,
            Multi.CS101_COT_ACTIVATION_CON, Multi.CS101_COT_UNKNOWN_IOA,
            Multi.CS101_COT_UNKNOWN_COT]
        · by_cases h4 : a.cot = Multi.CS101_COT_UNKNOWN_IOA
          · simp [h1, h4, Multi.CS101_COT_ACTIVATION_TERMINATION,
              Multi.CS101_COT_ACTIVATION_CON, Multi.CS101_COT_UNKNOWN_IOA,
              Multi.CS101_COT_UNKNOWN_COT]
          · by_cases h5 : a.cot = Multi.CS101_COT_UNKNOWN_COT
            · simp [h1, h5, Multi.CS101_COT_ACTIVATION_TERMINATION,
                Multi.CS101_COT_ACTIVATION_CON, Multi.CS101_COT_UNKNOWN_IOA,
                Multi.CS101_COT_UNKNOWN_COT]
            · simp [h1, h2, h3, h4, h5]
    · simp [h1]
  · simp [Multi.asduReceivedHandler, Multi.CS101_COT_ACTIVATION_TERMINATION,
      Multi.CS101_COT_ACTIVATION_CON]
  · intro h1
    simp [Multi.asduReceivedHandler, h1]

/-! ## C14: the dispatch loop -/

/-- C14: for every target list and every pattern of creation and submission
results, the attack loop attempts each target exactly once, in list order, with
the command `(ioa, desiredState, select = false, qualifier 0)`; it runs to the
end of the list whatever fails, so that `sent + sendFailed` is the number of
targets, and `sent` counts exactly the targets whose command was created and
accepted by the session. -/
theorem C14_dispatch_loop (targets : List IOATarget) (create_ok send_ok : Nat → Bool) :
    (Multi.attack_loop create_ok send_ok targets 0 ⟨0, 0, []⟩).attempted
        = targets.map (fun t => (⟨t.ioa, t.target_state != 0, false, 0⟩ : Multi.SingleCommand))
      ∧ (Multi.attack_loop create_ok send_ok targets 0 ⟨0, 0, []⟩).send_count
          + (Multi.attack_loop create_ok send_ok targets 0 ⟨0, 0, []⟩).send_fail
        = targets.length
      ∧ (Multi.attack_loop create_ok send_ok targets 0 ⟨0, 0, []⟩).send_count
        = (List.range targets.length).countP (fun i => create_ok i && send_ok i)
      ∧ (Multi.attack_loop create_ok send_ok targets 0 ⟨0, 0, []⟩).send_fail
        = (List.range targets.length).countP (fun i => !(create_ok i && send_ok i)) := by
  obtain ⟨h1, h2, h3⟩ := Multi.attack_loop_spec create_ok send_ok targets 0 ⟨0, 0, []⟩
  simp only [List.nil_append, Nat.zero_add, ← List.range_eq_range'] at h1 h2 h3
  refine ⟨h1, ?_, h2, h3⟩
  rw [h2, h3]
  have hsum := List.length_eq_countP_add_countP (fun i => create_ok i && send_ok i)
    (List.range targets.length)
  rw [List.length_range] at hsum
  have hneg : (List.range targets.length).countP
        (fun a => decide (¬ (fun i => create_ok i && send_ok i) a = true))
      = (List.range targets.length).countP (fun j => !(create_ok j && send_ok j)) := by
    apply List.countP_congr
    intro x _
    simp
  rw [hneg] at hsum
  exact hsum.symm

/-! ## C15: classification of type codes -/

/-- C15: for every ASDU that is not an interrogation command, whose cause of
transmission passes the filter (interrogated by station, spontaneous or
periodic) and whose type identifier is one octet:
* the handler only appends entries, and each entry it records belongs to an
  element of the ASDU, keeps the raw type code and gets the category of the
  table (1, 30 single point; 3, 31 double point; 7, 33 bitstring; 9, 34
  normalized; 11, 35 scaled; 13, 36 short; every other code other), and is
  flagged digital exactly when that category is single point or double point;
* when no allocation fails, an entry is recorded for every element whose
  address is neither in the inventory nor carried by an earlier element of the
  ASDU, with the address of the element, the raw type code, the category of the
  table and the digital flag of that category. -/
theorem C15_type_classification (r : Nat → Bool) (g : Recon.Globals) (asdu : Recon.ASDU)
    (hdata : asdu.tid ≠ Recon.C_IC_NA_1)
    (hcot : asdu.cot = Recon.CS101_COT_INTERROGATED_BY_STATION
      ∨ asdu.cot = Recon.CS101_COT_SPONTANEOUS ∨ asdu.cot = Recon.CS101_COT_PERIODIC)
    (htid : asdu.tid < 256) :
    (∃ added, (Recon.asduReceivedHandler r g asdu).g_inventory.entries
        = g.g_inventory.entries ++ added
      ∧ ∀ e ∈ added, e.type_id = asdu.tid ∧ e.category = classify asdu.tid
        ∧ (e.is_digital = true ↔ (e.category = IOACategory.IOA_CAT_SINGLE_POINT
            ∨ e.category = IOACategory.IOA_CAT_DOUBLE_POINT))
        ∧ ∃ io, some io ∈ asdu.elements ∧ e.ioa = Recon.entry_ioa io)
      ∧ ((∀ n, r n = true) →
        ∀ (l1 : List (Option Recon.InformationObject)) (io : Recon.InformationObject)
          (l2 : List (Option Recon.InformationObject)),
          asdu.elements = l1 ++ some io :: l2 →
          has_ioa g.g_inventory.entries (Recon.entry_ioa io) = false →
          (∀ y, some y ∈ l1 → Recon.entry_ioa y ≠ Recon.entry_ioa io) →
          ∃ e ∈ (Recon.asduReceivedHandler r g asdu).g_inventory.entries,
            e.ioa = Recon.entry_ioa io ∧ e.type_id = asdu.tid
              ∧ e.category = classify asdu.tid
              ∧ (e.is_digital = true ↔ (e.category = IOACategory.IOA_CAT_SINGLE_POINT
                  ∨ e.category = IOACategory.IOA_CAT_DOUBLE_POINT))) := by
  have hh := Recon.handler_collects r g asdu hdata hcot
  constructor
  · obtain ⟨added, h1, h2⟩ := Recon.dispatch_by_type_entries r asdu g.g_inventory
    refine ⟨added, by rw [hh]; exact h1, ?_⟩
    intro e he
    obtain ⟨io, hio, k1, k2, k3, k4⟩ := h2 e he
    refine ⟨?_, k3, ?_, io, hio, k1⟩
    · rw [k2, Recon.entry_type_id, Nat.mod_eq_of_lt htid]
    · rw [k4, k3]
      simp
  · intro hr l1 io l2 hel hnew hfirst
    obtain ⟨e, he, k1, k2, k3, k4⟩ :=
      Recon.dispatch_by_type_records r hr asdu g.g_inventory l1 io l2 hel hnew hfirst
    refine ⟨e, by rw [hh]; exact he, k1, ?_, k3, ?_⟩
    · rw [k2, Recon.entry_type_id, Nat.mod_eq_of_lt htid]
    · rw [k4, k3]
      simp

/-- C15 witness: a station-interrogation response of type 30 with two elements
records two single points that keep the type code 30; a spontaneous ASDU of
type 5, which the table does not list, records its two elements with the
category other, not digital, and the second of them is found as the theorem
says. -/
theorem C15_type_classification_witness :
    (Recon.asduReceivedHandler realloc_always globals_start asdu_sp_time).g_inventory.entries
        = [ ⟨11, 30, IOACategory.IOA_CAT_SINGLE_POINT, true, true, 0, 0⟩,
            ⟨12, 30, IOACategory.IOA_CAT_SINGLE_POINT, true, false, 0, 0⟩ ]
      ∧ (Recon.asduReceivedHandler realloc_always globals_start asdu_step).g_inventory.entries
        = [ ⟨21, 5, IOACategory.IOA_CAT_OTHER, false, false, 0, 0⟩,
            ⟨22, 5, IOACategory.IOA_CAT_OTHER, false, false, 0, 0⟩ ]
      ∧ ∃ e ∈ (Recon.asduReceivedHandler realloc_always globals_start
            asdu_step).g_inventory.entries,
          e.ioa = Recon.entry_ioa step_b ∧ e.type_id = asdu_step.tid
            ∧ e.category = classify asdu_step.tid
            ∧ (e.is_digital = true ↔ (e.category = IOACategory.IOA_CAT_SINGLE_POINT
                ∨ e.category = IOACategory.IOA_CAT_DOUBLE_POINT)) :=
  ⟨by decide, by decide,
    (C15_type_classification realloc_always globals_start asdu_step (by decide)
      (Or.inr (Or.inl rfl)) (by decide)).2 (fun _ => rfl) [some step_a, none] step_b []
      rfl (by decide)
      (fun y hy => by
        have hya : y = step_a := by simpa using hy
        rw [hya]
        decide)⟩

/-! ## C16: double points -/

/-- C16: for every ASDU of type 3 or 31 whose cause of transmission passes the
filter, the handler runs `process_double_point`, and
* every entry it records belongs to a double-point element of the ASDU, is
  digital, has the category double point, and its `digital_state` is true iff
  the decoded value of that element is ON;
* when no allocation fails, for every element whose address is neither in the
  inventory nor carried by an earlier element of the ASDU the recorded entry is
  the digital double point with `digital_state = true` if the decoded value is
  ON, and with `digital_state = false` if it is OFF, intermediate or
  indeterminate. -/
theorem C16_double_point (r : Nat → Bool) (g : Recon.Globals) (asdu : Recon.ASDU)
    (htid : asdu.tid = 3 ∨ asdu.tid = 31)
    (hcot : asdu.cot = Recon.CS101_COT_INTERROGATED_BY_STATION
      ∨ asdu.cot = Recon.CS101_COT_SPONTANEOUS ∨ asdu.cot = Recon.CS101_COT_PERIODIC) :
    (Recon.asduReceivedHandler r g asdu).g_inventory
        = Recon.process_double_point r asdu g.g_inventory
      ∧ (∃ added, (Recon.asduReceivedHandler r g asdu).g_inventory.entries
          = g.g_inventory.entries ++ added
        ∧ ∀ e ∈ added, ∃ el, some el ∈ asdu.elements
          ∧ e = Recon.double_point_entry asdu.tid el
          ∧ e.ioa = Recon.entry_ioa el ∧ e.type_id = asdu.tid
          ∧ e.category = IOACategory.IOA_CAT_DOUBLE_POINT ∧ e.is_digital = true
          ∧ (e.digital_state = true
            ↔ el.dp_value = Recon.DoublePointValue.IEC60870_DOUBLE_POINT_ON))
      ∧ ((∀ n, r n = true) →
        ∀ (l1 : List (Option Recon.InformationObject)) (io : Recon.InformationObject)
          (l2 : List (Option Recon.InformationObject)),
          asdu.elements = l1 ++ some io :: l2 →
          has_ioa g.g_inventory.entries (Recon.entry_ioa io) = false →
          (∀ y, some y ∈ l1 → Recon.entry_ioa y ≠ Recon.entry_ioa io) →
          (io.dp_value = Recon.DoublePointValue.IEC60870_DOUBLE_POINT_ON →
              (⟨Recon.entry_ioa io, asdu.tid, IOACategory.IOA_CAT_DOUBLE_POINT, true, true,
                  0, 0⟩ : DiscoveredIOA)
                ∈ (Recon.asduReceivedHandler r g asdu).g_inventory.entries)
            ∧ (io.dp_value = Recon.DoublePointValue.IEC60870_DOUBLE_POINT_OFF
                ∨ io.dp_value = Recon.DoublePointValue.IEC60870_DOUBLE_POINT_INTERMEDIATE
                ∨ io.dp_value = Recon.DoublePointValue.IEC60870_DOUBLE_POINT_INDETERMINATE →
              (⟨Recon.entry_ioa io, asdu.tid, IOACategory.IOA_CAT_DOUBLE_POINT, true, false,
                  0, 0⟩ : DiscoveredIOA)
                ∈ (Recon.asduReceivedHandler r g asdu).g_inventory.entries)) := by
  have hdata : asdu.tid ≠ Recon.C_IC_NA_1 := by
    rcases htid with h | h <;> rw [h] <;> decide
  have hcode : Recon.entry_type_id asdu.tid = asdu.tid := by
    rcases htid with h | h <;> rw [h] <;> rfl
  have hd : Recon.dispatch_by_type r asdu g.g_inventory
      = Recon.process_double_point r asdu g.g_inventory := by
    rcases htid with h | h <;> simp [Recon.dispatch_by_type, h]
  have hh : (Recon.asduReceivedHandler r g asdu).g_inventory
      = Recon.process_double_point r asdu g.g_inventory := by
    rw [Recon.handler_collects r g asdu hdata hcot, hd]
  refine ⟨hh, ?_, ?_⟩
  · obtain ⟨added, h1, h2⟩ := Recon.process_elements_entries
      (Recon.double_point_entry asdu.tid) r asdu.elements g.g_inventory
    refine ⟨added, by rw [hh]; exact h1, ?_⟩
    intro e he
    obtain ⟨el, hel, rfl⟩ := h2 e he
    exact ⟨el, hel, rfl, rfl, hcode, rfl, rfl, by simp [Recon.double_point_entry]⟩
  · intro hr l1 io l2 hel hnew hfirst
    have hm := Recon.process_elements_records (Recon.double_point_entry asdu.tid)
      (fun _ => rfl) r hr g.g_inventory l1 io l2 hnew hfirst
    rw [← hel] at hm
    have hm2 : Recon.double_point_entry asdu.tid io
        ∈ (Recon.asduReceivedHandler r g asdu).g_inventory.entries := by
      rw [hh]
      exact hm
    constructor
    · intro hv
      have e : Recon.double_point_entry asdu.tid io
          = ⟨Recon.entry_ioa io, asdu.tid, IOACategory.IOA_CAT_DOUBLE_POINT, true, true,
              0, 0⟩ := by
        simp [Recon.double_point_entry, hv, hcode]
      rw [← e]
      exact hm2
    · intro hv
      have e : Recon.double_point_entry asdu.tid io
          = ⟨Recon.entry_ioa io, asdu.tid, IOACategory.IOA_CAT_DOUBLE_POINT, true, false,
              0, 0⟩ := by
        rcases hv with hv | hv | hv <;> simp [Recon.double_point_entry, hv, hcode]
      rw [← e]
      exact hm2

/-- C16 witness: an interrogation response of type 31 whose elements carry the
values ON, OFF, intermediate and indeterminate, and then the first address
again: four digital double points are recorded, only the first with
`digital_state = true`, and the entry of the intermediate element is the one
the theorem names. -/
theorem C16_double_point_witness :
    (Recon.asduReceivedHandler realloc_always globals_start asdu_dp).g_inventory.entries
        = [ ⟨41, 31, IOACategory.IOA_CAT_DOUBLE_POINT, true, true, 0, 0⟩,
            ⟨42, 31, IOACategory.IOA_CAT_DOUBLE_POINT, true, false, 0, 0⟩,
            ⟨43, 31, IOACategory.IOA_CAT_DOUBLE_POINT, true, false, 0, 0⟩,
            ⟨44, 31, IOACategory.IOA_CAT_DOUBLE_POINT, true, false, 0, 0⟩ ]
      ∧ (⟨Recon.entry_ioa dp_intermediate, asdu_dp.tid, IOACategory.IOA_CAT_DOUBLE_POINT,
            true, false, 0, 0⟩ : DiscoveredIOA)
          ∈ (Recon.asduReceivedHandler realloc_always globals_start
              asdu_dp).g_inventory.entries :=
  ⟨by decide,
    ((C16_double_point realloc_always globals_start asdu_dp (Or.inr rfl)
      (Or.inl rfl)).2.2 (fun _ => rfl) [some dp_on, some dp_off] dp_intermediate
      [some dp_indeterminate, some dp_again] rfl (by decide)
      (fun y hy => by
        have hya : y = dp_on ∨ y = dp_off := by simpa using hy
        rcases hya with h | h <;> rw [h] <;> decide)).2 (Or.inr (Or.inl rfl))⟩

/-! ## C18: numerals that do not fit 32 bits -/

/-- C18 (code at the failing input): the lines `4294967296 A ON` and
`4294967297 B ON`, whose IOA fields are numerals far above 16777215, yield the
entries with addresses 0 and 1: the conversion `%u` stores the value cut to 32
bits before the range is checked. -/
theorem C18_wide_numeral_accepted :
    is_numeral "4294967296".toList = true
      ∧ digits_val 0 "4294967296".toList = 4294967296
      ∧ digits_val 0 "4294967297".toList = 4294967297
      ∧ load_ioa_map (some file_wide_numerals) = some [⟨0, ['A'], 1⟩, ⟨1, ['B'], 1⟩] := by
  decide!

/-! ## C19: outcome of the single-shot tool -/

/-- C19 (code at the failing input): when the only ASDU received before the
wait ends is a negative activation confirmation of the single command, the exit
code of the single-shot tool is `3`, the code for no response; the handler of
the multi-target tool counts the same ASDU as a rejection. -/
theorem C19_negative_confirmation_exit :
    Multi.is_negative_con negative_con = true
      ∧ Poc.run [negative_con] = 3
      ∧ Poc.run [] = 3
      ∧ Multi.asduReceivedHandler ⟨0, 0⟩ negative_con = ⟨0, 1⟩ := by
  decide

/-! ## C20: the fields of a data line -/

/-- C21: two runs of the multi-target tool whose summaries agree on `sent`,
`sendFailed` and `rejected` end with the same exit code, whatever their
`confirmed` counts are (the classification is printed in the branch that sets
the exit code: `0` success, `2` partial, `1` failure).  The `confirmed` count
of a run is the number of positive activation confirmations received, and the
run in which none of them is received has `confirmed = 0` and otherwise the
same summary, exit code included.  In particular a run with `sent > 0`,
`sendFailed = 0`, `rejected = 0` and `confirmed = 0` has exit code `0`, and the
run over `n ≥ 1` targets in which every command is created and accepted and
nothing is received is such a run. -/
theorem C21_outcome_ignores_confirmed
    (targets targets2 : List IOATarget)
    (create_ok send_ok create_ok2 send_ok2 : Nat → Bool)
    (received received2 : List Multi.ASDU)
    (hsent : (Multi.run targets create_ok send_ok received).send_count
      = (Multi.run targets2 create_ok2 send_ok2 received2).send_count)
    (hfail : (Multi.run targets create_ok send_ok received).send_fail
      = (Multi.run targets2 create_ok2 send_ok2 received2).send_fail)
    (hrej : (Multi.run targets create_ok send_ok received).g_reject_count
      = (Multi.run targets2 create_ok2 send_ok2 received2).g_reject_count) :
    (Multi.run targets create_ok send_ok received).exit_code
        = (Multi.run targets2 create_ok2 send_ok2 received2).exit_code
      ∧ (Multi.run targets create_ok send_ok received).g_confirm_count
        = received.countP Multi.is_positive_con
      ∧ Multi.run targets create_ok send_ok (without_confirmations received)
        = { Multi.run targets create_ok send_ok received with g_confirm_count := 0 }
      ∧ ((Multi.run targets create_ok send_ok received).send_count > 0
          → (Multi.run targets create_ok send_ok received).send_fail = 0
          → (Multi.run targets create_ok send_ok received).g_reject_count = 0
          → (Multi.run targets create_ok send_ok received).g_confirm_count = 0
          → (Multi.run targets create_ok send_ok received).exit_code = 0)
      ∧ (1 ≤ targets.length → (∀ i, create_ok i = true ∧ send_ok i = true)
          → Multi.run targets create_ok send_ok [] = ⟨targets.length, 0, 0, 0, 0⟩) := by
  refine ⟨?_, ?_, ?_, ?_, ?_⟩
  · rw [Multi.run_eq] at hsent hfail hrej ⊢
    rw [Multi.run_eq] at hsent hfail hrej ⊢
    simp only at hsent hfail hrej ⊢
    rw [hsent, hfail, hrej]
  · rw [Multi.run_eq]
  · rw [Multi.run_eq, Multi.run_eq]
    obtain ⟨k1, k2⟩ := without_confirmations_counts received
    rw [k1, k2]
  · intro h1 h2 h3 _
    rw [Multi.run_eq] at h1 h2 h3 ⊢
    simp only at h1 h2 h3 ⊢
    unfold Multi.exit_code
    rw [if_pos ⟨h1, h2, h3⟩]
  · intro hn hok
    have h := Multi.attack_loop_all_ok create_ok send_ok hok targets 0 ⟨0, 0, []⟩
    simp only [Nat.zero_add] at h
    rw [Multi.run_eq, h.1, h.2]
    have hx : Multi.exit_code targets.length 0 0 = 0 := by
      unfold Multi.exit_code
      rw [if_pos ⟨by omega, rfl, rfl⟩]
    simp [hx]

/-- C21 witness: three commands sent and accepted; the run that receives
nothing and the run that receives two positive confirmations agree on `sent`,
`sendFailed` and `rejected`, have `confirmed` 0 and 2, and both end with exit
code `0`. -/
theorem C21_outcome_ignores_confirmed_witness :
    ((Multi.run targets_abc all_ok all_ok []).send_count
        = (Multi.run targets_abc all_ok all_ok received_confirmed).send_count
      ∧ (Multi.run targets_abc all_ok all_ok []).send_fail
        = (Multi.run targets_abc all_ok all_ok received_confirmed).send_fail
      ∧ (Multi.run targets_abc all_ok all_ok []).g_reject_count
        = (Multi.run targets_abc all_ok all_ok received_confirmed).g_reject_count)
      ∧ Multi.run targets_abc all_ok all_ok [] = ⟨3, 0, 0, 0, 0⟩
      ∧ Multi.run targets_abc all_ok all_ok received_confirmed = ⟨3, 0, 2, 0, 0⟩
      ∧ (Multi.run targets_abc all_ok all_ok []).exit_code
        = (Multi.run targets_abc all_ok all_ok received_confirmed).exit_code :=
  ⟨⟨by decide, by decide, by decide⟩, by decide, by decide,
    (C21_outcome_ignores_confirmed targets_abc targets_abc all_ok all_ok all_ok all_ok
      [] received_confirmed (by decide) (by decide) (by decide)).1⟩

/-! ## C22: the collection filter of the recon handler -/

/-- C22: for every ASDU, every state of the globals and every behaviour of
`realloc`, the recon handler
* leaves the inventory unchanged when the ASDU is an interrogation command
  (type 100), and then sets `g_gi_confirmed` exactly on a positive activation
  confirmation and `g_gi_terminated` exactly on an activation termination,
  never clearing either flag;
* leaves the inventory unchanged when the cause of transmission is none of
  interrogated-by-station, spontaneous and periodic;
* so changes the inventory only for an ASDU of another type with one of these
  three causes, for which the inventory becomes what the `switch` over the type
  identifier makes of it;
* changes neither flag for an ASDU that is not an interrogation command;
* only ever appends to the entries.
The ASDU of type 30 with two new points adds both under each of the three
causes, and adds none under cause 5 or as an ASDU of type 100. -/
theorem C22_collection_filter (r : Nat → Bool) (g : Recon.Globals) (asdu : Recon.ASDU) :
    (asdu.tid = Recon.C_IC_NA_1 →
        (Recon.asduReceivedHandler r g asdu).g_inventory = g.g_inventory
        ∧ (Recon.asduReceivedHandler r g asdu).g_gi_confirmed
          = (g.g_gi_confirmed
            || (asdu.cot == Recon.CS101_COT_ACTIVATION_CON && !asdu.negative))
        ∧ (Recon.asduReceivedHandler r g asdu).g_gi_terminated
          = (g.g_gi_terminated || asdu.cot == Recon.CS101_COT_ACTIVATION_TERMINATION))
      ∧ (is_collected_cause asdu.cot = false →
        (Recon.asduReceivedHandler r g asdu).g_inventory = g.g_inventory)
      ∧ ((Recon.asduReceivedHandler r g asdu).g_inventory ≠ g.g_inventory →
        asdu.tid ≠ Recon.C_IC_NA_1 ∧ is_collected_cause asdu.cot = true)
      ∧ (asdu.tid ≠ Recon.C_IC_NA_1 → is_collected_cause asdu.cot = true →
        (Recon.asduReceivedHandler r g asdu).g_inventory
          = Recon.dispatch_by_type r asdu g.g_inventory)
      ∧ (asdu.tid ≠ Recon.C_IC_NA_1 →
        (Recon.asduReceivedHandler r g asdu).g_gi_confirmed = g.g_gi_confirmed
        ∧ (Recon.asduReceivedHandler r g asdu).g_gi_terminated = g.g_gi_terminated)
      ∧ (∃ added, (Recon.asduReceivedHandler r g asdu).g_inventory.entries
          = g.g_inventory.entries ++ added)
      ∧ (∀ c ∈ [Recon.CS101_COT_INTERROGATED_BY_STATION, Recon.CS101_COT_SPONTANEOUS,
            Recon.CS101_COT_PERIODIC],
          (Recon.asduReceivedHandler realloc_always globals_start
            (asdu_with_cause c)).g_inventory.count = 2)
      ∧ (Recon.asduReceivedHandler realloc_always globals_start
          (asdu_with_cause 5)).g_inventory.count = 0
      ∧ (Recon.asduReceivedHandler realloc_always globals_start
          { asdu_with_cause Recon.CS101_COT_INTERROGATED_BY_STATION with
            tid := Recon.C_IC_NA_1 }).g_inventory.count = 0 := by
  have hinv : asdu.tid = Recon.C_IC_NA_1 →
      (Recon.asduReceivedHandler r g asdu).g_inventory = g.g_inventory := by
    intro h1
    unfold Recon.asduReceivedHandler
    rw [if_pos h1]
    split
    · split <;> rfl
    · split <;> rfl
  have hcause : asdu.tid ≠ Recon.C_IC_NA_1 → is_collected_cause asdu.cot = false →
      Recon.asduReceivedHandler r g asdu = g := by
    intro h1 h2
    unfold is_collected_cause at h2
    simp only [Bool.or_eq_false_iff, beq_eq_false_iff_ne, ne_eq] at h2
    unfold Recon.asduReceivedHandler
    rw [if_neg h1, if_pos ⟨h2.1.1, h2.1.2, h2.2⟩]
  have hdata : asdu.tid ≠ Recon.C_IC_NA_1 → is_collected_cause asdu.cot = true →
      Recon.asduReceivedHandler r g asdu
        = { g with g_inventory := Recon.dispatch_by_type r asdu g.g_inventory } := by
    intro h1 h2
    unfold is_collected_cause at h2
    simp only [Bool.or_eq_true, beq_iff_eq] at h2
    unfold Recon.asduReceivedHandler
    rw [if_neg h1, if_neg (by intro h; rcases h2 with (h3 | h3) | h3
                              · exact h.1 h3
                              · exact h.2.1 h3
                              · exact h.2.2 h3)]
  have hquiet : is_collected_cause asdu.cot = false →
      (Recon.asduReceivedHandler r g asdu).g_inventory = g.g_inventory := by
    intro h2
    by_cases h1 : asdu.tid = Recon.C_IC_NA_1
    · exact hinv h1
    · rw [hcause h1 h2]
  refine ⟨?_, hquiet, ?_, ?_, ?_, ?_, by decide, by decide, by decide⟩
  · intro h1
    refine ⟨hinv h1, ?_, ?_⟩
    · unfold Recon.asduReceivedHandler
      rw [if_pos h1]
      by_cases h2 : asdu.cot = Recon.CS101_COT_ACTIVATION_CON
      · rw [if_pos h2]
        cases h3 : asdu.negative <;> simp [h2]
      · rw [if_neg h2]
        have h2b : (asdu.cot == Recon.CS101_COT_ACTIVATION_CON) = false := by
          simpa using h2
        rw [h2b]
        split <;> simp
    · unfold Recon.asduReceivedHandler
      rw [if_pos h1]
      by_cases h2 : asdu.cot = Recon.CS101_COT_ACTIVATION_CON
      · rw [if_pos h2]
        have h3 : (asdu.cot == Recon.CS101_COT_ACTIVATION_TERMINATION) = false := by
          rw [h2]; decide
        rw [h3]
        split <;> simp
      · rw [if_neg h2]
        by_cases h3 : asdu.cot = Recon.CS101_COT_ACTIVATION_TERMINATION
        · rw [if_pos h3]
          simp [h3]
        · rw [if_neg h3]
          have h3b : (asdu.cot == Recon.CS101_COT_ACTIVATION_TERMINATION) = false := by
            simpa using h3
          rw [h3b]
          simp
  · intro hne
    refine ⟨fun h1 => hne (hinv h1), ?_⟩
    cases h2 : is_collected_cause asdu.cot
    · exact absurd (hquiet h2) hne
    · rfl
  · intro h1 h2
    rw [hdata h1 h2]
  · intro h1
    cases h2 : is_collected_cause asdu.cot
    · rw [hcause h1 h2]
      exact ⟨rfl, rfl⟩
    · rw [hdata h1 h2]
      exact ⟨rfl, rfl⟩
  · by_cases h1 : asdu.tid = Recon.C_IC_NA_1
    · exact ⟨[], by rw [hinv h1, List.append_nil]⟩
    · cases h2 : is_collected_cause asdu.cot
      · exact ⟨[], by rw [hcause h1 h2, List.append_nil]⟩
      · obtain ⟨added, h3, _⟩ := Recon.dispatch_by_type_entries r asdu g.g_inventory
        exact ⟨added, by rw [hdata h1 h2]; exact h3⟩

end PlagueV
